import Mathlib

/-!
Verification of the clove request-dispatch core against its specification.
Shallow embedding of the account pool, the processing pipeline stages and
the event machinery, translated from the Python source.  Python strings
are modelled as lists of characters, timestamps as natural numbers.
-/

abbrev Str := List Char

/-- Python `needle.startswith(pat)` / `str.startswith`: `isPrefixB pat s`
decides whether `pat` is a prefix of `s`. -/
def isPrefixB : Str → Str → Bool
  | [], _ => true
  | _ :: _, [] => false
  | a :: as, b :: bs => a == b && isPrefixB as bs

/-- Python `needle in hay` (substring containment). -/
def containsSub (hay needle : Str) : Bool :=
  isPrefixB needle hay ||
    (match hay with
     | [] => false
     | _ :: t => containsSub t needle)

/-- Python `str.lower` restricted to ASCII, as used on capability strings. -/
def lowerStr (s : Str) : Str := s.map Char.toLower

/-! ## Account model (src/app/core/account.py) -/

/-- `AccountStatus` from src/app/core/account.py. -/
inductive AccountStatus where
  | valid | invalid | rate_limited
deriving DecidableEq, Repr

/-- `AuthType` from src/app/core/account.py. -/
inductive AuthType where
  | cookie_only | oauth_only | both
deriving DecidableEq, Repr

/-- `OAuthToken` from src/app/core/account.py. -/
structure OAuthToken where
  access_token : Str
  refresh_token : Str
  expires_at : Nat
deriving DecidableEq, Repr

/-- `Account` from src/app/core/account.py. -/
structure Account where
  organization_uuid : Str
  capabilities : Option (List Str)
  cookie_value : Option Str
  status : AccountStatus
  auth_type : AuthType
  last_used : Nat
  resets_at : Option Nat
  oauth_token : Option OAuthToken
deriving DecidableEq, Repr

/-- `Account.__init__`: a fresh account is VALID with no `resets_at`. -/
def Account.init (organization_uuid : Str) (capabilities : Option (List Str))
    (cookie_value : Option Str) (oauth_token : Option OAuthToken)
    (auth_type : AuthType) (now : Nat) : Account :=
  { organization_uuid := organization_uuid
    capabilities := capabilities
    cookie_value := cookie_value
    status := AccountStatus.valid
    auth_type := auth_type
    last_used := now
    resets_at := none
    oauth_token := oauth_token }

/-- `Account.is_pro` from src/app/core/account.py: some capability contains
one of the pro keywords (case-insensitively). -/
def Account.is_pro (a : Account) : Bool :=
  match a.capabilities with
  | none => false
  | some caps =>
      caps.any (fun cap =>
        (["pro".toList, "enterprise".toList, "raven".toList, "max".toList]).any
          (fun kw => containsSub (lowerStr cap) kw))

/-- `Account.is_max` from src/app/core/account.py. -/
def Account.is_max (a : Account) : Bool :=
  match a.capabilities with
  | none => false
  | some caps => caps.any (fun cap => containsSub (lowerStr cap) "max".toList)

/-- The exceptions inspected by `Account.__exit__`
(src/app/core/exceptions.py): a rate-limit error carrying `resets_at`, a
disabled-organisation error, or any other exception. -/
inductive BorrowExc where
  | claudeRateLimited (resets_at : Nat)
  | organizationDisabled
  | otherExc
deriving DecidableEq, Repr

/-- `Account.__enter__` from src/app/core/account.py: refreshes `last_used`. -/
def Account.enter (a : Account) (now : Nat) : Account :=
  { a with last_used := now }

/-- `Account.__exit__` from src/app/core/account.py: classifies the raised
exception into a status mutation.  The boolean is the Python return value
(`False`: the exception always propagates). -/
def Account.exit (a : Account) (exc : Option BorrowExc) : Account × Bool :=
  match exc with
  | some (BorrowExc.claudeRateLimited t) =>
      ({ a with status := AccountStatus.rate_limited, resets_at := some t }, false)
  | some BorrowExc.organizationDisabled =>
      ({ a with status := AccountStatus.invalid }, false)
  | _ => (a, false)

/-! ## Account manager state (src/app/services/account.py) -/

/-- The mutable state of `AccountManager`: the four registries, in
insertion order (Python dicts preserve insertion order). -/
structure AccountManagerState where
  accounts : List (Str × Account)
  cookie_to_uuid : List (Str × Str)
  session_accounts : List (Str × Str)
  account_sessions : List (Str × List Str)
deriving DecidableEq, Repr

/-- `len(self._account_sessions[organization_uuid])` (defaultdict(set):
a missing key denotes the empty set). -/
def sessionCount (st : AccountManagerState) (organization_uuid : Str) : Nat :=
  ((st.account_sessions.lookup organization_uuid).getD []).length

/-- The capability filters of `get_account_for_session` /
`get_account_for_oauth`: `is_pro`/`is_max` are `None`-able booleans. -/
def matchesFilters (a : Account) (is_pro is_max : Option Bool) : Bool :=
  (match is_pro with | none => true | some b => a.is_pro == b) &&
  (match is_max with | none => true | some b => a.is_max == b)

/-- One iteration of the selection loop of
`AccountManager.get_account_for_session` (lines 182-211).  The
accumulator carries `(best_account, min_sessions, earliest_last_used)`;
`none` plays the role of `best_account is None` / `float("inf")`. -/
def selStep (maxSessions : Nat) (countOf : Str → Nat)
    (is_pro is_max : Option Bool)
    (acc : Option (Account × Nat × Nat)) (a : Account) :
    Option (Account × Nat × Nat) :=
  if a.status ≠ AccountStatus.valid then acc
  else if a.auth_type ∉ [AuthType.both, AuthType.cookie_only] then acc
  else if ¬ matchesFilters a is_pro is_max then acc
  else
    let sc := countOf a.organization_uuid
    if sc ≥ maxSessions then acc
    else
      match acc with
      | none => some (a, sc, a.last_used)
      | some (_, m, e) =>
          if sc < m ∨ (sc = m ∧ a.last_used < e) then some (a, sc, a.last_used)
          else acc

/-- Replace the binding of `k` in an association list (Python `d[k] = v`
on an existing or new key; insertion order preserved for existing keys). -/
def setAssoc (l : List (Str × α)) (k : Str) (v : α) : List (Str × α) :=
  if (l.lookup k).isSome then
    l.map (fun p => if p.1 == k then (k, v) else p)
  else l ++ [(k, v)]

/-- Remove the binding of `k` (Python `del d[k]`, total: no-op if absent). -/
def delAssoc (l : List (Str × α)) (k : Str) : List (Str × α) :=
  l.filter (fun p => p.1 ≠ k)

/-- Python `self._account_sessions[org].add(sid)` on the defaultdict. -/
def addSession (st : AccountManagerState) (org sid : Str) : AccountManagerState :=
  let cur := (st.account_sessions.lookup org).getD []
  let cur' := if sid ∈ cur then cur else cur ++ [sid]
  { st with account_sessions := setAssoc st.account_sessions org cur' }

/-- Python `self._account_sessions[org].discard(sid)` on the defaultdict. -/
def discardSession (st : AccountManagerState) (org sid : Str) : AccountManagerState :=
  let cur := (st.account_sessions.lookup org).getD []
  { st with account_sessions := setAssoc st.account_sessions org (cur.filter (· ≠ sid)) }

/-- Whether the early-return branch of `get_account_for_session` fires:
the session is already bound to a still-registered VALID account. -/
def hasValidBinding (st : AccountManagerState) (session_id : Str) : Bool :=
  match st.session_accounts.lookup session_id with
  | none => false
  | some org =>
      match st.accounts.lookup org with
      | none => false
      | some a => a.status == AccountStatus.valid

/-- The early branch of `AccountManager.get_account_for_session`
(lines 168-176): `Sum.inl` is the early return of a still-VALID bound
account; `Sum.inr` carries the state in which the selection loop will
run (a stale binding has been dropped). -/
def sessionEarlyPhase (st : AccountManagerState) (session_id : Str) :
    (Account × AccountManagerState) ⊕ AccountManagerState :=
  match st.session_accounts.lookup session_id with
  | none => Sum.inr st
  | some org =>
      match st.accounts.lookup org with
      | none => Sum.inr st
      | some a =>
          if a.status = AccountStatus.valid then Sum.inl (a, st)
          else
            Sum.inr (discardSession
              { st with session_accounts := delAssoc st.session_accounts session_id }
              org session_id)

/-- The state in which the selection loop of `get_account_for_session`
runs (identical to the input state unless a stale binding was dropped). -/
def sessionSelectState (st : AccountManagerState) (session_id : Str) :
    AccountManagerState :=
  match sessionEarlyPhase st session_id with
  | Sum.inl (_, st') => st'
  | Sum.inr st' => st'

/-- `AccountManager.get_account_for_session` from
src/app/services/account.py (lines 150-224). -/
def get_account_for_session (maxSessions : Nat) (st : AccountManagerState)
    (session_id : Str) (is_pro is_max : Option Bool) :
    Except Unit (Account × AccountManagerState) :=
  match sessionEarlyPhase st session_id with
  | Sum.inl r => Except.ok r
  | Sum.inr st' =>
      let best := (st'.accounts.map Prod.snd).foldl
        (selStep maxSessions (sessionCount st') is_pro is_max) none
      match best with
      | some (a, _, _) =>
          let st'' := addSession
            { st' with session_accounts := setAssoc st'.session_accounts session_id a.organization_uuid }
            a.organization_uuid session_id
          Except.ok (a, st'')
      | none => Except.error ()

/-- One iteration of the selection loop of
`AccountManager.get_account_for_oauth` (lines 244-259): earliest
`last_used` among VALID accounts with an OAuth-capable auth type. -/
def oauthSelStep (is_pro is_max : Option Bool)
    (acc : Option (Account × Nat)) (a : Account) : Option (Account × Nat) :=
  if a.status ≠ AccountStatus.valid then acc
  else if a.auth_type ∉ [AuthType.oauth_only, AuthType.both] then acc
  else if ¬ matchesFilters a is_pro is_max then acc
  else
    match acc with
    | none => some (a, a.last_used)
    | some (_, e) => if a.last_used < e then some (a, a.last_used) else acc

/-- `AccountManager.get_account_for_oauth` from
src/app/services/account.py (lines 226-268).  The function performs no
assignment to any registry or account, so the embedded translation
returns the manager state unchanged alongside the result. -/
def get_account_for_oauth (st : AccountManagerState)
    (is_pro is_max : Option Bool) :
    Except Unit Account × AccountManagerState :=
  let best := (st.accounts.map Prod.snd).foldl (oauthSelStep is_pro is_max) none
  match best with
  | some (a, _) => (Except.ok a, st)
  | none => (Except.error (), st)

/-- The per-account body of `AccountManager._check_and_recover_accounts`
(lines 308-323): a RATE_LIMITED account whose `resets_at` has passed
becomes VALID with `resets_at` cleared. -/
def recoverAccount (now : Nat) (a : Account) : Account :=
  if a.status == AccountStatus.rate_limited &&
     (match a.resets_at with | some r => decide (now ≥ r) | none => false) then
    { a with status := AccountStatus.valid, resets_at := none }
  else a

/-- `AccountManager._check_and_recover_accounts` over the full registry. -/
def checkAndRecoverAccounts (now : Nat) (st : AccountManagerState) :
    AccountManagerState :=
  { st with accounts := st.accounts.map (fun p => (p.1, recoverAccount now p.2)) }

/-- The failure branch of `AccountManager._refresh_account_token`
(lines 350-362): on refresh failure a BOTH account is downgraded to
COOKIE_ONLY and loses its token, any other account becomes INVALID. -/
def refreshFailure (a : Account) : Account :=
  if a.auth_type = AuthType.both then
    { a with auth_type := AuthType.cookie_only, oauth_token := none }
  else
    { a with status := AccountStatus.invalid }

/-- The header handling of `ClaudeAPIProcessor.process`
(src/app/processors/claude_ai/claude_api_processor.py lines 108-117):
any `anthropic-ratelimit-unified-reset` response header value is parsed
as an integer and written into the borrowed account's `resets_at`; a
parse failure clears `resets_at`.  The status is not touched.
`parseTs` models Python `int(...)` on the header string. -/
def apiHeaderHandling (a : Account) (header : Option Str)
    (parseTs : Str → Option Nat) : Account :=
  match header with
  | none => a
  | some h =>
      if h.isEmpty then a
      else
        match parseTs h with
        | some n => { a with resets_at := some n }
        | none => { a with resets_at := none }

/-- The invariant claimed by the specification:
`resets_at ≠ null ⇒ status = RATE_LIMITED`. -/
def resetsAtInvariant (a : Account) : Prop :=
  a.resets_at ≠ none → a.status = AccountStatus.rate_limited

instance (a : Account) : Decidable (resetsAtInvariant a) := by
  unfold resetsAtInvariant; infer_instance

/-- Python truthiness of an optional string (`if cookie_value:`). -/
def optStrTruthy : Option Str → Bool
  | none => false
  | some s => !s.isEmpty

/-- Side effects of `AccountManager.add_account` that the idempotence
claim is about: whether organisation discovery ran, whether the account
file was re-persisted, whether a new `Account` object was created, and
whether an asynchronous OAuth-authentication task was spawned. -/
structure AddAccountEffects where
  calledOrgInfo : Bool
  calledSave : Bool
  createdNew : Bool
  spawnedOauthTask : Bool
deriving DecidableEq, Repr

/-- The no-effect record. -/
def AddAccountEffects.none : AddAccountEffects :=
  ⟨false, false, false, false⟩

/-- `AccountManager.add_account` from src/app/services/account.py
(lines 48-125).  External interactions are supplied as oracles:
`orgInfo` models `oauth_authenticator.get_organization_info`
(`Except` for OrganizationInfoError), `freshUuid` models
`uuid.uuid4()`, `now` the creation timestamp.  The result carries the
returned account, the successor state and the observed effects. -/
def add_account (st : AccountManagerState)
    (cookie_value : Option Str) (oauth_token : Option OAuthToken)
    (organization_uuid : Option Str) (capabilities : Option (List Str))
    (orgInfo : Str → Except Unit (Option Str × Option (List Str)))
    (freshUuid : Str) (now : Nat) :
    Except Unit (Account × AccountManagerState × AddAccountEffects) :=
  -- `if not cookie_value and not oauth_token: raise ValueError`
  if ¬ (optStrTruthy cookie_value ∨ oauth_token.isSome) then Except.error ()
  else
    -- `if cookie_value and cookie_value in self._cookie_to_uuid: return ...`
    match cookie_value with
    | some c =>
        if !c.isEmpty ∧ (st.cookie_to_uuid.lookup c).isSome then
          match (st.cookie_to_uuid.lookup c).bind st.accounts.lookup with
          | some a => Except.ok (a, st, AddAccountEffects.none)
          | none => Except.error ()   -- Python KeyError
        else addAccountAfterCookieCheck st cookie_value oauth_token
               organization_uuid capabilities orgInfo freshUuid now
    | none => addAccountAfterCookieCheck st cookie_value oauth_token
               organization_uuid capabilities orgInfo freshUuid now
where
  /-- Lines 72-125 of src/app/services/account.py: organisation
  discovery, merge into an existing account, or creation. -/
  addAccountAfterCookieCheck (st : AccountManagerState)
      (cookie_value : Option Str) (oauth_token : Option OAuthToken)
      (organization_uuid : Option Str) (capabilities : Option (List Str))
      (orgInfo : Str → Except Unit (Option Str × Option (List Str)))
      (freshUuid : Str) (now : Nat) :
      Except Unit (Account × AccountManagerState × AddAccountEffects) := do
    -- `if cookie_value and (not organization_uuid or not capabilities):`
    let (org, caps, discovered) ←
      match cookie_value with
      | some c =>
          if !c.isEmpty &&
             (!optStrTruthy organization_uuid ||
              !(match capabilities with | some l => !l.isEmpty | none => false)) then
            match orgInfo c with
            | Except.error _ => Except.error ()
            | Except.ok (fetched, caps') =>
                Except.ok
                  (match fetched with
                   | some u => (some u, caps', true)
                   | none => (organization_uuid, caps', true))
          else Except.ok (organization_uuid, capabilities, false)
      | none => Except.ok (organization_uuid, capabilities, false)
    -- `if organization_uuid and organization_uuid in self._accounts:` merge
    match org with
    | some u =>
        if (match st.accounts.lookup u with | some _ => true | none => false) then
          match st.accounts.lookup u with
          | some existing =>
              let (existing', st') :=
                match cookie_value with
                | some c =>
                    if !c.isEmpty ∧ existing.cookie_value ≠ some c then
                      let st₁ :=
                        match existing.cookie_value with
                        | some old =>
                            { st with cookie_to_uuid := delAssoc st.cookie_to_uuid old }
                        | none => st
                      let e' := { existing with cookie_value := some c }
                      let st₂ := { st₁ with
                        accounts := setAssoc st₁.accounts u e',
                        cookie_to_uuid := setAssoc st₁.cookie_to_uuid c u }
                      (e', st₂)
                    else (existing, st)
                | none => (existing, st)
              Except.ok (existing', st',
                { calledOrgInfo := discovered, calledSave := false,
                  createdNew := false, spawnedOauthTask := false })
          | none => Except.error ()   -- unreachable
        else createNew st cookie_value oauth_token u caps discovered now
    | none => createNew st cookie_value oauth_token freshUuid caps discovered now
  /-- Lines 94-125: creation of a new account. -/
  createNew (st : AccountManagerState) (cookie_value : Option Str)
      (oauth_token : Option OAuthToken) (u : Str)
      (caps : Option (List Str)) (discovered : Bool) (now : Nat) :
      Except Unit (Account × AccountManagerState × AddAccountEffects) :=
    let auth_type :=
      if optStrTruthy cookie_value ∧ oauth_token.isSome then AuthType.both
      else if optStrTruthy cookie_value then AuthType.cookie_only
      else AuthType.oauth_only
    let account := Account.init u caps cookie_value oauth_token auth_type now
    let st₁ := { st with accounts := setAssoc st.accounts u account }
    let st₂ :=
      match cookie_value with
      | some c =>
          if !c.isEmpty then { st₁ with cookie_to_uuid := setAssoc st₁.cookie_to_uuid c u }
          else st₁
      | none => st₁
    Except.ok (account, st₂,
      { calledOrgInfo := discovered, calledSave := true, createdNew := true,
        spawnedOauthTask := auth_type == AuthType.cookie_only })

/-! ## Missing stickiness lookup (claim C1)

`ClaudeAPIProcessor.process` (line 79) calls
`account_manager.get_account_by_id(cached_account_id)`.  Python resolves
the method by attribute lookup on the `AccountManager` instance at call
time; a missing attribute raises `AttributeError`. -/

/-- The attributes (methods) defined by `class AccountManager` in
src/app/services/account.py. -/
def accountManagerMethodNames : List String :=
  ["__new__", "__init__", "add_account", "remove_account",
   "get_account_for_session", "get_account_for_oauth", "release_session",
   "start_task", "stop_task", "_task_loop", "_check_and_recover_accounts",
   "_check_and_refresh_accounts", "_refresh_account_token",
   "_attempt_oauth_authentication", "get_status", "save_accounts",
   "load_accounts", "__repr__"]

/-- Exceptions reaching the `try` of `ClaudeAPIProcessor.process`. -/
inductive PyExc where
  | attributeError (name : String)
  | noAccountsAvailable
  | invalidModelName
  | otherExc
deriving DecidableEq, Repr

/-- Python attribute lookup on the `AccountManager` singleton. -/
def managerAttrLookup (name : String) : Except PyExc Unit :=
  if accountManagerMethodNames.contains name then Except.ok ()
  else Except.error (PyExc.attributeError name)

/-- The sticky-account resolution step of `ClaudeAPIProcessor.process`
(lines 77-81): when the cache registry reported a `cached_account_id`,
the processor calls `account_manager.get_account_by_id(...)`.  The
continuation after a successful attribute lookup is irrelevant here
because the attribute does not exist in the class. -/
def resolveCachedAccount (st : AccountManagerState)
    (cached_account_id : Option Str) : Except PyExc (Option Account) :=
  match cached_account_id with
  | none => Except.ok none
  | some cid => do
      _ ← managerAttrLookup "get_account_by_id"
      pure (st.accounts.lookup cid)

/-- The `except` clause of `ClaudeAPIProcessor.process` (line 186):
only NoAccountsAvailableError and InvalidModelNameError are swallowed. -/
def apiProcessorCatches : PyExc → Bool
  | PyExc.noAccountsAvailable => true
  | PyExc.invalidModelName => true
  | _ => false

/-! ## JSON values

A model of the JSON data manipulated by `json.loads` / pydantic
`model_dump_json`.  Numbers are restricted to integers: every numeric
field of the streaming-event models is declared `int`, and floating
point is outside the shallow embedding. -/

inductive Json where
  | null : Json
  | bool (b : Bool) : Json
  | num (n : Int) : Json
  | str (s : Str) : Json
  | arr (items : List Json) : Json
  | obj (fields : List (Str × Json)) : Json

/-! ## Content and message models (src/app/models/claude.py)

Pydantic models translated field by field.  `Literal` discriminators
become constructors; `Optional[_] = None` fields become `Option`;
`extra="allow"` payloads beyond the declared fields are outside the
modelled domain. -/

/-- `ImageType` from src/app/models/claude.py. -/
inductive ImageType where
  | jpeg | png | gif | webp
deriving DecidableEq, Repr

/-- The MIME string of an `ImageType` value. -/
def ImageType.toStr : ImageType → Str
  | jpeg => "image/jpeg".toList
  | png => "image/png".toList
  | gif => "image/gif".toList
  | webp => "image/webp".toList

/-- Python `ImageType(s)`: enum construction from the MIME string. -/
def ImageType.ofStr (s : Str) : Option ImageType :=
  if s = "image/jpeg".toList then some jpeg
  else if s = "image/png".toList then some png
  else if s = "image/gif".toList then some gif
  else if s = "image/webp".toList then some webp
  else none

/-- `Base64ImageSource | URLImageSource | FileImageSource` from
src/app/models/claude.py. -/
inductive ImageSource where
  | base64 (media_type : ImageType) (data : Str)
  | url (url : Str)
  | file (file_uuid : Str)
deriving DecidableEq, Repr

/-- `WebSearchResult` from src/app/models/claude.py. -/
structure WebSearchResult where
  title : Str
  url : Str
  encrypted_content : Str
  page_age : Option Str
deriving DecidableEq, Repr

mutual
/-- The `ContentBlock` union from src/app/models/claude.py.  `tool_use`
and `server_tool_use` carry a free-form JSON object (`Dict[str, Any]`);
`tool_result.content` is either a string or a list of text/image blocks
(modelled by `ToolResultInner`). -/
inductive ContentBlock where
  | text (text : Str)
  | image (source : ImageSource)
  | thinking (thinking : Str)
  | tool_use (id : Str) (name : Str) (input : List (Str × Json))
  | tool_result (tool_use_id : Str) (content : ToolResultContentV)
      (is_error : Option Bool)
  | server_tool_use (id : Str) (name : Str) (input : List (Str × Json))
  | web_search_tool_result (tool_use_id : Str) (content : List WebSearchResult)

/-- `ToolResultContent.content : str | List[TextContent | ImageContent]`. -/
inductive ToolResultContentV where
  | s (text : Str)
  | blocks (blocks : List ToolResultBlock)

/-- The inner `TextContent | ImageContent` union of a tool result. -/
inductive ToolResultBlock where
  | text (text : Str)
  | image (source : ImageSource)
end

/-- `ServerToolUsage` from src/app/models/claude.py. -/
structure ServerToolUsage where
  web_search_requests : Option Int
deriving DecidableEq, Repr

/-- `Usage` from src/app/models/claude.py.  The two cache counters are
`Optional[int] = 0`: absent fields validate to `0`, not `None`. -/
structure Usage where
  input_tokens : Int
  output_tokens : Int
  cache_creation_input_tokens : Option Int
  cache_read_input_tokens : Option Int
  server_tool_use : Option ServerToolUsage
deriving DecidableEq, Repr

/-- The `stop_reason` literals of `Message` from src/app/models/claude.py
(a superset of the four literals allowed in `MessageDeltaData`). -/
inductive StopReason where
  | end_turn | max_tokens | stop_sequence | tool_use | pause_turn | refusal
deriving DecidableEq, Repr

/-- The wire string of a `stop_reason` literal. -/
def StopReason.toStr : StopReason → Str
  | end_turn => "end_turn".toList
  | max_tokens => "max_tokens".toList
  | stop_sequence => "stop_sequence".toList
  | tool_use => "tool_use".toList
  | pause_turn => "pause_turn".toList
  | refusal => "refusal".toList

/-- `Message` from src/app/models/claude.py (`type` and `role` are fixed
literals `"message"` / `"assistant"` and are left implicit). -/
structure Message where
  id : Str
  content : List ContentBlock
  model : Str
  stop_reason : Option StopReason
  stop_sequence : Option Str
  usage : Option Usage

/-! ## Streaming event models (src/app/models/streaming.py) -/

/-- The `Delta` union from src/app/models/streaming.py. -/
inductive Delta where
  | text_delta (text : Str)
  | input_json_delta (partial_json : Str)
  | thinking_delta (thinking : Str)
  | signature_delta (signature : Str)
deriving DecidableEq, Repr

/-- `MessageDeltaData` from src/app/models/streaming.py. -/
structure MessageDeltaData where
  stop_reason : Option StopReason
  stop_sequence : Option Str
deriving DecidableEq, Repr

/-- `ErrorInfo` from src/app/models/streaming.py. -/
structure ErrorInfo where
  type : Str
  message : Str
deriving DecidableEq, Repr

/-- The `StreamingEvent` union from src/app/models/streaming.py, with
the `type` literal of each member as constructor. -/
inductive StreamingEvent where
  | message_start (message : Message)
  | content_block_start (index : Int) (content_block : ContentBlock)
  | content_block_delta (index : Int) (delta : Delta)
  | content_block_stop (index : Int)
  | message_delta (delta : MessageDeltaData) (usage : Option Usage)
  | message_stop
  | ping
  | error (error : ErrorInfo)
  | unknown (type : Str) (data : Json)

/-! ## Messages API request (src/app/models/claude.py)

Only the fields read by the modelled operations are carried.  The float
fields `temperature` / `top_p` and the unused option fields
(`metadata`, `tool_choice`, `tools`, `thinking`, `top_k`) are not part
of any modelled operation and are omitted. -/

/-- `Role` from src/app/models/claude.py. -/
inductive Role where
  | user | assistant
deriving DecidableEq, Repr

/-- `InputMessage.content : Union[str, List[ContentBlock]]`. -/
inductive MsgContent where
  | s (text : Str)
  | blocks (blocks : List ContentBlock)

/-- `InputMessage` from src/app/models/claude.py. -/
structure InputMessage where
  role : Role
  content : MsgContent

/-- `MessagesAPIRequest` from src/app/models/claude.py (restricted to
the fields the modelled operations read; `system` keeps the texts of
its `TextContent` entries). -/
structure MessagesAPIRequest where
  model : Str
  messages : List InputMessage
  max_tokens : Int
  system : Option (Str ⊕ List Str)
  stop_sequences : Option (List Str)
  stream : Option Bool

/-! ## Pipeline runner (src/app/processors/pipeline.py) -/

/-- The slice of `ClaudeAIContext` / `BaseContext` the modelled
processors read and write: the parsed request, the buffered response
(the `Message` given to `JSONResponse`), and the two metadata keys
`stop_pipeline` and `skip_processors`. -/
structure PipelineCtx where
  messages_api_request : Option MessagesAPIRequest
  response : Option Message
  stop_pipeline : Bool
  skip_processors : List String

/-- `ProcessingPipeline.process` from src/app/processors/pipeline.py
(lines 39-54): run the processors in order, skipping those whose name
is in `skip_processors` and breaking when `stop_pipeline` is set. -/
def runPipeline : List (String × (PipelineCtx → PipelineCtx)) → PipelineCtx → PipelineCtx
  | [], ctx => ctx
  | (name, p) :: rest, ctx =>
      if ctx.skip_processors.contains name then runPipeline rest ctx
      else
        let ctx' := p ctx
        if ctx'.stop_pipeline then ctx' else runPipeline rest ctx'

/-! ## Test message processor
(src/app/processors/claude_ai/tavern_test_message_processor.py) -/

/-- The test-message criteria of `TestMessageProcessor.process`
(lines 36-52): exactly one user message whose content is the string
`"Hi"` (or a single text block `"Hi"`), with `stream is False`. -/
def testMessageCriteria (req : MessagesAPIRequest) : Bool :=
  req.messages.length == 1 &&
  (match req.messages with
   | [m] =>
       m.role == Role.user &&
       req.stream == some false &&
       (match m.content with
        | MsgContent.s t => t == "Hi".toList
        | MsgContent.blocks bs =>
            match bs with
            | [ContentBlock.text t] => t == "Hi".toList
            | _ => false)
   | _ => false)

/-- The canned response `Message` built at lines 55-66 (`freshId`
models the random `msg_…` identifier). -/
def cannedTestMessage (freshId : Str) (model : Str) : Message :=
  { id := freshId
    content := [ContentBlock.text "Hello! How can I assist you today?".toList]
    model := model
    stop_reason := some StopReason.end_turn
    stop_sequence := none
    usage := some { input_tokens := 1, output_tokens := 9,
                    cache_creation_input_tokens := some 0,
                    cache_read_input_tokens := some 0,
                    server_tool_use := none } }

/-- `TestMessageProcessor.process`. -/
def testMessageProcess (freshId : Str) (ctx : PipelineCtx) : PipelineCtx :=
  match ctx.messages_api_request with
  | none => ctx
  | some req =>
      if testMessageCriteria req then
        { ctx with response := some (cannedTestMessage freshId req.model)
                   stop_pipeline := true }
      else ctx

/-! ## Stop-sequence interception
(src/app/processors/claude_ai/stop_sequences_processor.py) -/

/-- The loop state of `_process_stop_sequences`: the text buffer, the
potential matches `(start_position, matched_text)` and the index of the
last text delta. -/
structure StopSeqState where
  buffer : Str
  potential_matches : List (Nat × Str)
  current_index : Int

/-- Initial state (lines 72-76). -/
def StopSeqState.init : StopSeqState := ⟨[], [], 0⟩

/-- The candidate-extension loop (lines 91-150 without the emission):
extend each candidate with the new character, keep those that are still
a prefix of some stop sequence, and report the first candidate that
completes a stop sequence. -/
def extendCandidates (stop_sequences : List Str) (c : Char) :
    List (Nat × Str) → (List (Nat × Str)) ⊕ (Nat × Str)
  | [] => Sum.inl []
  | (start_pos, matched_text) :: rest =>
      let ext := matched_text ++ [c]
      if stop_sequences.any (fun sq => isPrefixB ext sq) then
        if stop_sequences.contains ext then Sum.inr (start_pos, ext)
        else
          match extendCandidates stop_sequences c rest with
          | Sum.inl l => Sum.inl ((start_pos, ext) :: l)
          | Sum.inr r => Sum.inr r
      else
        match extendCandidates stop_sequences c rest with
        | Sum.inl l => Sum.inl l
        | Sum.inr r => Sum.inr r

/-- Minimum of the start positions (`min(start_pos …)`). -/
def minStart : List (Nat × Str) → Option Nat
  | [] => none
  | (s, _) :: rest =>
      match minStart rest with
      | none => some s
      | some m => some (Nat.min s m)

/-- Result of processing one character (or one chunk): either the
interception fired (the synthetic tail was emitted and the generator
returned) or processing continues in a new state. -/
inductive StopStep where
  | stopped (events : List StreamingEvent)
  | cont (events : List StreamingEvent) (st : StopSeqState)

/-- The per-character body of `_process_stop_sequences` (lines 85-176). -/
def processChar (stop_sequences : List Str) (st : StopSeqState) (c : Char) :
    StopStep :=
  let buffer := st.buffer ++ [c]
  let current_pos := buffer.length - 1
  let pm := st.potential_matches ++ [(current_pos, [])]
  match extendCandidates stop_sequences c pm with
  | Sum.inr (start_pos, ext) =>
      let safe_text := buffer.take start_pos
      let head :=
        if safe_text.isEmpty then []
        else [StreamingEvent.content_block_delta st.current_index
               (Delta.text_delta safe_text)]
      StopStep.stopped (head ++
        [StreamingEvent.content_block_stop st.current_index,
         StreamingEvent.message_delta
           ⟨some StopReason.stop_sequence, some ext⟩ none,
         StreamingEvent.message_stop])
  | Sum.inl new_matches =>
      let safe_length :=
        match minStart new_matches with
        | some m => m
        | none => buffer.length
      if safe_length > 0 then
        let safe_text := buffer.take safe_length
        let shifted := (new_matches.filter (fun p => safe_length ≤ p.1)).map
          (fun p => (p.1 - safe_length, p.2))
        StopStep.cont
          [StreamingEvent.content_block_delta st.current_index
            (Delta.text_delta safe_text)]
          ⟨buffer.drop safe_length, shifted, st.current_index⟩
      else
        StopStep.cont [] ⟨buffer, new_matches, st.current_index⟩

/-- Fold of `processChar` over the characters of one text delta. -/
def processChars (stop_sequences : List Str) (st : StopSeqState) :
    Str → StopStep
  | [] => StopStep.cont [] st
  | c :: cs =>
      match processChar stop_sequences st c with
      | StopStep.stopped evs => StopStep.stopped evs
      | StopStep.cont evs st' =>
          match processChars stop_sequences st' cs with
          | StopStep.stopped evs₂ => StopStep.stopped (evs ++ evs₂)
          | StopStep.cont evs₂ st'' => StopStep.cont (evs ++ evs₂) st''

/-- Result of the whole transformed stream: the emitted events, whether
the interception terminated the stream early, and whether the web
session was evicted (lines 143-148). -/
structure StopSeqResult where
  events : List StreamingEvent
  stoppedEarly : Bool
  evictedSession : Bool

/-- `_process_stop_sequences` over a (finite prefix of an) upstream
event list.  Non-text events flush the buffer and reset the candidate
set (lines 178-191). -/
def runStopSequences (stop_sequences : List Str) (sessionPresent : Bool) :
    StopSeqState → List StreamingEvent → StopSeqResult
  | _, [] => ⟨[], false, false⟩
  | st, ev :: rest =>
      match ev with
      | StreamingEvent.content_block_delta i (Delta.text_delta t) =>
          let st₁ : StopSeqState := { st with current_index := i }
          match processChars stop_sequences st₁ t with
          | StopStep.stopped evs => ⟨evs, true, sessionPresent⟩
          | StopStep.cont evs st₂ =>
              let r := runStopSequences stop_sequences sessionPresent st₂ rest
              ⟨evs ++ r.events, r.stoppedEarly, r.evictedSession⟩
      | _ =>
          let flushed :=
            if st.buffer.isEmpty then []
            else [StreamingEvent.content_block_delta st.current_index
                   (Delta.text_delta st.buffer)]
          let st' :=
            if st.buffer.isEmpty then st
            else { st with buffer := [], potential_matches := [] }
          let r := runStopSequences stop_sequences sessionPresent st' rest
          ⟨flushed ++ [ev] ++ r.events, r.stoppedEarly, r.evictedSession⟩

/-! ## Tool-call interception
(src/app/processors/claude_ai/tool_call_event_processor.py) and the
tool-call registry (src/app/services/tool_call.py) -/

/-- The loop state of `_process_tool_events` (lines 59-62). -/
structure ToolEvState where
  current_tool_use_id : Option Str
  tool_use_detected : Bool
  content_block_index : Option Int
  tool_result_detected : Bool

/-- Initial state. -/
def ToolEvState.init : ToolEvState := ⟨none, false, none, false⟩

/-- An entry of `ToolCallManager.register_tool_call`
(src/app/services/tool_call.py lines 48-64): tool_use_id, session_id
and the optional message id. -/
structure ToolCallReg where
  tool_use_id : Str
  session_id : Str
  message_id : Option Str

/-- Result of `_process_tool_events` over a finite upstream prefix:
the emitted events, the registry entries created, and whether the
upstream read loop was broken (leaving the session open). -/
structure ToolEvResult where
  events : List StreamingEvent
  registered : List ToolCallReg
  broke : Bool

/-- `_process_tool_events` (lines 51-127): remember a `tool_use`
content-block start; suppress `tool_result` blocks; on the matching
`content_block_stop`, emit synthetic `message_delta{tool_use}` and
`message_stop`, register the tool call and break without touching the
session. -/
def runToolEvents (session_id : Str) (collected_message_id : Option Str) :
    ToolEvState → List StreamingEvent → ToolEvResult
  | _, [] => ⟨[], [], false⟩
  | st, ev :: rest =>
      let st₁ :=
        match ev with
        | StreamingEvent.content_block_start idx cb =>
            match cb with
            | ContentBlock.tool_use id _ _ =>
                { st with current_tool_use_id := some id
                          content_block_index := some idx
                          tool_use_detected := true }
            | ContentBlock.tool_result _ _ _ =>
                { st with tool_result_detected := true }
            | _ => st
        | _ => st
      let yielded := if st₁.tool_result_detected then [] else [ev]
      match ev with
      | StreamingEvent.content_block_stop idx =>
          let st₂ :=
            if st₁.tool_result_detected then
              { st₁ with tool_result_detected := false }
            else st₁
          if st₂.tool_use_detected && st₂.content_block_index == some idx then
            let regs :=
              match st₂.current_tool_use_id with
              | some t => if t.isEmpty then [] else
                  [{ tool_use_id := t, session_id := session_id,
                     message_id := collected_message_id }]
              | none => []
            { events := yielded ++
                [StreamingEvent.message_delta ⟨some StopReason.tool_use, none⟩ none,
                 StreamingEvent.message_stop]
              registered := regs
              broke := true }
          else
            let r := runToolEvents session_id collected_message_id st₂ rest
            ⟨yielded ++ r.events, r.registered, r.broke⟩
      | _ =>
          let r := runToolEvents session_id collected_message_id st₁ rest
          ⟨yielded ++ r.events, r.registered, r.broke⟩

/-! ## Message merging utility (src/app/utils/messages.py) -/

/-- The configuration read by the message utility. -/
structure MsgSettings where
  use_real_roles : Bool
  human_name : Str
  assistant_name : Str
  allow_external_images : Bool

/-- The error taxonomy of image extraction
(src/app/core/exceptions.py). -/
inductive ImageErr where
  | externalImageNotAllowed
  | externalImageDownload
deriving DecidableEq, Repr

/-- The base64 alphabet (RFC 4648, as produced by `base64.b64encode`). -/
def b64Alphabet : Str :=
  "ABCDEFGHIJKLMNOPQRSTUVWXYZabcdefghijklmnopqrstuvwxyz0123456789+/".toList

/-- `base64.b64encode` over a byte list. -/
def b64encode : List Nat → Str
  | [] => []
  | [a] =>
      [b64Alphabet.getD (a / 4) 'A',
       b64Alphabet.getD (a % 4 * 16) 'A', '=', '=']
  | [a, b] =>
      [b64Alphabet.getD (a / 4) 'A',
       b64Alphabet.getD (a % 4 * 16 + b / 16) 'A',
       b64Alphabet.getD (b % 16 * 4) 'A', '=']
  | a :: b :: c :: rest =>
      [b64Alphabet.getD (a / 4) 'A',
       b64Alphabet.getD (a % 4 * 16 + b / 16) 'A',
       b64Alphabet.getD (b % 16 * 4 + c / 64) 'A',
       b64Alphabet.getD (c % 64) 'A'] ++ b64encode rest

/-- Python `s.split(sep, 1)`: split at the first occurrence. -/
def splitOnce (sep : Char) : Str → Option (Str × Str)
  | [] => none
  | c :: rest =>
      if c = sep then some ([], rest)
      else
        match splitOnce sep rest with
        | some (a, b) => some (c :: a, b)
        | none => none

/-- `extract_image_from_url` from src/app/utils/messages.py
(lines 107-146).  The network is an oracle: `dl` is the outcome of
`download_image` (bytes and content type), `Except.error` standing for
any raised exception. -/
def extract_image_from_url (settings : MsgSettings)
    (dl : Except Unit (List Nat × Str)) (url : Str) :
    Except ImageErr (Option ImageSource) :=
  if isPrefixB "data:".toList url then
    -- data URL: metadata, base64_data = url.split(",", 1)
    match splitOnce ',' url with
    | none => Except.ok none                    -- ValueError, caught
    | some (metadata, base64_data) =>
        let media_info := metadata.drop 5
        match splitOnce ';' media_info with
        | none => Except.ok none                -- ValueError, caught
        | some (media_type, encoding) =>
            -- pydantic validation of Base64ImageSource(type=encoding, …);
            -- a ValidationError is caught by the same `except Exception`.
            if encoding = "base64".toList then
              match ImageType.ofStr media_type with
              | some mt => Except.ok (some (ImageSource.base64 mt base64_data))
              | none => Except.ok none
            else Except.ok none
  else if settings.allow_external_images &&
          (isPrefixB "http://".toList url || isPrefixB "https://".toList url) then
    match dl with
    | Except.error _ => Except.error ImageErr.externalImageDownload
    | Except.ok (content, content_type) =>
        match ImageType.ofStr content_type with
        | some mt => Except.ok (some (ImageSource.base64 mt (b64encode content)))
        | none => Except.error ImageErr.externalImageDownload
  else if !settings.allow_external_images &&
          (isPrefixB "http://".toList url || isPrefixB "https://".toList url) then
    Except.error ImageErr.externalImageNotAllowed
  else
    Except.ok none

/-- Python `s.endswith("\n")`-driven trim (lines 45-46, 88-89, 101-102):
drop one trailing newline. -/
def rstrip1 (s : Str) : Str :=
  match s.getLast? with
  | some '\n' => s.dropLast
  | _ => s

/-- The role markers (lines 33-38). -/
def rolePre (settings : MsgSettings) (r : Role) : Str :=
  let base := match r with
    | Role.user => settings.human_name
    | Role.assistant => settings.assistant_name
  (if settings.use_real_roles then ['\x08'] else []) ++ base ++ ": ".toList

/-- Python `f"{value}"` on a JSON value (tool-use input rendering,
line 68).  Strings render bare, numbers and booleans in Python style;
container values follow Python `str` on the loaded JSON containers. -/
def jsonValueText : Json → Str
  | Json.null => "None".toList
  | Json.bool true => "True".toList
  | Json.bool false => "False".toList
  | Json.num n => (toString n).toList
  | Json.str s => s
  | Json.arr items =>
      ['['] ++
        List.intercalate ", ".toList
          (items.attach.map (fun x => jsonValueText x.1)) ++ [']']
  | Json.obj fields =>
      ['\x7b'] ++
        List.intercalate ", ".toList
          (fields.attach.map (fun kv =>
            ['\''] ++ kv.1.1 ++ "': ".toList ++ jsonValueText kv.1.2)) ++
        ['\x7d']
decreasing_by
  · have h := List.sizeOf_lt_of_mem x.2
    simp at h ⊢
    omega
  · obtain ⟨⟨k, v⟩, hmem⟩ := kv
    have h := List.sizeOf_lt_of_mem hmem
    simp at h ⊢
    omega

/-- Rendering of one content block inside `process_messages`
(lines 58-99), threading the image list and short-circuiting on an
image-extraction error.  `dl` is the download oracle. -/
def renderBlock (settings : MsgSettings) (dl : Except Unit (List Nat × Str))
    (block : ContentBlock) :
    Except ImageErr (Str × List ImageSource) :=
  match block with
  | ContentBlock.text t => Except.ok (t ++ ['\n'], [])
  | ContentBlock.thinking th =>
      Except.ok (("<\x08antml:thinking>\n".toList ++ th ++
                  "\n</\x08antml:thinking>\n".toList), [])
  | ContentBlock.tool_use _ name input =>
      Except.ok (("<\x08antml:function_calls>\n<\x08antml:invoke name=\"".toList
        ++ name ++ "\">\n".toList
        ++ (input.foldl (fun acc kv =>
              acc ++ "<\x08antml:parameter name=\"".toList ++ kv.1
                  ++ "\">".toList ++ jsonValueText kv.2
                  ++ "</\x08antml:parameter>\n".toList) [])
        ++ "</\x08antml:invoke>\n</\x08antml:function_calls>\n".toList), [])
  | ContentBlock.server_tool_use _ name input =>
      Except.ok (("<\x08antml:function_calls>\n<\x08antml:invoke name=\"".toList
        ++ name ++ "\">\n".toList
        ++ (input.foldl (fun acc kv =>
              acc ++ "<\x08antml:parameter name=\"".toList ++ kv.1
                  ++ "\">".toList ++ jsonValueText kv.2
                  ++ "</\x08antml:parameter>\n".toList) [])
        ++ "</\x08antml:invoke>\n</\x08antml:function_calls>\n".toList), [])
  | ContentBlock.tool_result _ content _ =>
      (match content with
       | ToolResultContentV.s t =>
           Except.ok ("<function_results>".toList ++ t ++ "</function_results>".toList, [])
       | ToolResultContentV.blocks bs => do
           let (txt, imgs) ← bs.foldlM
             (fun (acc : Str × List ImageSource) cb => do
               match cb with
               | ToolResultBlock.text t =>
                   pure (rstrip1 (acc.1 ++ t ++ ['\n']), acc.2)
               | ToolResultBlock.image src =>
                   match src with
                   | ImageSource.base64 _ _ => pure (rstrip1 acc.1, acc.2 ++ [src])
                   | ImageSource.url u =>
                       match extract_image_from_url settings dl u with
                       | Except.error e => Except.error e
                       | Except.ok (some s) =>
                           pure (rstrip1 (acc.1 ++ "(image attached)\n".toList),
                                 acc.2 ++ [s])
                       | Except.ok none => pure (rstrip1 acc.1, acc.2)
                   | ImageSource.file _ => pure (rstrip1 acc.1, acc.2))
             (([] : Str), ([] : List ImageSource))
           Except.ok ("<function_results>".toList ++ txt ++ "</function_results>".toList,
                      imgs))
  | ContentBlock.image src =>
      (match src with
       | ImageSource.base64 _ _ => Except.ok ([], [src])
       | ImageSource.url u =>
           match extract_image_from_url settings dl u with
           | Except.error e => Except.error e
           | Except.ok (some s) => Except.ok ([], [s])
           | Except.ok none => Except.ok ([], [])
       | ImageSource.file _ => Except.ok ([], []))
  | ContentBlock.web_search_tool_result _ _ => Except.ok ([], [])

/-- `process_messages` from src/app/utils/messages.py (lines 23-104):
collapse a system field and a message list into a single prompt string
plus the collected image sources, short-circuiting on image errors. -/
def process_messages (settings : MsgSettings) (dl : Except Unit (List Nat × Str))
    (messages : List InputMessage) (system : Option (Str ⊕ List Str)) :
    Except ImageErr (Str × List ImageSource) := do
  let init : Str :=
    match system with
    | some (Sum.inl s) => s
    | some (Sum.inr texts) =>
        if texts.isEmpty then [] else List.intercalate ['\n'] texts
    | none => []
  let (merged, images, _) ← messages.foldlM
    (fun (acc : Str × List ImageSource × Role) message => do
      let (merged₀, images₀, current_role) := acc
      let merged₁ :=
        if message.role ≠ current_role then
          rstrip1 merged₀ ++ "\n\n".toList ++ rolePre settings message.role
        else merged₀
      let (merged₂, images₁) ←
        match message.content with
        | MsgContent.s t => pure (merged₁ ++ t ++ ['\n'], images₀)
        | MsgContent.blocks bs =>
            bs.foldlM (fun (a : Str × List ImageSource) b => do
              let (t, imgs) ← renderBlock settings dl b
              pure (a.1 ++ t, a.2 ++ imgs)) (merged₁, images₀)
      pure (rstrip1 merged₂, images₁, message.role))
    (init, [], Role.user)
  pure (merged, images)

/-- Python `int(s)` on a decimal timestamp string (only the non-negative
digit-string case, which is what the rate-limit header carries;
any other shape is a `ValueError`, i.e. `none`). -/
def pyParseNat (s : Str) : Option Nat :=
  if s.isEmpty then none
  else if s.all Char.isDigit then
    some (s.foldl (fun acc c => acc * 10 + (c.toNat - '0'.toNat)) 0)
  else none

/-! ## Concrete fixtures used by witnesses and counterexamples -/

/-- A VALID OAuth account with no `resets_at`. -/
def acctValid : Account :=
  { organization_uuid := "org1".toList, capabilities := none,
    cookie_value := none, status := AccountStatus.valid,
    auth_type := AuthType.oauth_only, last_used := 0, resets_at := none,
    oauth_token := none }

/-- A VALID cookie account registered under cookie `"ck"`. -/
def acctCookie : Account :=
  { organization_uuid := "orgC".toList, capabilities := none,
    cookie_value := some "ck".toList, status := AccountStatus.valid,
    auth_type := AuthType.cookie_only, last_used := 3, resets_at := none,
    oauth_token := none }

/-- A one-account manager state with the cookie mapping in place. -/
def stCookie : AccountManagerState :=
  { accounts := [("orgC".toList, acctCookie)],
    cookie_to_uuid := [("ck".toList, "orgC".toList)],
    session_accounts := [], account_sessions := [] }

/-- The health-probe request: one user message `"Hi"`, `stream = false`. -/
def exampleHiRequest : MessagesAPIRequest :=
  { model := "claude-opus-4-20250514".toList,
    messages := [{ role := Role.user, content := MsgContent.s "Hi".toList }],
    max_tokens := 8192, system := none, stop_sequences := none,
    stream := some false }

/-! ## C3: load-balancing selection, candidate predicate and fold facts -/

/-- The candidate conditions of the selection loop of
`get_account_for_session` (lines 182-198): VALID status, cookie-capable
auth type, matching capability filters, strictly below the session cap. -/
def webCandidate (maxSessions : Nat) (countOf : Str → Nat)
    (is_pro is_max : Option Bool) (a : Account) : Bool :=
  a.status == AccountStatus.valid &&
  (a.auth_type == AuthType.both || a.auth_type == AuthType.cookie_only) &&
  matchesFilters a is_pro is_max &&
  decide (countOf a.organization_uuid < maxSessions)

/-- The invariant carried by the selection fold: the accumulator is the
lexicographic argmin (session count, then `last_used`) of the
candidates seen so far. -/
def selInv (countOf : Str → Nat) (cand : Account → Bool)
    (seen : List Account) : Option (Account × Nat × Nat) → Prop
  | none => ∀ b ∈ seen, cand b = false
  | some (a, m, e) =>
      cand a = true ∧ m = countOf a.organization_uuid ∧ e = a.last_used ∧
      a ∈ seen ∧
      ∀ b ∈ seen, cand b = true →
        m < countOf b.organization_uuid ∨
        (m = countOf b.organization_uuid ∧ e ≤ b.last_used)

/-! ## C5: tool-use interception lemmas -/

/-- Whether an event is a `content_block_start` introducing a
`tool_use` block. -/
def startsToolUseB : StreamingEvent → Bool
  | StreamingEvent.content_block_start _ (ContentBlock.tool_use _ _ _) => true
  | _ => false

/-- Whether an event is a `content_block_start` introducing a
`tool_result` block. -/
def startsToolResB : StreamingEvent → Bool
  | StreamingEvent.content_block_start _ (ContentBlock.tool_result _ _ _) => true
  | _ => false

/-- Whether an event is the `content_block_stop` of block index `i`. -/
def stopsAtB (i : Int) : StreamingEvent → Bool
  | StreamingEvent.content_block_stop j => j == i
  | _ => false

/-- The machine state after a `tool_use` block start with id `t` at
index `i` has been observed. -/
def toolDetectedState (t : Str) (i : Int) : ToolEvState :=
  ⟨some t, true, some i, false⟩

/-! ## C6: JSON text layer

`jsonDump` models the compact JSON emitted by pydantic
`model_dump_json` / `json.dumps(…, separators=(",", ":"))`;
`jsonLoads` models `json.loads` on the integer fragment (the streaming
models declare every numeric field `int`; floats are outside the
shallow embedding, and `jsonLoads` is lenient about leading zeros,
which dumped output never produces). -/

/-- Hexadecimal digit (lower case, as `json.dumps` emits). -/
def hexDigit (n : Nat) : Char :=
  if n < 10 then Char.ofNat (48 + n) else Char.ofNat (87 + n)

/-- JSON string escaping of one character (`ensure_ascii` disabled, as
in the serializer: non-ASCII passes through). -/
def escapeChar (c : Char) : Str :=
  if c = '"' then ['\\', '"']
  else if c = '\\' then ['\\', '\\']
  else if c = '\n' then ['\\', 'n']
  else if c = '\r' then ['\\', 'r']
  else if c = '\t' then ['\\', 't']
  else if c.toNat < 32 then
    ['\\', 'u', '0', '0', hexDigit (c.toNat / 16), hexDigit (c.toNat % 16)]
  else [c]

/-- A JSON string literal with quotes and escapes. -/
def jsonDumpStr (s : Str) : Str :=
  '"' :: (s.map escapeChar).flatten ++ ['"']

/-- Decimal digits of a natural number, most significant first. -/
def natToChars (n : Nat) : Str :=
  if h : n < 10 then [Char.ofNat (48 + n)]
  else natToChars (n / 10) ++ [Char.ofNat (48 + n % 10)]
decreasing_by
  exact Nat.div_lt_self (by omega) (by omega)

/-- Decimal rendering of an integer. -/
def intToChars (n : Int) : Str :=
  if n < 0 then '-' :: natToChars (-n).toNat else natToChars n.toNat

/-- Compact JSON rendering of a value. -/
def jsonDump : Json → Str
  | Json.null => "null".toList
  | Json.bool true => "true".toList
  | Json.bool false => "false".toList
  | Json.num n => intToChars n
  | Json.str s => jsonDumpStr s
  | Json.arr items =>
      '[' :: List.intercalate [','] (items.attach.map (fun x => jsonDump x.1)) ++ [']']
  | Json.obj fields =>
      '{' :: List.intercalate [',']
        (fields.attach.map (fun kv =>
          jsonDumpStr kv.1.1 ++ [':'] ++ jsonDump kv.1.2)) ++ ['}']
decreasing_by
  · have h := List.sizeOf_lt_of_mem x.2
    simp at h ⊢
    omega
  · obtain ⟨⟨k, v⟩, hmem⟩ := kv
    have h := List.sizeOf_lt_of_mem hmem
    simp at h ⊢
    omega

/-- JSON whitespace. -/
def isWsChar (c : Char) : Bool :=
  c = ' ' || c = '\n' || c = '\t' || c = '\r'

/-- Skip leading whitespace. -/
def skipWs (s : Str) : Str := s.dropWhile isWsChar

/-- Read a run of decimal digits as a natural number. -/
def readNatDigits (s : Str) : Option (Nat × Str) :=
  let ds := s.takeWhile Char.isDigit
  if ds.isEmpty then none
  else some (ds.foldl (fun a c => a * 10 + (c.toNat - 48)) 0,
             s.dropWhile Char.isDigit)

/-- Parse a JSON number (integer fragment). -/
def parseNum : Str → Option (Json × Str)
  | [] => none
  | c :: s =>
      if c = '-' then
        match readNatDigits s with
        | some (n, r) => some (Json.num (-(n : Int)), r)
        | none => none
      else
        match readNatDigits (c :: s) with
        | some (n, r) => some (Json.num (n : Int), r)
        | none => none

/-- Decode one escape character after a backslash (`\uXXXX` is decoded
for the control range emitted by `escapeChar`). -/
def unescapeChar (c : Char) : Option Char :=
  if c = '"' then some '"'
  else if c = '\\' then some '\\'
  else if c = '/' then some '/'
  else if c = 'n' then some '\n'
  else if c = 'r' then some '\r'
  else if c = 't' then some '\t'
  else if c = 'b' then some (Char.ofNat 8)
  else if c = 'f' then some (Char.ofNat 12)
  else none

/-- Hex digit value. -/
def hexVal (c : Char) : Option Nat :=
  if c.isDigit then some (c.toNat - 48)
  else if 'a' ≤ c ∧ c ≤ 'f' then some (c.toNat - 87)
  else if 'A' ≤ c ∧ c ≤ 'F' then some (c.toNat - 55)
  else none

/-- Parse the body of a JSON string literal (after the opening quote),
returning the decoded string and the remainder after the closing
quote. -/
def parseStrBody : Str → Option (Str × Str)
  | [] => none
  | c :: rest =>
      if c = '"' then some ([], rest)
      else if c = '\\' then
        match rest with
        | [] => none
        | e :: rest2 =>
            if e = 'u' then
              match rest2 with
              | a :: b :: c2 :: d :: rest3 =>
                  (match hexVal a, hexVal b, hexVal c2, hexVal d with
                   | some va, some vb, some vc, some vd =>
                       (match parseStrBody rest3 with
                        | some (s, r) =>
                            some (Char.ofNat
                              (((va * 16 + vb) * 16 + vc) * 16 + vd) :: s, r)
                        | none => none)
                   | _, _, _, _ => none)
              | _ => none
            else
              match unescapeChar e with
              | some c3 =>
                  (match parseStrBody rest2 with
                   | some (s, r) => some (c3 :: s, r)
                   | none => none)
              | none => none
      else if c.toNat < 32 then none
      else
        match parseStrBody rest with
        | some (s, r) => some (c :: s, r)
        | none => none

mutual
/-- Recursive-descent JSON value reader (`json.loads` core), with fuel. -/
def parseVal : Nat → Str → Option (Json × Str)
  | 0, _ => none
  | fuel + 1, s0 =>
      match skipWs s0 with
      | [] => none
      | c :: rest =>
          if c = 'n' then
            (match rest with
             | 'u' :: 'l' :: 'l' :: r => some (Json.null, r)
             | _ => none)
          else if c = 't' then
            (match rest with
             | 'r' :: 'u' :: 'e' :: r => some (Json.bool true, r)
             | _ => none)
          else if c = 'f' then
            (match rest with
             | 'a' :: 'l' :: 's' :: 'e' :: r => some (Json.bool false, r)
             | _ => none)
          else if c = '"' then
            (match parseStrBody rest with
             | some (s, r) => some (Json.str s, r)
             | none => none)
          else if c = '[' then
            (match skipWs rest with
             | [] =>
                 (match parseItems fuel [] with
                  | some (items, r) => some (Json.arr items, r)
                  | none => none)
             | d :: r =>
                 if d = ']' then some (Json.arr [], r)
                 else
                   match parseItems fuel (d :: r) with
                   | some (items, r2) => some (Json.arr items, r2)
                   | none => none)
          else if c = '{' then
            (match skipWs rest with
             | [] =>
                 (match parseMembers fuel [] with
                  | some (fields, r) => some (Json.obj fields, r)
                  | none => none)
             | d :: r =>
                 if d = '}' then some (Json.obj [], r)
                 else
                   match parseMembers fuel (d :: r) with
                   | some (fields, r2) => some (Json.obj fields, r2)
                   | none => none)
          else parseNum (c :: rest)

/-- Array elements after `[`. -/
def parseItems : Nat → Str → Option (List Json × Str)
  | 0, _ => none
  | fuel + 1, s =>
      match parseVal fuel s with
      | none => none
      | some (v, r) =>
          match skipWs r with
          | [] => none
          | d :: r2 =>
              if d = ',' then
                match parseItems fuel r2 with
                | some (vs, r3) => some (v :: vs, r3)
                | none => none
              else if d = ']' then some ([v], r2)
              else none

/-- Object members after `{`. -/
def parseMembers : Nat → Str → Option (List (Str × Json) × Str)
  | 0, _ => none
  | fuel + 1, s =>
      match skipWs s with
      | [] => none
      | q :: rest =>
          if q = '"' then
            match parseStrBody rest with
            | some (k, r) =>
                (match skipWs r with
                 | [] => none
                 | cl :: r2 =>
                     if cl = ':' then
                       match parseVal fuel r2 with
                       | some (v, r3) =>
                           (match skipWs r3 with
                            | [] => none
                            | d :: r4 =>
                                if d = ',' then
                                  match parseMembers fuel r4 with
                                  | some (kvs, r5) => some ((k, v) :: kvs, r5)
                                  | none => none
                                else if d = '}' then some ([(k, v)], r4)
                                else none)
                       | none => none
                     else none)
            | none => none
          else none
end

/-- `json.loads`: parse a complete document. -/
def jsonLoads (s : Str) : Option Json :=
  match parseVal (s.length + 1) s with
  | some (v, r) => if (skipWs r).isEmpty then some v else none
  | none => none

/-! ## C6: pydantic model dump (`model_dump_json(exclude_none=True)`)

Fields are emitted in declaration order; `None`-valued optional fields
are dropped (`exclude_none`); extra (undeclared) fields are outside the
modelled domain. -/

/-- An optional field, dropped when `None`. -/
def optField (k : Str) : Option Json → List (Str × Json)
  | none => []
  | some j => [(k, j)]

/-- `ServerToolUsage` dump. -/
def dumpSTU (u : ServerToolUsage) : Json :=
  Json.obj (optField "web_search_requests".toList (u.web_search_requests.map Json.num))

/-- `Usage` dump. -/
def dumpUsage (u : Usage) : Json :=
  Json.obj
    ([("input_tokens".toList, Json.num u.input_tokens),
      ("output_tokens".toList, Json.num u.output_tokens)] ++
     optField "cache_creation_input_tokens".toList
       (u.cache_creation_input_tokens.map Json.num) ++
     optField "cache_read_input_tokens".toList
       (u.cache_read_input_tokens.map Json.num) ++
     optField "server_tool_use".toList (u.server_tool_use.map dumpSTU))

/-- Image-source dump (discriminator first, as declared). -/
def dumpImageSource : ImageSource → Json
  | ImageSource.base64 mt data =>
      Json.obj [("type".toList, Json.str "base64".toList),
                ("media_type".toList, Json.str mt.toStr),
                ("data".toList, Json.str data)]
  | ImageSource.url u =>
      Json.obj [("type".toList, Json.str "url".toList),
                ("url".toList, Json.str u)]
  | ImageSource.file fu =>
      Json.obj [("type".toList, Json.str "file".toList),
                ("file_uuid".toList, Json.str fu)]

/-- `WebSearchResult` dump. -/
def dumpWSR (w : WebSearchResult) : Json :=
  Json.obj
    ([("type".toList, Json.str "web_search_result".toList),
      ("title".toList, Json.str w.title),
      ("url".toList, Json.str w.url),
      ("encrypted_content".toList, Json.str w.encrypted_content)] ++
     optField "page_age".toList (w.page_age.map Json.str))

/-- Inner tool-result block dump. -/
def dumpTRBlock : ToolResultBlock → Json
  | ToolResultBlock.text t =>
      Json.obj [("type".toList, Json.str "text".toList),
                ("text".toList, Json.str t)]
  | ToolResultBlock.image src =>
      Json.obj [("type".toList, Json.str "image".toList),
                ("source".toList, dumpImageSource src)]

/-- `tool_result.content` dump: a bare string or a list of blocks. -/
def dumpTRContent : ToolResultContentV → Json
  | ToolResultContentV.s t => Json.str t
  | ToolResultContentV.blocks bs => Json.arr (bs.map dumpTRBlock)

/-- `ContentBlock` dump. -/
def dumpContentBlock : ContentBlock → Json
  | ContentBlock.text t =>
      Json.obj [("type".toList, Json.str "text".toList),
                ("text".toList, Json.str t)]
  | ContentBlock.image src =>
      Json.obj [("type".toList, Json.str "image".toList),
                ("source".toList, dumpImageSource src)]
  | ContentBlock.thinking th =>
      Json.obj [("type".toList, Json.str "thinking".toList),
                ("thinking".toList, Json.str th)]
  | ContentBlock.tool_use id name input =>
      Json.obj [("type".toList, Json.str "tool_use".toList),
                ("id".toList, Json.str id),
                ("name".toList, Json.str name),
                ("input".toList, Json.obj input)]
  | ContentBlock.tool_result tuid content is_error =>
      Json.obj
        ([("type".toList, Json.str "tool_result".toList),
          ("tool_use_id".toList, Json.str tuid),
          ("content".toList, dumpTRContent content)] ++
         optField "is_error".toList (is_error.map Json.bool))
  | ContentBlock.server_tool_use id name input =>
      Json.obj [("type".toList, Json.str "server_tool_use".toList),
                ("id".toList, Json.str id),
                ("name".toList, Json.str name),
                ("input".toList, Json.obj input)]
  | ContentBlock.web_search_tool_result tuid content =>
      Json.obj [("type".toList, Json.str "web_search_tool_result".toList),
                ("tool_use_id".toList, Json.str tuid),
                ("content".toList, Json.arr (content.map dumpWSR))]

/-- `Message` dump. -/
def dumpMessage (m : Message) : Json :=
  Json.obj
    ([("id".toList, Json.str m.id),
      ("type".toList, Json.str "message".toList),
      ("role".toList, Json.str "assistant".toList),
      ("content".toList, Json.arr (m.content.map dumpContentBlock)),
      ("model".toList, Json.str m.model)] ++
     optField "stop_reason".toList (m.stop_reason.map (fun r => Json.str r.toStr)) ++
     optField "stop_sequence".toList (m.stop_sequence.map Json.str) ++
     optField "usage".toList (m.usage.map dumpUsage))

/-- `Delta` dump. -/
def dumpDelta : Delta → Json
  | Delta.text_delta t =>
      Json.obj [("type".toList, Json.str "text_delta".toList),
                ("text".toList, Json.str t)]
  | Delta.input_json_delta p =>
      Json.obj [("type".toList, Json.str "input_json_delta".toList),
                ("partial_json".toList, Json.str p)]
  | Delta.thinking_delta th =>
      Json.obj [("type".toList, Json.str "thinking_delta".toList),
                ("thinking".toList, Json.str th)]
  | Delta.signature_delta sg =>
      Json.obj [("type".toList, Json.str "signature_delta".toList),
                ("signature".toList, Json.str sg)]

/-- `MessageDeltaData` dump. -/
def dumpMDD (d : MessageDeltaData) : Json :=
  Json.obj
    (optField "stop_reason".toList (d.stop_reason.map (fun r => Json.str r.toStr)) ++
     optField "stop_sequence".toList (d.stop_sequence.map Json.str))

/-- The `type` literal of an event (`event.root.type`). -/
def evType : StreamingEvent → Str
  | StreamingEvent.message_start _ => "message_start".toList
  | StreamingEvent.content_block_start _ _ => "content_block_start".toList
  | StreamingEvent.content_block_delta _ _ => "content_block_delta".toList
  | StreamingEvent.content_block_stop _ => "content_block_stop".toList
  | StreamingEvent.message_delta _ _ => "message_delta".toList
  | StreamingEvent.message_stop => "message_stop".toList
  | StreamingEvent.ping => "ping".toList
  | StreamingEvent.error _ => "error".toList
  | StreamingEvent.unknown ty _ => ty

/-- Dump of a supported event (`model_dump_json(exclude_none=True)` of
the root model; for `unknown`, the serializer dumps the raw payload). -/
def dumpEvent : StreamingEvent → Json
  | StreamingEvent.message_start m =>
      Json.obj [("type".toList, Json.str "message_start".toList),
                ("message".toList, dumpMessage m)]
  | StreamingEvent.content_block_start i cb =>
      Json.obj [("type".toList, Json.str "content_block_start".toList),
                ("index".toList, Json.num i),
                ("content_block".toList, dumpContentBlock cb)]
  | StreamingEvent.content_block_delta i d =>
      Json.obj [("type".toList, Json.str "content_block_delta".toList),
                ("index".toList, Json.num i),
                ("delta".toList, dumpDelta d)]
  | StreamingEvent.content_block_stop i =>
      Json.obj [("type".toList, Json.str "content_block_stop".toList),
                ("index".toList, Json.num i)]
  | StreamingEvent.message_delta d u =>
      Json.obj
        ([("type".toList, Json.str "message_delta".toList),
          ("delta".toList, dumpMDD d)] ++
         optField "usage".toList (u.map dumpUsage))
  | StreamingEvent.message_stop =>
      Json.obj [("type".toList, Json.str "message_stop".toList)]
  | StreamingEvent.ping =>
      Json.obj [("type".toList, Json.str "ping".toList)]
  | StreamingEvent.error e =>
      Json.obj [("type".toList, Json.str "error".toList),
                ("error".toList,
                 Json.obj [("type".toList, Json.str e.type),
                           ("message".toList, Json.str e.message)])]
  | StreamingEvent.unknown _ data => data

/-! ## C6: pydantic validation of the `StreamingEvent` union

`StreamingEvent(root=data)` resolves the union member by the `type`
discriminator and validates the declared fields (missing optional
fields and explicit `null` both become `None`; the `Optional[int] = 0`
cache counters of `Usage` default to `0`, and `is_error` defaults to
`False`).  Lax-mode coercions and `extra="allow"` payloads are outside
the modelled domain. -/

/-- Field lookup in a validated JSON object. -/
def getField (fields : List (Str × Json)) (k : Str) : Option Json :=
  fields.lookup k

/-- A required string field. -/
def reqStr (fields : List (Str × Json)) (k : Str) : Option Str :=
  match getField fields k with
  | some (Json.str s) => some s
  | _ => none

/-- A required integer field. -/
def reqInt (fields : List (Str × Json)) (k : Str) : Option Int :=
  match getField fields k with
  | some (Json.num n) => some n
  | _ => none

/-- An `Optional[str] = None` field. -/
def optStr (fields : List (Str × Json)) (k : Str) : Option (Option Str) :=
  match getField fields k with
  | none => some none
  | some Json.null => some none
  | some (Json.str s) => some (some s)
  | some _ => none

/-- An `Optional[bool]` field with default `d`. -/
def optBoolD (fields : List (Str × Json)) (k : Str) (d : Option Bool) :
    Option (Option Bool) :=
  match getField fields k with
  | none => some d
  | some Json.null => some none
  | some (Json.bool b) => some (some b)
  | some _ => none

/-- An `Optional[int]` field with default `d`. -/
def optIntD (fields : List (Str × Json)) (k : Str) (d : Option Int) :
    Option (Option Int) :=
  match getField fields k with
  | none => some d
  | some Json.null => some none
  | some (Json.num n) => some (some n)
  | some _ => none

/-- Parse a `stop_reason` literal. -/
def stopReasonOfStr (s : Str) : Option StopReason :=
  if s = "end_turn".toList then some StopReason.end_turn
  else if s = "max_tokens".toList then some StopReason.max_tokens
  else if s = "stop_sequence".toList then some StopReason.stop_sequence
  else if s = "tool_use".toList then some StopReason.tool_use
  else if s = "pause_turn".toList then some StopReason.pause_turn
  else if s = "refusal".toList then some StopReason.refusal
  else none

/-- An optional `stop_reason` field restricted to the literals in
`allowed`. -/
def optStopReason (fields : List (Str × Json)) (k : Str)
    (allowed : List StopReason) : Option (Option StopReason) :=
  match getField fields k with
  | none => some none
  | some Json.null => some none
  | some (Json.str s) =>
      (match stopReasonOfStr s with
       | some r => if r ∈ allowed then some (some r) else none
       | none => none)
  | some _ => none

/-- `ServerToolUsage` validation. -/
def validateSTU : Json → Option ServerToolUsage
  | Json.obj fields => do
      let w ← optIntD fields "web_search_requests".toList none
      pure ⟨w⟩
  | _ => none

/-- `Usage` validation (cache counters default to `0`). -/
def validateUsage : Json → Option Usage
  | Json.obj fields => do
      let it ← reqInt fields "input_tokens".toList
      let ot ← reqInt fields "output_tokens".toList
      let cc ← optIntD fields "cache_creation_input_tokens".toList (some 0)
      let cr ← optIntD fields "cache_read_input_tokens".toList (some 0)
      let stu ←
        match getField fields "server_tool_use".toList with
        | none => some none
        | some Json.null => some none
        | some j => (validateSTU j).map some
      pure ⟨it, ot, cc, cr, stu⟩
  | _ => none

/-- Image-source union validation (discriminated by `type`, which
defaults to the member's literal when missing are not modelled: the
dumped form always carries it). -/
def validateImageSource : Json → Option ImageSource
  | Json.obj fields => do
      let ty ← reqStr fields "type".toList
      if ty = "base64".toList then do
        let mts ← reqStr fields "media_type".toList
        let mt ← ImageType.ofStr mts
        let data ← reqStr fields "data".toList
        pure (ImageSource.base64 mt data)
      else if ty = "url".toList then do
        let u ← reqStr fields "url".toList
        pure (ImageSource.url u)
      else if ty = "file".toList then do
        let fu ← reqStr fields "file_uuid".toList
        pure (ImageSource.file fu)
      else none
  | _ => none

/-- `WebSearchResult` validation. -/
def validateWSR : Json → Option WebSearchResult
  | Json.obj fields => do
      let ty ← reqStr fields "type".toList
      if ty = "web_search_result".toList then do
        let title ← reqStr fields "title".toList
        let url ← reqStr fields "url".toList
        let ec ← reqStr fields "encrypted_content".toList
        let pa ← optStr fields "page_age".toList
        pure ⟨title, url, ec, pa⟩
      else none
  | _ => none

/-- Inner `TextContent | ImageContent` union of a tool result. -/
def validateTRBlock : Json → Option ToolResultBlock
  | Json.obj fields => do
      let ty ← reqStr fields "type".toList
      if ty = "text".toList then do
        let t ← reqStr fields "text".toList
        pure (ToolResultBlock.text t)
      else if ty = "image".toList then do
        let src ← getField fields "source".toList
        let s ← validateImageSource src
        pure (ToolResultBlock.image s)
      else none
  | _ => none

/-- `tool_result.content : str | List[TextContent | ImageContent]`. -/
def validateTRContent : Json → Option ToolResultContentV
  | Json.str t => some (ToolResultContentV.s t)
  | Json.arr items => (items.mapM validateTRBlock).map ToolResultContentV.blocks
  | _ => none

/-- `ContentBlock` union validation. -/
def validateContentBlock : Json → Option ContentBlock
  | Json.obj fields => do
      let ty ← reqStr fields "type".toList
      if ty = "text".toList then do
        let t ← reqStr fields "text".toList
        pure (ContentBlock.text t)
      else if ty = "image".toList then do
        let src ← getField fields "source".toList
        let s ← validateImageSource src
        pure (ContentBlock.image s)
      else if ty = "thinking".toList then do
        let th ← reqStr fields "thinking".toList
        pure (ContentBlock.thinking th)
      else if ty = "tool_use".toList then do
        let id ← reqStr fields "id".toList
        let name ← reqStr fields "name".toList
        match getField fields "input".toList with
        | some (Json.obj input) => pure (ContentBlock.tool_use id name input)
        | _ => none
      else if ty = "tool_result".toList then do
        let tuid ← reqStr fields "tool_use_id".toList
        let cj ← getField fields "content".toList
        let content ← validateTRContent cj
        let ie ← optBoolD fields "is_error".toList (some false)
        pure (ContentBlock.tool_result tuid content ie)
      else if ty = "server_tool_use".toList then do
        let id ← reqStr fields "id".toList
        let name ← reqStr fields "name".toList
        match getField fields "input".toList with
        | some (Json.obj input) => pure (ContentBlock.server_tool_use id name input)
        | _ => none
      else if ty = "web_search_tool_result".toList then do
        let tuid ← reqStr fields "tool_use_id".toList
        match getField fields "content".toList with
        | some (Json.arr items) => do
            let ws ← items.mapM validateWSR
            pure (ContentBlock.web_search_tool_result tuid ws)
        | _ => none
      else none
  | _ => none

/-- `Message` validation. -/
def validateMessage : Json → Option Message
  | Json.obj fields => do
      let id ← reqStr fields "id".toList
      let ty ← reqStr fields "type".toList
      let role ← reqStr fields "role".toList
      if ty = "message".toList ∧ role = "assistant".toList then do
        let content ←
          match getField fields "content".toList with
          | some (Json.arr items) => items.mapM validateContentBlock
          | _ => none
        let model ← reqStr fields "model".toList
        let sr ← optStopReason fields "stop_reason".toList
          [StopReason.end_turn, StopReason.max_tokens, StopReason.stop_sequence,
           StopReason.tool_use, StopReason.pause_turn, StopReason.refusal]
        let ss ← optStr fields "stop_sequence".toList
        let usage ←
          match getField fields "usage".toList with
          | none => some none
          | some Json.null => some none
          | some j => (validateUsage j).map some
        pure ⟨id, content, model, sr, ss, usage⟩
      else none
  | _ => none

/-- `Delta` union validation. -/
def validateDelta : Json → Option Delta
  | Json.obj fields => do
      let ty ← reqStr fields "type".toList
      if ty = "text_delta".toList then do
        let t ← reqStr fields "text".toList
        pure (Delta.text_delta t)
      else if ty = "input_json_delta".toList then do
        let p ← reqStr fields "partial_json".toList
        pure (Delta.input_json_delta p)
      else if ty = "thinking_delta".toList then do
        let th ← reqStr fields "thinking".toList
        pure (Delta.thinking_delta th)
      else if ty = "signature_delta".toList then do
        let sg ← reqStr fields "signature".toList
        pure (Delta.signature_delta sg)
      else none
  | _ => none

/-- `MessageDeltaData` validation (only four literals allowed). -/
def validateMDD : Json → Option MessageDeltaData
  | Json.obj fields => do
      let sr ← optStopReason fields "stop_reason".toList
        [StopReason.end_turn, StopReason.max_tokens, StopReason.stop_sequence,
         StopReason.tool_use]
      let ss ← optStr fields "stop_sequence".toList
      pure ⟨sr, ss⟩
  | _ => none

/-- `ErrorInfo` validation. -/
def validateErrorInfo : Json → Option ErrorInfo
  | Json.obj fields => do
      let ty ← reqStr fields "type".toList
      let msg ← reqStr fields "message".toList
      pure ⟨ty, msg⟩
  | _ => none

/-- Validation of the `StreamingEvent` union from a decoded JSON value
(discriminated by the `type` literal; a value matching no member is a
ValidationError, i.e. `none`). -/
def validateEvent : Json → Option StreamingEvent
  | Json.obj fields => do
      let ty ← reqStr fields "type".toList
      if ty = "message_start".toList then do
        let mj ← getField fields "message".toList
        let m ← validateMessage mj
        pure (StreamingEvent.message_start m)
      else if ty = "content_block_start".toList then do
        let i ← reqInt fields "index".toList
        let cbj ← getField fields "content_block".toList
        let cb ← validateContentBlock cbj
        pure (StreamingEvent.content_block_start i cb)
      else if ty = "content_block_delta".toList then do
        let i ← reqInt fields "index".toList
        let dj ← getField fields "delta".toList
        let d ← validateDelta dj
        pure (StreamingEvent.content_block_delta i d)
      else if ty = "content_block_stop".toList then do
        let i ← reqInt fields "index".toList
        pure (StreamingEvent.content_block_stop i)
      else if ty = "message_delta".toList then do
        let dj ← getField fields "delta".toList
        let d ← validateMDD dj
        let u ←
          match getField fields "usage".toList with
          | none => some none
          | some Json.null => some none
          | some j => (validateUsage j).map some
        pure (StreamingEvent.message_delta d u)
      else if ty = "message_stop".toList then
        pure StreamingEvent.message_stop
      else if ty = "ping".toList then
        pure StreamingEvent.ping
      else if ty = "error".toList then do
        let ej ← getField fields "error".toList
        let e ← validateErrorInfo ej
        pure (StreamingEvent.error e)
      else none
  | _ => none

/-! ## C6: SSE framing (event_parser.py / event_serializer.py) -/

/-- Python `s.split("\n")`. -/
def splitOnNl : Str → List Str
  | [] => [[]]
  | c :: r =>
      if c = '\n' then [] :: splitOnNl r
      else
        match splitOnNl r with
        | h :: t => (c :: h) :: t
        | [] => [[c]]

/-- `EventSerializer.serialize_event` framing (lines 49-60): an
`event:` line when the type is non-empty, one `data:` line per line of
the JSON payload, joined by newlines and terminated by a blank line. -/
def mkSse (ty : Str) (json : Str) : Str :=
  List.intercalate ['\n']
    ((if ty.isEmpty then [] else [("event: ".toList ++ ty)]) ++
     (splitOnNl json).map (fun l => "data: ".toList ++ l)) ++
  "\n\n".toList

/-- `EventSerializer.serialize_event` (skip_unknown_events = True, the
pipeline default): `unknown` events are dropped, supported events are
dumped with `model_dump_json(exclude_none=True)`. -/
def serialize_event : StreamingEvent → Option Str
  | StreamingEvent.unknown _ _ => none
  | e => some (mkSse (evType e) (jsonDump (dumpEvent e)))

/-- `EventSerializer.serialize_batch`: concatenation of the serialized
events, skipping dropped ones. -/
def serialize_batch (es : List StreamingEvent) : Str :=
  (es.map serialize_event).foldr
    (fun o acc => match o with | some m => m ++ acc | none => acc) []

/-- Split a buffer at the first `"\n\n"` (`EventParser._process_buffer`,
lines 51-54). -/
def breakDoubleNl : Str → Option (Str × Str)
  | [] => none
  | c :: rest =>
      if c = '\n' then
        match rest with
        | [] => none
        | c2 :: rest2 =>
            if c2 = '\n' then some ([], rest2)
            else
              match breakDoubleNl rest with
              | some (a, b) => some (c :: a, b)
              | none => none
      else
        match breakDoubleNl rest with
        | some (a, b) => some (c :: a, b)
        | none => none

/-- One line of `EventParser._parse_sse_message` (lines 67-86): the
accumulator carries the `event` and `data` fields. -/
def parseSseLine (acc : Option Str × Option Str) (line : Str) :
    Option Str × Option Str :=
  if line.isEmpty then acc
  else
    let fv : Str × Str :=
      match splitOnce ':' line with
      | some (f, v) =>
          (f, match v with
              | v0 :: v' => if v0 = ' ' then v' else v0 :: v'
              | [] => [])
      | none => (line, [])
    if fv.1 = "event".toList then (some fv.2, acc.2)
    else if fv.1 = "data".toList then
      (acc.1,
       match acc.2 with
       | none => some fv.2
       | some d => some (d ++ '\n' :: fv.2))
    else acc

/-- `EventParser._parse_sse_message`. -/
def parse_sse_message (msg : Str) : Option Str × Option Str :=
  (splitOnNl msg).foldl parseSseLine (none, none)

/-- `EventParser._create_streaming_event` with the pipeline default
`skip_unknown_events = True`: unparseable JSON and validation failures
yield no event. -/
def createStreamingEvent (dataStr : Str) : Option StreamingEvent :=
  match jsonLoads dataStr with
  | none => none
  | some j => validateEvent j

/-- `EventParser._process_buffer`: peel complete messages off the
buffer; the fuel only bounds the loop (each iteration consumes at least
two characters). -/
def processBuffer : Nat → Str → List StreamingEvent × Str
  | 0, buf => ([], buf)
  | fuel + 1, buf =>
      match breakDoubleNl buf with
      | none => ([], buf)
      | some (msg, rest) =>
          let dat := (parse_sse_message msg).2
          let evs :=
            match dat with
            | some d =>
                if d.isEmpty then []
                else
                  match createStreamingEvent d with
                  | some e => [e]
                  | none => []
            | none => []
          let r := processBuffer fuel rest
          (evs ++ r.1, r.2)

/-- Python `buffer.strip()` truthiness. -/
def strTruthyWs (s : Str) : Bool :=
  !(s.filter (fun c => !isWsChar c)).isEmpty

/-- `EventParser.parse_stream` over a complete byte stream: process the
buffer, then flush (append `"\n\n"` and process once more) when a
non-whitespace remainder is left. -/
def parse_stream (x : Str) : List StreamingEvent :=
  let r := processBuffer (x.length + 1) x
  if strTruthyWs r.2 then
    r.1 ++ (processBuffer (r.2.length + 3) (r.2 ++ "\n\n".toList)).1
  else r.1

/-! ## C6: well-formedness (the canonical domain of the round trip) -/

/-- Characters that need no JSON escaping. -/
def plainChar (c : Char) : Bool :=
  !(c = '"' || c = '\\' || c.toNat < 32)

/-- Strings that serialize without escapes. -/
def wfStr (s : Str) : Bool := s.all plainChar

/-- Well-formed JSON payloads: integer numbers, escape-free strings. -/
def wfJson : Json → Bool
  | Json.null => true
  | Json.bool _ => true
  | Json.num _ => true
  | Json.str s => wfStr s
  | Json.arr items => items.attach.all (fun x => wfJson x.1)
  | Json.obj fields =>
      fields.attach.all (fun kv => wfStr kv.1.1 && wfJson kv.1.2)
decreasing_by
  · have h := List.sizeOf_lt_of_mem x.2
    simp at h ⊢
    omega
  · obtain ⟨⟨k, v⟩, hmem⟩ := kv
    have h := List.sizeOf_lt_of_mem hmem
    simp at h ⊢
    omega

/-- Optional escape-free string. -/
def wfOptStr : Option Str → Bool
  | none => true
  | some s => wfStr s

/-- `Usage` in canonical form: the `Optional[int] = 0` counters are
present (validation materialises the default, so `None` does not
survive a round trip). -/
def wfUsage (u : Usage) : Bool :=
  u.cache_creation_input_tokens.isSome && u.cache_read_input_tokens.isSome

/-- Image sources with escape-free payloads. -/
def wfImageSource : ImageSource → Bool
  | ImageSource.base64 _ data => wfStr data
  | ImageSource.url u => wfStr u
  | ImageSource.file fu => wfStr fu

/-- `WebSearchResult` with escape-free strings. -/
def wfWSR (w : WebSearchResult) : Bool :=
  wfStr w.title && wfStr w.url && wfStr w.encrypted_content && wfOptStr w.page_age

/-- Inner tool-result blocks. -/
def wfTRBlock : ToolResultBlock → Bool
  | ToolResultBlock.text t => wfStr t
  | ToolResultBlock.image s => wfImageSource s

/-- Well-formed content blocks (canonical `is_error` present). -/
def wfContentBlock : ContentBlock → Bool
  | ContentBlock.text t => wfStr t
  | ContentBlock.image s => wfImageSource s
  | ContentBlock.thinking th => wfStr th
  | ContentBlock.tool_use id name input =>
      wfStr id && wfStr name && wfJson (Json.obj input)
  | ContentBlock.tool_result tuid content ie =>
      wfStr tuid && ie.isSome &&
      (match content with
       | ToolResultContentV.s t => wfStr t
       | ToolResultContentV.blocks bs => bs.all wfTRBlock)
  | ContentBlock.server_tool_use id name input =>
      wfStr id && wfStr name && wfJson (Json.obj input)
  | ContentBlock.web_search_tool_result tuid ws =>
      wfStr tuid && ws.all wfWSR

/-- Well-formed messages. -/
def wfMessage (m : Message) : Bool :=
  wfStr m.id && m.content.all wfContentBlock && wfStr m.model &&
  wfOptStr m.stop_sequence &&
  (match m.usage with | none => true | some u => wfUsage u)

/-- Well-formed deltas. -/
def wfDelta : Delta → Bool
  | Delta.text_delta t => wfStr t
  | Delta.input_json_delta p => wfStr p
  | Delta.thinking_delta th => wfStr th
  | Delta.signature_delta sg => wfStr sg

/-- Well-formed `message_delta` payloads (`MessageDeltaData` only
admits four stop_reason literals). -/
def wfMDD (d : MessageDeltaData) : Bool :=
  (match d.stop_reason with
   | none => true
   | some r => r ∈ [StopReason.end_turn, StopReason.max_tokens,
       StopReason.stop_sequence, StopReason.tool_use]) &&
  wfOptStr d.stop_sequence

/-- Supported events in canonical form. -/
def wfEvent : StreamingEvent → Bool
  | StreamingEvent.message_start m => wfMessage m
  | StreamingEvent.content_block_start _ cb => wfContentBlock cb
  | StreamingEvent.content_block_delta _ d => wfDelta d
  | StreamingEvent.content_block_stop _ => true
  | StreamingEvent.message_delta d u =>
      wfMDD d && (match u with | none => true | some u' => wfUsage u')
  | StreamingEvent.message_stop => true
  | StreamingEvent.ping => true
  | StreamingEvent.error e => wfStr e.type && wfStr e.message
  | StreamingEvent.unknown _ _ => false

mutual
/-- Sufficient parser fuel for a value. -/
def jsonFuel : Json → Nat
  | Json.null => 1
  | Json.bool _ => 1
  | Json.num _ => 1
  | Json.str _ => 1
  | Json.arr items => 1 + itemsFuel items
  | Json.obj fields => 1 + membersFuel fields
/-- Sufficient fuel for an array tail. -/
def itemsFuel : List Json → Nat
  | [] => 1
  | x :: xs => 1 + Nat.max (jsonFuel x) (itemsFuel xs)
/-- Sufficient fuel for an object tail. -/
def membersFuel : List (Str × Json) → Nat
  | [] => 1
  | (_, v) :: kvs => 1 + Nat.max (jsonFuel v) (membersFuel kvs)
end

/-! # Theorems -/

/-- **C1.** The specification requires the ClaudeAPI processor to
resolve a recorded checkpoint's `account_id` through the pool's
stickiness lookup and offer that account first.  The code instead calls
`account_manager.get_account_by_id`, a method `AccountManager` does not
define: for every pool state and every cached account id, the sticky
resolution step raises `AttributeError`, an exception the processor's
`except (NoAccountsAvailableError, InvalidModelNameError)` clause does
not swallow — so the request fails instead of being offered the sticky
account. -/
theorem C1_sticky_lookup_attribute_error (st : AccountManagerState) (cid : Str) :
    resolveCachedAccount st (some cid) =
      Except.error (PyExc.attributeError "get_account_by_id") ∧
    apiProcessorCatches (PyExc.attributeError "get_account_by_id") = false := by
  constructor
  · rfl
  · rfl

/-- **C2, counterexample.** The claimed invariant
`resets_at ≠ null ⇒ status = RATE_LIMITED` is violated by the
API-processor header handling: starting from a VALID account satisfying
the invariant, an `anthropic-ratelimit-unified-reset: 1700000000`
response header leaves the account VALID with `resets_at` set. -/
theorem C2_resetsAt_invariant_counterexample :
    resetsAtInvariant acctValid ∧
    (apiHeaderHandling acctValid (some "1700000000".toList) pyParseNat).resets_at
      ≠ none ∧
    (apiHeaderHandling acctValid (some "1700000000".toList) pyParseNat).status
      ≠ AccountStatus.rate_limited := by
  refine ⟨?_, ?_, ?_⟩ <;> decide

/-- **C2, amended.** What the code guarantees: the scoped borrow exit on
a rate-limit error sets RATE_LIMITED and `resets_at` together; the
recovery loop preserves the invariant and is the only modelled
transition into VALID, clearing `resets_at` when it fires; the borrow
exit never sets VALID; the API-processor header handling never changes
the status (so it can pair `resets_at` with a VALID status, which is the
violation above); the refresh-failure path never sets VALID and
preserves the invariant whenever `resets_at` is clear. -/
theorem C2_resetsAt_invariant_amended :
    (∀ (a : Account) (t : Nat),
       (Account.exit a (some (BorrowExc.claudeRateLimited t))).1.status =
         AccountStatus.rate_limited ∧
       (Account.exit a (some (BorrowExc.claudeRateLimited t))).1.resets_at = some t) ∧
    (∀ (a : Account) (now : Nat),
       resetsAtInvariant a → resetsAtInvariant (recoverAccount now a)) ∧
    (∀ (a : Account) (now : Nat),
       (recoverAccount now a).status = AccountStatus.valid →
       a.status = AccountStatus.valid ∨ (recoverAccount now a).resets_at = none) ∧
    (∀ (a : Account) (exc : Option BorrowExc),
       (Account.exit a exc).1.status = AccountStatus.valid →
       a.status = AccountStatus.valid) ∧
    (∀ (a : Account) (h : Option Str) (p : Str → Option Nat),
       (apiHeaderHandling a h p).status = a.status) ∧
    (∀ a : Account, (refreshFailure a).status = AccountStatus.invalid ∨
       (refreshFailure a).status = a.status) ∧
    (∀ a : Account, a.resets_at = none → resetsAtInvariant (refreshFailure a)) := by
  refine ⟨?_, ?_, ?_, ?_, ?_, ?_, ?_⟩
  · intro a t; exact ⟨rfl, rfl⟩
  · intro a now hinv
    unfold recoverAccount
    split
    · intro hne; exact absurd rfl hne
    · exact hinv
  · intro a now
    unfold recoverAccount
    split
    · intro _; right; rfl
    · intro h; left; exact h
  · intro a exc
    unfold Account.exit
    rcases exc with _ | exc
    · exact fun h => h
    · rcases exc with t | _ | _
      · intro h; exact absurd h (by simp)
      · intro h; exact absurd h (by simp)
      · exact fun h => h
  · intro a h p
    unfold apiHeaderHandling
    rcases h with _ | s
    · rfl
    · dsimp only
      split
      · rfl
      · split <;> rfl
  · intro a
    unfold refreshFailure
    split
    · right; rfl
    · left; rfl
  · intro a hnone
    unfold refreshFailure resetsAtInvariant
    split
    · intro hne; exact absurd hnone hne
    · intro hne; exact absurd hnone hne

/-- **C2, witness** for the amended theorem: the recovery loop applied
to a rate-limited account with `resets_at = 5` at time 7 preserves the
invariant. -/
theorem C2_resetsAt_invariant_amended_witness :
    resetsAtInvariant (recoverAccount 7
      { acctValid with status := AccountStatus.rate_limited, resets_at := some 5 }) :=
  C2_resetsAt_invariant_amended.2.1
    { acctValid with status := AccountStatus.rate_limited, resets_at := some 5 }
    7 (by decide)

/-- **C7.** A request consisting of exactly one user message `"Hi"` with
`stream = false` is answered by the first pipeline processor: the
pipeline output is exactly the test processor's output — no later
processor (and hence no upstream call) runs, whatever the rest of the
pipeline is — carrying a buffered response whose content is the single
text block `"Hello! How can I assist you today?"`, stop_reason
`end_turn`, usage `{input_tokens: 1, output_tokens: 9}` and the
request's model. -/
theorem C7_test_message_short_circuit (freshId : Str) (req : MessagesAPIRequest)
    (rest : List (String × (PipelineCtx → PipelineCtx)))
    (h : testMessageCriteria req = true) :
    runPipeline (("TestMessageProcessor", testMessageProcess freshId) :: rest)
        ⟨some req, none, false, []⟩ =
      ⟨some req, some (cannedTestMessage freshId req.model), true, []⟩ ∧
    (cannedTestMessage freshId req.model).content =
      [ContentBlock.text "Hello! How can I assist you today?".toList] ∧
    (cannedTestMessage freshId req.model).stop_reason = some StopReason.end_turn ∧
    (cannedTestMessage freshId req.model).usage =
      some { input_tokens := 1, output_tokens := 9,
             cache_creation_input_tokens := some 0,
             cache_read_input_tokens := some 0, server_tool_use := none } ∧
    (cannedTestMessage freshId req.model).model = req.model := by
  refine ⟨?_, rfl, rfl, rfl, rfl⟩
  unfold runPipeline testMessageProcess
  simp [h]

/-- **C7, witness**: the canned answer on the concrete health probe. -/
theorem C7_test_message_short_circuit_witness :
    runPipeline (("TestMessageProcessor", testMessageProcess "msg_0000000000".toList) :: [])
        ⟨some exampleHiRequest, none, false, []⟩ =
      ⟨some exampleHiRequest,
       some (cannedTestMessage "msg_0000000000".toList exampleHiRequest.model),
       true, []⟩ :=
  (C7_test_message_short_circuit "msg_0000000000".toList exampleHiRequest []
    (by decide)).1

/-- **C9.** `add_account` is idempotent in the cookie argument: when the
cookie is already registered in the cookie-to-organisation mapping, the
already-registered account object is returned, the manager state is
unchanged, and no effect runs — no organisation discovery, no
persistence, no account creation, no OAuth task. -/
theorem C9_add_account_idempotent_on_known_cookie
    (st : AccountManagerState) (c u : Str) (acct : Account)
    (oauth_token : Option OAuthToken) (org : Option Str)
    (caps : Option (List Str))
    (orgInfo : Str → Except Unit (Option Str × Option (List Str)))
    (freshUuid : Str) (now : Nat)
    (hne : c.isEmpty = false)
    (hmap : st.cookie_to_uuid.lookup c = some u)
    (hacct : st.accounts.lookup u = some acct) :
    add_account st (some c) oauth_token org caps orgInfo freshUuid now =
      Except.ok (acct, st, AddAccountEffects.none) := by
  unfold add_account
  simp [optStrTruthy, hne, hmap, hacct]

/-- **C9, witness**: re-adding cookie `"ck"` to `stCookie` returns the
registered account and leaves everything untouched. -/
theorem C9_add_account_idempotent_witness :
    add_account stCookie (some "ck".toList) none none none
        (fun _ => Except.error ()) "fresh".toList 99 =
      Except.ok (acctCookie, stCookie, AddAccountEffects.none) :=
  C9_add_account_idempotent_on_known_cookie stCookie "ck".toList "orgC".toList
    acctCookie none none none (fun _ => Except.error ()) "fresh".toList 99
    (by decide) (by decide) (by decide)

/-- **C10.** `get_account_for_oauth` is a pure reader of the pool: the
manager state after the call is the input state (every account's
fields and all binding maps unchanged), and `last_used` advances only
via `Account.__enter__` of the subsequent scoped borrow, which rewrites
exactly that field. -/
theorem C10_get_account_for_oauth_readonly (st : AccountManagerState)
    (is_pro is_max : Option Bool) :
    (get_account_for_oauth st is_pro is_max).2 = st ∧
    (∀ (a : Account) (now : Nat),
       Account.enter a now = { a with last_used := now }) := by
  constructor
  · unfold get_account_for_oauth
    rcases hb : (st.accounts.map Prod.snd).foldl (oauthSelStep is_pro is_max) none with
      _ | ⟨a, e⟩ <;> simp [hb]
  · intro a now; rfl

theorem selStep_eq (maxSessions : Nat) (countOf : Str → Nat)
    (is_pro is_max : Option Bool) (acc : Option (Account × Nat × Nat))
    (a : Account) :
    selStep maxSessions countOf is_pro is_max acc a =
      if webCandidate maxSessions countOf is_pro is_max a then
        match acc with
        | none => some (a, countOf a.organization_uuid, a.last_used)
        | some (_, m, e) =>
            if countOf a.organization_uuid < m ∨
               (countOf a.organization_uuid = m ∧ a.last_used < e) then
              some (a, countOf a.organization_uuid, a.last_used)
            else acc
      else acc := by
  unfold selStep webCandidate
  by_cases h1 : a.status = AccountStatus.valid
  · by_cases h2 : a.auth_type ∈ [AuthType.both, AuthType.cookie_only]
    · have hb2 : (a.auth_type == AuthType.both || a.auth_type == AuthType.cookie_only) = true := by
        simp only [List.mem_cons, List.mem_singleton, List.not_mem_nil, or_false] at h2
        rcases h2 with h | h <;> simp [h]
      by_cases h3 : matchesFilters a is_pro is_max = true
      · by_cases h4 : countOf a.organization_uuid ≥ maxSessions
        · have h5 : ¬ countOf a.organization_uuid < maxSessions := by omega
          simp [h1, h2, hb2, h3, h4, h5]
        · have h5 : countOf a.organization_uuid < maxSessions := by omega
          simp [h1, h2, hb2, h3, h4, h5]
      · simp [h1, h2, hb2, h3]
    · have hb2 : (a.auth_type == AuthType.both || a.auth_type == AuthType.cookie_only) = false := by
        simp only [List.mem_cons, List.mem_singleton, List.not_mem_nil, or_false, not_or] at h2
        simp only [Bool.or_eq_false_iff, beq_eq_false_iff_ne, ne_eq]
        exact ⟨h2.1, h2.2⟩
      simp [h1, h2, hb2]
  · have hb1 : (a.status == AccountStatus.valid) = false := by
      simp only [beq_eq_false_iff_ne, ne_eq]
      exact h1
    simp [h1, hb1]

theorem selStep_preserves (maxSessions : Nat) (countOf : Str → Nat)
    (is_pro is_max : Option Bool) (seen : List Account)
    (acc : Option (Account × Nat × Nat)) (a : Account)
    (h : selInv countOf (webCandidate maxSessions countOf is_pro is_max) seen acc) :
    selInv countOf (webCandidate maxSessions countOf is_pro is_max)
      (seen ++ [a]) (selStep maxSessions countOf is_pro is_max acc a) := by
  rw [selStep_eq]
  by_cases hc : webCandidate maxSessions countOf is_pro is_max a = true
  · simp only [hc, if_true]
    rcases acc with _ | ⟨b, m, e⟩
    · refine ⟨hc, rfl, rfl, by simp, ?_⟩
      intro x hx hcx
      rcases List.mem_append.mp hx with hx | hx
      · exact absurd hcx (by simp [h x hx])
      · have : x = a := by simpa using hx
        subst this
        right; exact ⟨rfl, le_refl _⟩
    · obtain ⟨hcb, hm, he, hmem, hmin⟩ := h
      by_cases hlt : countOf a.organization_uuid < m ∨
          (countOf a.organization_uuid = m ∧ a.last_used < e)
      · simp only [hlt, if_true]
        refine ⟨hc, rfl, rfl, by simp [List.mem_append], ?_⟩
        intro x hx hcx
        rcases List.mem_append.mp hx with hx | hx
        · have hx' := hmin x hx hcx
          rcases hlt with hlt | ⟨heq, hlu⟩
          · rcases hx' with hx' | ⟨hx1, hx2⟩
            · left; omega
            · left; omega
          · rcases hx' with hx' | ⟨hx1, hx2⟩
            · left; omega
            · right; subst heq; exact ⟨hx1, by subst he; omega⟩
        · have : x = a := by simpa using hx
          subst this
          right; exact ⟨rfl, le_refl _⟩
      · simp only [hlt, if_false]
        refine ⟨hcb, hm, he, by simp [List.mem_append, hmem], ?_⟩
        intro x hx hcx
        rcases List.mem_append.mp hx with hx | hx
        · exact hmin x hx hcx
        · have : x = a := by simpa using hx
          subst this
          push_neg at hlt
          obtain ⟨hge, himp⟩ := hlt
          rcases Nat.lt_or_ge m (countOf x.organization_uuid) with hgt | hge2
          · left; exact hgt
          · right
            have heq : m = countOf x.organization_uuid := by omega
            refine ⟨heq, ?_⟩
            have h2 := himp heq.symm
            subst he; omega
  · simp only [hc]
    simp only [Bool.not_eq_true] at hc
    rcases acc with _ | ⟨b, m, e⟩
    · intro x hx
      rcases List.mem_append.mp hx with hx | hx
      · exact h x hx
      · have : x = a := by simpa using hx
        subst this; exact hc
    · obtain ⟨hcb, hm, he, hmem, hmin⟩ := h
      refine ⟨hcb, hm, he, by simp [List.mem_append, hmem], ?_⟩
      intro x hx hcx
      rcases List.mem_append.mp hx with hx | hx
      · exact hmin x hx hcx
      · have : x = a := by simpa using hx
        subst this
        exact absurd hcx (by simp [hc])

theorem foldl_selStep_inv (maxSessions : Nat) (countOf : Str → Nat)
    (is_pro is_max : Option Bool) (l : List Account) :
    ∀ (seen : List Account) (acc : Option (Account × Nat × Nat)),
    selInv countOf (webCandidate maxSessions countOf is_pro is_max) seen acc →
    selInv countOf (webCandidate maxSessions countOf is_pro is_max)
      (seen ++ l) (l.foldl (selStep maxSessions countOf is_pro is_max) acc) := by
  induction l with
  | nil => intro seen acc h; simpa using h
  | cons a rest ih =>
      intro seen acc h
      have h' := selStep_preserves maxSessions countOf is_pro is_max seen acc a h
      have := ih (seen ++ [a]) _ h'
      simpa using this

theorem earlyPhase_inr_of_not_valid (st : AccountManagerState) (sid : Str)
    (h : hasValidBinding st sid = false) :
    sessionEarlyPhase st sid = Sum.inr (sessionSelectState st sid) := by
  unfold sessionSelectState
  rcases he : sessionEarlyPhase st sid with ⟨a, st'⟩ | st'
  · exfalso
    unfold sessionEarlyPhase at he
    unfold hasValidBinding at h
    rcases hl : st.session_accounts.lookup sid with _ | org
    · rw [hl] at he; simp at he
    · rw [hl] at he h
      dsimp only at he h
      rcases ha : st.accounts.lookup org with _ | b
      · rw [ha] at he; simp at he
      · rw [ha] at he h
        dsimp only at he h
        by_cases hs : b.status = AccountStatus.valid
        · rw [hs] at h; simp at h
        · rw [if_neg hs] at he; simp at he
  · rfl

/-- **C3.** When the session has no existing VALID binding,
`get_account_for_session` returns an account that satisfies the
candidate conditions — VALID status, `auth_type ∈ {COOKIE_ONLY, BOTH}`,
the capability filters, fewer than `max_sessions_per_account` bound
sessions — and that is lexicographically minimal among all candidates:
minimal session count, ties broken by the oldest `last_used`.  When no
candidate exists the call fails (NoAccountsAvailable). -/
theorem C3_get_account_for_session_load_balancing
    (maxSessions : Nat) (st : AccountManagerState) (sid : Str)
    (is_pro is_max : Option Bool)
    (hnb : hasValidBinding st sid = false) :
    (∀ (a : Account) (st'' : AccountManagerState),
       get_account_for_session maxSessions st sid is_pro is_max =
         Except.ok (a, st'') →
       webCandidate maxSessions (sessionCount (sessionSelectState st sid))
         is_pro is_max a = true ∧
       a ∈ (sessionSelectState st sid).accounts.map Prod.snd ∧
       (∀ b ∈ (sessionSelectState st sid).accounts.map Prod.snd,
          webCandidate maxSessions (sessionCount (sessionSelectState st sid))
            is_pro is_max b = true →
          sessionCount (sessionSelectState st sid) a.organization_uuid ≤
            sessionCount (sessionSelectState st sid) b.organization_uuid) ∧
       (∀ b ∈ (sessionSelectState st sid).accounts.map Prod.snd,
          webCandidate maxSessions (sessionCount (sessionSelectState st sid))
            is_pro is_max b = true →
          sessionCount (sessionSelectState st sid) b.organization_uuid =
            sessionCount (sessionSelectState st sid) a.organization_uuid →
          a.last_used ≤ b.last_used)) ∧
    (get_account_for_session maxSessions st sid is_pro is_max =
       Except.error () →
     ∀ b ∈ (sessionSelectState st sid).accounts.map Prod.snd,
       webCandidate maxSessions (sessionCount (sessionSelectState st sid))
         is_pro is_max b = false) := by
  have hearly := earlyPhase_inr_of_not_valid st sid hnb
  have hinv := foldl_selStep_inv maxSessions
    (sessionCount (sessionSelectState st sid)) is_pro is_max
    ((sessionSelectState st sid).accounts.map Prod.snd) [] none
    (by intro b hb; simp at hb)
  simp only [List.nil_append] at hinv
  constructor
  · intro a st'' hok
    unfold get_account_for_session at hok
    rw [hearly] at hok
    dsimp only at hok
    rcases hb : ((sessionSelectState st sid).accounts.map Prod.snd).foldl
        (selStep maxSessions (sessionCount (sessionSelectState st sid))
          is_pro is_max) none with _ | ⟨c, m, e⟩
    · rw [hb] at hok; simp at hok
    · rw [hb] at hok
      simp only [Except.ok.injEq, Prod.mk.injEq] at hok
      obtain ⟨hca, _⟩ := hok
      rw [hb] at hinv
      obtain ⟨hcand, hm, he, hmem, hmin⟩ := hinv
      subst hca
      refine ⟨hcand, hmem, ?_, ?_⟩
      · intro b hbm hcb
        have := hmin b hbm hcb
        subst hm
        rcases this with h | ⟨h, _⟩
        · omega
        · omega
      · intro b hbm hcb heq
        have := hmin b hbm hcb
        subst hm he
        rcases this with h | ⟨_, h⟩
        · omega
        · exact h
  · intro herr
    unfold get_account_for_session at herr
    rw [hearly] at herr
    dsimp only at herr
    rcases hb : ((sessionSelectState st sid).accounts.map Prod.snd).foldl
        (selStep maxSessions (sessionCount (sessionSelectState st sid))
          is_pro is_max) none with _ | ⟨c, m, e⟩
    · rw [hb] at hinv
      exact hinv
    · rw [hb] at herr; simp at herr

/-- **C3, witness**: on `stCookie` with no bindings, a fresh session gets
the single VALID cookie account, which is a candidate. -/
theorem C3_get_account_for_session_witness :
    webCandidate 3 (sessionCount (sessionSelectState stCookie "s1".toList))
      none none acctCookie = true :=
  ((C3_get_account_for_session_load_balancing 3 stCookie "s1".toList none none
      (by decide)).1 acctCookie
    { accounts := [("orgC".toList, acctCookie)],
      cookie_to_uuid := [("ck".toList, "orgC".toList)],
      session_accounts := [("s1".toList, "orgC".toList)],
      account_sessions := [("orgC".toList, ["s1".toList])] }
    (by rfl)).1

theorem processChars_append (sq : List Str) (st : StopSeqState) (s₁ s₂ : Str) :
    processChars sq st (s₁ ++ s₂) =
      match processChars sq st s₁ with
      | StopStep.stopped evs => StopStep.stopped evs
      | StopStep.cont evs st' =>
          match processChars sq st' s₂ with
          | StopStep.stopped evs₂ => StopStep.stopped (evs ++ evs₂)
          | StopStep.cont evs₂ st'' => StopStep.cont (evs ++ evs₂) st'' := by
  induction s₁ generalizing st with
  | nil =>
      simp only [List.nil_append, processChars]
      rcases processChars sq st s₂ with evs | ⟨evs, st'⟩ <;> simp
  | cons c cs ih =>
      simp only [List.cons_append, List.append_eq, processChars]
      rcases hc : processChar sq st c with evs | ⟨evs, st'⟩
      · rfl
      · dsimp only
        rw [ih st']
        rcases processChars sq st' cs with evs₂ | ⟨evs₂, st₂⟩
        · simp
        · cases h₃ : processChars sq st₂ s₂ <;> simp [h₃, List.append_assoc]

theorem processChars_cont_index (sq : List Str) (s : Str) :
    ∀ (st st' : StopSeqState) (evs : List StreamingEvent),
      processChars sq st s = StopStep.cont evs st' →
      st'.current_index = st.current_index := by
  induction s with
  | nil =>
      intro st st' evs h
      simp only [processChars] at h
      cases h; rfl
  | cons c cs ih =>
      intro st st' evs h
      simp only [processChars] at h
      rcases hc : processChar sq st c with evs₁ | ⟨evs₁, st₁⟩
      · rw [hc] at h; cases h
      · rw [hc] at h
        dsimp only at h
        rcases h₂ : processChars sq st₁ cs with evs₂ | ⟨evs₂, st₂⟩
        · rw [h₂] at h; cases h
        · rw [h₂] at h
          cases h
          have h1 := ih st₁ _ evs₂ h₂
          have h2 : st₁.current_index = st.current_index := by
            unfold processChar at hc
            dsimp only at hc
            rcases he : extendCandidates sq c
                (st.potential_matches ++ [((st.buffer ++ [c]).length - 1, [])]) with l | p
            · rw [he] at hc
              dsimp only at hc
              split at hc
              · cases hc; rfl
              · cases hc; rfl
            · rw [he] at hc; cases hc
          rw [h1, h2]

theorem runStopSequences_delta_cons (sq : List Str) (sp : Bool)
    (st : StopSeqState) (i : Int) (t : Str) (rest : List StreamingEvent) :
    runStopSequences sq sp st
        (StreamingEvent.content_block_delta i (Delta.text_delta t) :: rest) =
      match processChars sq { st with current_index := i } t with
      | StopStep.stopped evs => ⟨evs, true, sp⟩
      | StopStep.cont evs st₂ =>
          let r := runStopSequences sq sp st₂ rest
          ⟨evs ++ r.events, r.stoppedEarly, r.evictedSession⟩ := by
  simp only [runStopSequences]

theorem runStopSequences_chunks (sq : List Str) (sp : Bool) (i : Int)
    (rest : List StreamingEvent) :
    ∀ (chunks : List Str) (st : StopSeqState), chunks ≠ [] →
    runStopSequences sq sp st
        (chunks.map (fun t =>
          StreamingEvent.content_block_delta i (Delta.text_delta t)) ++ rest) =
      match processChars sq { st with current_index := i } chunks.flatten with
      | StopStep.stopped evs => ⟨evs, true, sp⟩
      | StopStep.cont evs st' =>
          let r := runStopSequences sq sp st' rest
          ⟨evs ++ r.events, r.stoppedEarly, r.evictedSession⟩ := by
  intro chunks
  induction chunks with
  | nil => intro st h; exact absurd rfl h
  | cons t cs ih =>
      intro st _
      rcases cs with _ | ⟨t₂, cs₂⟩
      · simp only [List.map_cons, List.map_nil, List.nil_append, List.cons_append]
        rw [runStopSequences_delta_cons]
        have hfl : ([t] : List Str).flatten = t := by simp
        rw [hfl]
      · simp only [List.map_cons, List.cons_append]
        rw [runStopSequences_delta_cons]
        have hfl : (t :: t₂ :: cs₂).flatten = t ++ (t₂ :: cs₂).flatten := rfl
        rw [hfl, processChars_append]
        rcases hp : processChars sq { st with current_index := i } t with evs | ⟨evs, st'⟩
        · rfl
        · dsimp only
          have hIH := ih st' (by simp)
          simp only [List.map_cons, List.cons_append] at hIH
          rw [hIH]
          have hidx : st'.current_index = i :=
            processChars_cont_index sq t { st with current_index := i } st' evs hp
          have hst' : ({ st' with current_index := i } : StopSeqState) = st' := by
            rw [← hidx]
          rw [hst']
          rcases processChars sq st' (t₂ :: cs₂).flatten with evs₂ | ⟨evs₂, st₂⟩ <;>
            simp [List.append_assoc]

/-- The interception machine on the concrete scenario: processing
`"Hello thEND world"` against `["END"]` stops after emitting one
single-character delta per character of `"Hello th"` followed by the
synthetic tail (all at block index 0, the index of the scenario's
single text block). -/
theorem processChars_hello_end :
    processChars ["END".toList] ⟨[], [], 0⟩ "Hello thEND world".toList =
      StopStep.stopped
        (("Hello th".toList.map (fun c =>
            StreamingEvent.content_block_delta 0 (Delta.text_delta [c]))) ++
         [StreamingEvent.content_block_stop 0,
          StreamingEvent.message_delta
            ⟨some StopReason.stop_sequence, some "END".toList⟩ none,
          StreamingEvent.message_stop]) := by
  rfl

/-- **C4.** With `stop_sequences = ["END"]` and upstream text deltas
concatenating to `"Hello thEND world"` (any chunking, all at the
scenario's single content-block index 0), the transformed stream emits
text deltas cumulatively equal to `"Hello th"`, then
`content_block_stop`, then `message_delta{stop_reason:
"stop_sequence", stop_sequence: "END"}`, then `message_stop`, and
terminates — whatever events would follow upstream are never read.
More generally (second conjunct), whenever no candidate survives a new
character, the whole buffered text — any partial prefix match included
— is flushed to the client at once. -/
theorem C4_stop_sequences :
    (∀ (chunks : List Str) (rest : List StreamingEvent) (sp : Bool),
       chunks ≠ [] → chunks.flatten = "Hello thEND world".toList →
       runStopSequences ["END".toList] sp StopSeqState.init
         (chunks.map (fun t =>
           StreamingEvent.content_block_delta 0 (Delta.text_delta t)) ++ rest) =
       ⟨("Hello th".toList.map (fun c =>
            StreamingEvent.content_block_delta 0 (Delta.text_delta [c]))) ++
        [StreamingEvent.content_block_stop 0,
         StreamingEvent.message_delta
           ⟨some StopReason.stop_sequence, some "END".toList⟩ none,
         StreamingEvent.message_stop], true, sp⟩) ∧
    (∀ (sq : List Str) (st : StopSeqState) (c : Char),
       extendCandidates sq c (st.potential_matches ++ [((st.buffer ++ [c]).length - 1, [])]) =
         Sum.inl [] →
       processChar sq st c =
         StopStep.cont
           [StreamingEvent.content_block_delta st.current_index
             (Delta.text_delta (st.buffer ++ [c]))]
           ⟨[], [], st.current_index⟩) := by
  constructor
  · intro chunks rest sp hne hjoin
    rw [runStopSequences_chunks ["END".toList] sp 0 rest chunks StopSeqState.init hne]
    have hinit : ({ StopSeqState.init with current_index := (0 : Int) } : StopSeqState) =
        ⟨[], [], 0⟩ := rfl
    rw [hinit, hjoin, processChars_hello_end]
  · intro sq st c hext
    unfold processChar
    dsimp only
    rw [hext]
    dsimp only [minStart]
    have hpos : 0 < (st.buffer ++ [c]).length := by simp
    rw [if_pos hpos]
    simp

/-- **C4, witness**: the single-delta chunking of the scenario. -/
theorem C4_stop_sequences_witness :
    runStopSequences ["END".toList] true StopSeqState.init
        (["Hello thEND world".toList].map (fun t =>
          StreamingEvent.content_block_delta 0 (Delta.text_delta t)) ++ []) =
      ⟨("Hello th".toList.map (fun c =>
           StreamingEvent.content_block_delta 0 (Delta.text_delta [c]))) ++
       [StreamingEvent.content_block_stop 0,
        StreamingEvent.message_delta
          ⟨some StopReason.stop_sequence, some "END".toList⟩ none,
        StreamingEvent.message_stop], true, true⟩ :=
  C4_stop_sequences.1 ["Hello thEND world".toList] [] true
    (by simp) (by simp)

theorem runToolEvents_init_step (sid : Str) (mid : Option Str)
    (e : StreamingEvent) (rest : List StreamingEvent)
    (h1 : startsToolUseB e = false) (h2 : startsToolResB e = false) :
    runToolEvents sid mid ToolEvState.init (e :: rest) =
      ⟨e :: (runToolEvents sid mid ToolEvState.init rest).events,
       (runToolEvents sid mid ToolEvState.init rest).registered,
       (runToolEvents sid mid ToolEvState.init rest).broke⟩ := by
  rcases e with m | ⟨idx, cb⟩ | ⟨idx, d⟩ | idx | ⟨d, u⟩ | _ | _ | er | ⟨ty, da⟩
  · simp [runToolEvents, ToolEvState.init]
  · rcases cb with t | s | th | ⟨id, nm, inp⟩ | ⟨tu, ct, ie⟩ | ⟨id, nm, inp⟩ | ⟨tu, ct⟩
    · simp [runToolEvents, ToolEvState.init]
    · simp [runToolEvents, ToolEvState.init]
    · simp [runToolEvents, ToolEvState.init]
    · simp [startsToolUseB] at h1
    · simp [startsToolResB] at h2
    · simp [runToolEvents, ToolEvState.init]
    · simp [runToolEvents, ToolEvState.init]
  · simp [runToolEvents, ToolEvState.init]
  · simp [runToolEvents, ToolEvState.init]
  · simp [runToolEvents, ToolEvState.init]
  · simp [runToolEvents, ToolEvState.init]
  · simp [runToolEvents, ToolEvState.init]
  · simp [runToolEvents, ToolEvState.init]
  · simp [runToolEvents, ToolEvState.init]

theorem runToolEvents_init_pass (sid : Str) (mid : Option Str) :
    ∀ (pre : List StreamingEvent) (rest : List StreamingEvent),
      (∀ e ∈ pre, startsToolUseB e = false ∧ startsToolResB e = false) →
      runToolEvents sid mid ToolEvState.init (pre ++ rest) =
        ⟨pre ++ (runToolEvents sid mid ToolEvState.init rest).events,
         (runToolEvents sid mid ToolEvState.init rest).registered,
         (runToolEvents sid mid ToolEvState.init rest).broke⟩ := by
  intro pre
  induction pre with
  | nil => intro rest _; simp
  | cons e es ih =>
      intro rest hsafe
      have he := hsafe e (by simp)
      have hes : ∀ x ∈ es, startsToolUseB x = false ∧ startsToolResB x = false :=
        fun x hx => hsafe x (by simp [hx])
      rw [List.cons_append, runToolEvents_init_step sid mid e (es ++ rest) he.1 he.2,
        ih rest hes]
      simp

theorem runToolEvents_detected_step (sid : Str) (mid : Option Str)
    (t : Str) (i : Int) (e : StreamingEvent) (rest : List StreamingEvent)
    (h1 : startsToolUseB e = false) (h2 : startsToolResB e = false)
    (h3 : stopsAtB i e = false) :
    runToolEvents sid mid (toolDetectedState t i) (e :: rest) =
      ⟨e :: (runToolEvents sid mid (toolDetectedState t i) rest).events,
       (runToolEvents sid mid (toolDetectedState t i) rest).registered,
       (runToolEvents sid mid (toolDetectedState t i) rest).broke⟩ := by
  rcases e with m | ⟨idx, cb⟩ | ⟨idx, d⟩ | idx | ⟨d, u⟩ | _ | _ | er | ⟨ty, da⟩
  · simp [runToolEvents, toolDetectedState]
  · rcases cb with tx | s | th | ⟨id, nm, inp⟩ | ⟨tu, ct, ie⟩ | ⟨id, nm, inp⟩ | ⟨tu, ct⟩
    · simp [runToolEvents, toolDetectedState]
    · simp [runToolEvents, toolDetectedState]
    · simp [runToolEvents, toolDetectedState]
    · simp [startsToolUseB] at h1
    · simp [startsToolResB] at h2
    · simp [runToolEvents, toolDetectedState]
    · simp [runToolEvents, toolDetectedState]
  · simp [runToolEvents, toolDetectedState]
  · have hne : (i == idx) = false := by
      simp only [stopsAtB] at h3
      rcases hbe : (idx == i) with _ | _
      · simp only [beq_eq_false_iff_ne] at hbe ⊢
        exact fun hcon => hbe hcon.symm
      · rw [hbe] at h3; cases h3
    simp [runToolEvents, toolDetectedState, hne]
  · simp [runToolEvents, toolDetectedState]
  · simp [runToolEvents, toolDetectedState]
  · simp [runToolEvents, toolDetectedState]
  · simp [runToolEvents, toolDetectedState]
  · simp [runToolEvents, toolDetectedState]

theorem runToolEvents_detected_pass (sid : Str) (mid : Option Str)
    (t : Str) (i : Int) :
    ∀ (es : List StreamingEvent) (rest : List StreamingEvent),
      (∀ e ∈ es, startsToolUseB e = false ∧ startsToolResB e = false ∧
        stopsAtB i e = false) →
      runToolEvents sid mid (toolDetectedState t i) (es ++ rest) =
        ⟨es ++ (runToolEvents sid mid (toolDetectedState t i) rest).events,
         (runToolEvents sid mid (toolDetectedState t i) rest).registered,
         (runToolEvents sid mid (toolDetectedState t i) rest).broke⟩ := by
  intro es
  induction es with
  | nil => intro rest _; simp
  | cons e es ih =>
      intro rest hsafe
      have he := hsafe e (by simp)
      have hes : ∀ x ∈ es, startsToolUseB x = false ∧ startsToolResB x = false ∧
          stopsAtB i x = false :=
        fun x hx => hsafe x (by simp [hx])
      rw [List.cons_append,
        runToolEvents_detected_step sid mid t i e (es ++ rest) he.1 he.2.1 he.2.2,
        ih rest hes]
      simp

/-- **C5.** When the upstream stream carries a `content_block_start`
introducing a `tool_use` block with id `t` at index `i` (with no other
tool-use/tool-result starts around it) and the matching
`content_block_stop` at index `i` arrives, the transformed stream
yields that stop event followed by a synthetic
`message_delta{stop_reason: "tool_use"}` and `message_stop`, breaks the
upstream read loop (whatever follows upstream is never read, and the
processor performs no session eviction), and registers `t` with the
session id (and collected-message id) in the tool-call registry. -/
theorem C5_tool_use_interception (sid : Str) (msgid : Option Str)
    (t name : Str) (input : List (Str × Json)) (i : Int)
    (pre mid rest : List StreamingEvent)
    (hpre : ∀ e ∈ pre, startsToolUseB e = false ∧ startsToolResB e = false)
    (hmid : ∀ e ∈ mid, startsToolUseB e = false ∧ startsToolResB e = false ∧
      stopsAtB i e = false)
    (ht : t ≠ []) :
    runToolEvents sid msgid ToolEvState.init
        (pre ++
         [StreamingEvent.content_block_start i (ContentBlock.tool_use t name input)] ++
         mid ++ [StreamingEvent.content_block_stop i] ++ rest) =
      ⟨pre ++
       [StreamingEvent.content_block_start i (ContentBlock.tool_use t name input)] ++
       mid ++
       [StreamingEvent.content_block_stop i,
        StreamingEvent.message_delta ⟨some StopReason.tool_use, none⟩ none,
        StreamingEvent.message_stop],
       [{ tool_use_id := t, session_id := sid, message_id := msgid }],
       true⟩ := by
  have hstop : runToolEvents sid msgid (toolDetectedState t i)
      (StreamingEvent.content_block_stop i :: rest) =
      ⟨[StreamingEvent.content_block_stop i,
        StreamingEvent.message_delta ⟨some StopReason.tool_use, none⟩ none,
        StreamingEvent.message_stop],
       [{ tool_use_id := t, session_id := sid, message_id := msgid }],
       true⟩ := by
    have hne : t.isEmpty = false := by
      cases t with
      | nil => exact absurd rfl ht
      | cons c cs => rfl
    simp [runToolEvents, toolDetectedState, hne]
  have hstart : runToolEvents sid msgid ToolEvState.init
      (StreamingEvent.content_block_start i (ContentBlock.tool_use t name input) ::
        (mid ++ ([StreamingEvent.content_block_stop i] ++ rest))) =
      ⟨StreamingEvent.content_block_start i (ContentBlock.tool_use t name input) ::
        (runToolEvents sid msgid (toolDetectedState t i)
          (mid ++ ([StreamingEvent.content_block_stop i] ++ rest))).events,
       (runToolEvents sid msgid (toolDetectedState t i)
          (mid ++ ([StreamingEvent.content_block_stop i] ++ rest))).registered,
       (runToolEvents sid msgid (toolDetectedState t i)
          (mid ++ ([StreamingEvent.content_block_stop i] ++ rest))).broke⟩ := by
    simp [runToolEvents, ToolEvState.init, toolDetectedState]
  have hmid' := runToolEvents_detected_pass sid msgid t i mid
    ([StreamingEvent.content_block_stop i] ++ rest) hmid
  rw [List.append_assoc, List.append_assoc, List.append_assoc,
    runToolEvents_init_pass sid msgid pre _ hpre]
  rw [List.singleton_append, hstart, hmid', List.singleton_append, hstop]
  simp

/-- **C5, witness**: a minimal stream — tool-use start at index 1, one
text delta, then the matching stop. -/
theorem C5_tool_use_interception_witness :
    runToolEvents "sess1".toList (some "m1".toList) ToolEvState.init
        ([] ++
         [StreamingEvent.content_block_start 1
           (ContentBlock.tool_use "tu1".toList "get_weather".toList [])] ++
         [StreamingEvent.content_block_delta 1 (Delta.text_delta "x".toList)] ++
         [StreamingEvent.content_block_stop 1] ++
         [StreamingEvent.ping]) =
      ⟨[] ++
       [StreamingEvent.content_block_start 1
         (ContentBlock.tool_use "tu1".toList "get_weather".toList [])] ++
       [StreamingEvent.content_block_delta 1 (Delta.text_delta "x".toList)] ++
       [StreamingEvent.content_block_stop 1,
        StreamingEvent.message_delta ⟨some StopReason.tool_use, none⟩ none,
        StreamingEvent.message_stop],
       [{ tool_use_id := "tu1".toList, session_id := "sess1".toList,
          message_id := some "m1".toList }],
       true⟩ :=
  C5_tool_use_interception "sess1".toList (some "m1".toList) "tu1".toList
    "get_weather".toList [] 1 []
    [StreamingEvent.content_block_delta 1 (Delta.text_delta "x".toList)]
    [StreamingEvent.ping]
    (by intro e he; cases he)
    (by
      intro e he
      simp only [List.mem_singleton] at he
      subst he
      exact ⟨rfl, rfl, rfl⟩)
    (by simp)

theorem data_not_prefix_of_http (url : Str)
    (h : (isPrefixB "http://".toList url || isPrefixB "https://".toList url) = true) :
    isPrefixB "data:".toList url = false := by
  cases url with
  | nil => simp [isPrefixB] at h
  | cons c cs =>
      have hc : c = 'h' := by
        rcases Bool.or_eq_true_iff.mp h with h' | h'
        · have hred : "http://".toList = 'h' :: "ttp://".toList := rfl
          rw [hred] at h'
          simp only [isPrefixB, Bool.and_eq_true, beq_iff_eq] at h'
          exact h'.1.symm
        · have hred : "https://".toList = 'h' :: "ttps://".toList := rfl
          rw [hred] at h'
          simp only [isPrefixB, Bool.and_eq_true, beq_iff_eq] at h'
          exact h'.1.symm
      subst hc
      have hred : "data:".toList = 'd' :: "ata:".toList := rfl
      rw [hred]
      simp [isPrefixB]

theorem extract_http_not_allowed (settings : MsgSettings)
    (dl : Except Unit (List Nat × Str)) (url : Str)
    (hallow : settings.allow_external_images = false)
    (hhttp : (isPrefixB "http://".toList url || isPrefixB "https://".toList url) = true) :
    extract_image_from_url settings dl url =
      Except.error ImageErr.externalImageNotAllowed := by
  unfold extract_image_from_url
  rw [data_not_prefix_of_http url hhttp]
  simp only [hallow, hhttp, Bool.false_and, Bool.true_and, Bool.not_false,
    Bool.false_eq_true, if_false, if_true]

theorem extract_http_download_failure (settings : MsgSettings) (url : Str)
    (hallow : settings.allow_external_images = true)
    (hhttp : (isPrefixB "http://".toList url || isPrefixB "https://".toList url) = true) :
    extract_image_from_url settings (Except.error ()) url =
      Except.error ImageErr.externalImageDownload := by
  unfold extract_image_from_url
  rw [data_not_prefix_of_http url hhttp]
  simp only [hallow, hhttp, Bool.true_and, Bool.false_eq_true, if_false, if_true]

/-- `Except`: binding a raised error short-circuits. -/
theorem exceptErrorBind {ε α β : Type} (e : ε) (f : α → Except ε β) :
    (Except.error e >>= f : Except ε β) = Except.error e := rfl

/-- **C8.** For an image content block whose source is an http(s) URL,
message merging fails: with `allow_external_images = false` it raises
ExternalImageNotAllowed, and with `allow_external_images = true` and a
failing download it raises ExternalImageDownload. -/
theorem C8_external_image_errors :
    (∀ (settings : MsgSettings) (dl : Except Unit (List Nat × Str)) (url : Str)
       (r : Role) (bs : List ContentBlock) (sys : Option (Str ⊕ List Str)),
       settings.allow_external_images = false →
       (isPrefixB "http://".toList url || isPrefixB "https://".toList url) = true →
       process_messages settings dl
         [{ role := r,
            content := MsgContent.blocks
              (ContentBlock.image (ImageSource.url url) :: bs) }] sys =
         Except.error ImageErr.externalImageNotAllowed) ∧
    (∀ (settings : MsgSettings) (url : Str) (r : Role) (bs : List ContentBlock)
       (sys : Option (Str ⊕ List Str)),
       settings.allow_external_images = true →
       (isPrefixB "http://".toList url || isPrefixB "https://".toList url) = true →
       process_messages settings (Except.error ())
         [{ role := r,
            content := MsgContent.blocks
              (ContentBlock.image (ImageSource.url url) :: bs) }] sys =
         Except.error ImageErr.externalImageDownload) := by
  constructor
  · intro settings dl url r bs sys hallow hhttp
    have hex := extract_http_not_allowed settings dl url hallow hhttp
    simp [process_messages, renderBlock, hex, List.foldlM, exceptErrorBind]
  · intro settings url r bs sys hallow hhttp
    have hex := extract_http_download_failure settings url hallow hhttp
    simp [process_messages, renderBlock, hex, List.foldlM, exceptErrorBind]

/-- **C8, witness**: the not-allowed path on a concrete URL. -/
theorem C8_external_image_errors_witness :
    process_messages
        { use_real_roles := false, human_name := "Human".toList,
          assistant_name := "Assistant".toList, allow_external_images := false }
        (Except.ok ([], "image/png".toList))
        [{ role := Role.user,
           content := MsgContent.blocks
             [ContentBlock.image
               (ImageSource.url "http://x.example/i.png".toList)] }] none =
      Except.error ImageErr.externalImageNotAllowed :=
  C8_external_image_errors.1
    { use_real_roles := false, human_name := "Human".toList,
      assistant_name := "Assistant".toList, allow_external_images := false }
    (Except.ok ([], "image/png".toList)) "http://x.example/i.png".toList
    Role.user [] none rfl (by decide)

theorem list_attach_all {α : Type} (l : List α) (p : α → Bool) :
    l.attach.all (fun x => p x.1) = l.all p := by
  rw [Bool.eq_iff_iff, List.all_eq_true, List.all_eq_true]
  constructor
  · intro h x hx; exact h ⟨x, hx⟩ (List.mem_attach l ⟨x, hx⟩)
  · intro h x _; exact h x.1 x.2

theorem wfJson_arr (items : List Json) :
    wfJson (Json.arr items) = items.all wfJson := by
  rw [wfJson]
  exact list_attach_all items wfJson

theorem wfJson_obj (fields : List (Str × Json)) :
    wfJson (Json.obj fields) =
      fields.all (fun kv => wfStr kv.1 && wfJson kv.2) := by
  rw [wfJson]
  rw [show (fun (kv : {x // x ∈ fields}) => wfStr kv.1.1 && wfJson kv.1.2) =
      (fun kv => (fun p => wfStr p.1 && wfJson p.2) kv.1) from rfl]
  exact list_attach_all fields (fun p => wfStr p.1 && wfJson p.2)

theorem jsonDump_arr (items : List Json) :
    jsonDump (Json.arr items) =
      '[' :: List.intercalate [','] (items.map jsonDump) ++ [']'] := by
  rw [jsonDump]
  rw [List.attach_map_val items jsonDump]

theorem jsonDump_obj (fields : List (Str × Json)) :
    jsonDump (Json.obj fields) =
      '{' :: List.intercalate [',']
        (fields.map (fun kv => jsonDumpStr kv.1 ++ [':'] ++ jsonDump kv.2)) ++ ['}'] := by
  rw [jsonDump]
  rw [show (fun (kv : {x // x ∈ fields}) => jsonDumpStr kv.1.1 ++ [':'] ++ jsonDump kv.1.2) =
      (fun kv => (fun p => jsonDumpStr p.1 ++ [':'] ++ jsonDump p.2) kv.1) from rfl]
  rw [List.attach_map_val fields (fun p => jsonDumpStr p.1 ++ [':'] ++ jsonDump p.2)]

theorem escapeChar_plain (c : Char) (h : plainChar c = true) :
    escapeChar c = [c] := by
  unfold plainChar at h
  simp only [Bool.not_eq_true', Bool.or_eq_false_iff, decide_eq_false_iff_not] at h
  obtain ⟨⟨h1, h2⟩, h3⟩ := h
  unfold escapeChar
  have hn : ¬ c = '\n' := by intro hc; subst hc; simp at h3
  have hr : ¬ c = '\r' := by intro hc; subst hc; simp at h3
  have ht : ¬ c = '\t' := by intro hc; subst hc; simp at h3
  simp [h1, h2, h3, hn, hr, ht]

theorem flatten_escape_plain (s : Str) (h : wfStr s = true) :
    (s.map escapeChar).flatten = s := by
  induction s with
  | nil => rfl
  | cons c cs ih =>
      unfold wfStr at h
      simp only [List.all_cons, Bool.and_eq_true] at h
      simp only [List.map_cons, List.flatten_cons, escapeChar_plain c h.1,
        ih h.2, List.cons_append, List.nil_append]

theorem jsonDumpStr_plain (s : Str) (h : wfStr s = true) :
    jsonDumpStr s = '"' :: s ++ ['"'] := by
  unfold jsonDumpStr
  rw [flatten_escape_plain s h]

theorem skipWs_cons_of_not_ws (c : Char) (r : Str) (h : isWsChar c = false) :
    skipWs (c :: r) = c :: r := by
  unfold skipWs
  rw [List.dropWhile_cons]
  simp [h]

theorem splitOnNl_of_no_nl (s : Str) (h : s.all (fun c => !(c = '\n')) = true) :
    splitOnNl s = [s] := by
  induction s with
  | nil => rfl
  | cons c cs ih =>
      simp only [List.all_cons, Bool.and_eq_true, Bool.not_eq_true',
        decide_eq_false_iff_not] at h
      unfold splitOnNl
      rw [if_neg h.1, ih (by simpa using h.2)]

theorem parseStrBody_plain (s : Str) (rest : Str) (h : wfStr s = true) :
    parseStrBody (s ++ '"' :: rest) = some (s, rest) := by
  induction s with
  | nil =>
      unfold parseStrBody
      simp
  | cons c cs ih =>
      unfold wfStr at h
      simp only [List.all_cons, Bool.and_eq_true] at h
      have hp := h.1
      unfold plainChar at hp
      simp only [Bool.not_eq_true', Bool.or_eq_false_iff,
        decide_eq_false_iff_not] at hp
      obtain ⟨⟨h1, h2⟩, h3⟩ := hp
      rw [List.cons_append]
      unfold parseStrBody
      rw [if_neg h1, if_neg h2, if_neg h3, ih h.2]

theorem digitChar_toNat (d : Nat) (h : d < 10) :
    (Char.ofNat (48 + d)).toNat = 48 + d := by
  interval_cases d <;> decide

theorem digitChar_isDigit (d : Nat) (h : d < 10) :
    (Char.ofNat (48 + d)).isDigit = true := by
  interval_cases d <;> decide

theorem natToChars_all_digits (n : Nat) :
    (natToChars n).all Char.isDigit = true := by
  induction n using Nat.strong_induction_on with
  | _ n ih =>
      unfold natToChars
      by_cases h : n < 10
      · simp [h, digitChar_isDigit n h]
      · have hd : n / 10 < n := Nat.div_lt_self (by omega) (by omega)
        simp only [h, dite_false]
        rw [List.all_append]
        refine Bool.and_eq_true_iff.mpr ⟨ih (n / 10) hd, ?_⟩
        simp [digitChar_isDigit (n % 10) (Nat.mod_lt n (by omega))]

theorem natToChars_ne_nil (n : Nat) : natToChars n ≠ [] := by
  unfold natToChars
  by_cases h : n < 10
  · simp [h]
  · simp only [h, dite_false]
    intro hcon
    exact absurd hcon (by simp)

/-- The digit-run value function of `readNatDigits`. -/
theorem foldl_digits_natToChars (n : Nat) :
    ∀ acc : Nat,
      (natToChars n).foldl (fun a c => a * 10 + (c.toNat - 48)) acc =
        acc * 10 ^ (natToChars n).length + n := by
  induction n using Nat.strong_induction_on with
  | _ n ih =>
      intro acc
      unfold natToChars
      by_cases h : n < 10
      · simp [h, digitChar_toNat n h]
      · have hd : n / 10 < n := Nat.div_lt_self (by omega) (by omega)
        simp only [h, dite_false]
        rw [List.foldl_append]
        rw [ih (n / 10) hd acc]
        simp only [List.foldl_cons, List.foldl_nil, List.length_append,
          List.length_cons, List.length_nil]
        rw [digitChar_toNat (n % 10) (Nat.mod_lt n (by omega))]
        have : acc * 10 ^ ((natToChars (n / 10)).length + (0 + 1)) =
            acc * 10 ^ (natToChars (n / 10)).length * 10 := by
          rw [pow_succ]; ring
        rw [this]
        omega

theorem takeWhile_all_append (p : Char → Bool) (xs rest : Str)
    (hxs : xs.all p = true)
    (hrest : match rest with | [] => True | c :: _ => p c = false) :
    (xs ++ rest).takeWhile p = xs ∧ (xs ++ rest).dropWhile p = rest := by
  induction xs with
  | nil =>
      simp only [List.nil_append]
      cases rest with
      | nil => simp
      | cons c r =>
          simp only at hrest
          constructor
          · rw [List.takeWhile_cons, hrest]
            simp
          · rw [List.dropWhile_cons]
            simp [hrest]
  | cons x xs ih =>
      simp only [List.all_cons, Bool.and_eq_true] at hxs
      obtain ⟨hx, hxs'⟩ := hxs
      have := ih hxs'
      constructor
      · rw [List.cons_append, List.takeWhile_cons, hx]
        simp [this.1]
      · rw [List.cons_append, List.dropWhile_cons]
        simp [hx, this.2]

theorem readNatDigits_natToChars (n : Nat) (rest : Str)
    (hrest : match rest with | [] => True | c :: _ => c.isDigit = false) :
    readNatDigits (natToChars n ++ rest) = some (n, rest) := by
  have hsplit := takeWhile_all_append Char.isDigit (natToChars n) rest
    (natToChars_all_digits n) hrest
  unfold readNatDigits
  rw [hsplit.1, hsplit.2]
  have hne : (natToChars n).isEmpty = false := by
    rcases hn : natToChars n with _ | _
    · exact absurd hn (natToChars_ne_nil n)
    · rfl
  dsimp only
  rw [hne]
  simp only [Bool.false_eq_true, if_false]
  rw [foldl_digits_natToChars n 0]
  simp

theorem intercalate_singleton (sep a : Str) : List.intercalate sep [a] = a := by
  simp [List.intercalate, List.intersperse]

theorem intercalate_cons₂ (sep a b : Str) (l : List Str) :
    List.intercalate sep (a :: b :: l) = a ++ sep ++ List.intercalate sep (b :: l) := by
  simp [List.intercalate, List.intersperse, List.append_assoc]

theorem digit_ne_of_not_digit (c d : Char) (h : c.isDigit = true)
    (hd : d.isDigit = false) : ¬ c = d := by
  intro hc; subst hc; rw [h] at hd; cases hd

theorem digit_not_ws (c : Char) (h : c.isDigit = true) : isWsChar c = false := by
  unfold isWsChar
  have h1 : ¬ c = ' ' := digit_ne_of_not_digit c ' ' h (by decide)
  have h2 : ¬ c = '\n' := digit_ne_of_not_digit c '\n' h (by decide)
  have h3 : ¬ c = '\t' := digit_ne_of_not_digit c '\t' h (by decide)
  have h4 : ¬ c = '\r' := digit_ne_of_not_digit c '\r' h (by decide)
  simp [h1, h2, h3, h4]

theorem parseNum_intToChars (n : Int) (rest : Str)
    (hrest : match rest with | [] => True | c :: _ => c.isDigit = false) :
    parseNum (intToChars n ++ rest) = some (Json.num n, rest) := by
  by_cases hn : n < 0
  · have hform : intToChars n = '-' :: natToChars (-n).toNat := by
      unfold intToChars
      simp [hn]
    rw [hform, List.cons_append]
    unfold parseNum
    dsimp only
    rw [if_pos rfl, readNatDigits_natToChars (-n).toNat rest hrest]
    dsimp only
    have : (-(((-n).toNat : Int))) = n := by omega
    rw [this]
  · have hform : intToChars n = natToChars n.toNat := by
      unfold intToChars
      simp [hn]
    rw [hform]
    obtain ⟨c, cs, hcs⟩ : ∃ c cs, natToChars n.toNat = c :: cs := by
      rcases hx : natToChars n.toNat with _ | ⟨c, cs⟩
      · exact absurd hx (natToChars_ne_nil _)
      · exact ⟨c, cs, rfl⟩
    have hcd : c.isDigit = true := by
      have := natToChars_all_digits n.toNat
      rw [hcs] at this
      simp only [List.all_cons, Bool.and_eq_true] at this
      exact this.1
    rw [hcs, List.cons_append]
    unfold parseNum
    dsimp only
    rw [if_neg (digit_ne_of_not_digit c '-' hcd (by decide))]
    rw [show (c :: (cs ++ rest)) = (c :: cs) ++ rest from rfl, ← hcs,
      readNatDigits_natToChars n.toNat rest hrest]
    dsimp only
    have : ((n.toNat : Int)) = n := by omega
    rw [this]

/-- Head shape of a dumped JSON value: a single non-whitespace
character that is not a closing bracket and not a comma or colon. -/
theorem jsonDump_head (v : Json) :
    ∃ c cs, jsonDump v = c :: cs ∧ isWsChar c = false ∧
      ¬ c = ']' ∧ ¬ c = '}' ∧ ¬ c = ',' := by
  rcases v with _ | b | n | s | items | fields
  · refine ⟨'n', "ull".toList, ?_, by decide, by decide, by decide, by decide⟩
    rw [jsonDump]; rfl
  · rcases b with _ | _
    · refine ⟨'f', "alse".toList, ?_, by decide, by decide, by decide, by decide⟩
      rw [jsonDump]; rfl
    · refine ⟨'t', "rue".toList, ?_, by decide, by decide, by decide, by decide⟩
      rw [jsonDump]; rfl
  · by_cases hn : n < 0
    · refine ⟨'-', natToChars (-n).toNat, ?_, by decide, by decide, by decide, by decide⟩
      unfold jsonDump intToChars
      simp [hn]
    · obtain ⟨c, cs, hcs⟩ : ∃ c cs, natToChars n.toNat = c :: cs := by
        rcases hx : natToChars n.toNat with _ | ⟨c, cs⟩
        · exact absurd hx (natToChars_ne_nil _)
        · exact ⟨c, cs, rfl⟩
      have hcd : c.isDigit = true := by
        have := natToChars_all_digits n.toNat
        rw [hcs] at this
        simp only [List.all_cons, Bool.and_eq_true] at this
        exact this.1
      refine ⟨c, cs, ?_, digit_not_ws c hcd,
        digit_ne_of_not_digit c ']' hcd (by decide),
        digit_ne_of_not_digit c '}' hcd (by decide),
        digit_ne_of_not_digit c ',' hcd (by decide)⟩
      unfold jsonDump intToChars
      simp [hn, hcs]
  · exact ⟨'"', (s.map escapeChar).flatten ++ ['"'], by rw [jsonDump]; rfl,
      by decide, by decide, by decide, by decide⟩
  · exact ⟨'[', _, jsonDump_arr items, by decide, by decide, by decide, by decide⟩
  · exact ⟨'{', _, jsonDump_obj fields, by decide, by decide, by decide, by decide⟩

theorem jsonFuel_pos (v : Json) : 1 ≤ jsonFuel v := by
  rcases v with _ | _ | _ | _ | items | fields <;> rw [jsonFuel] <;> omega

theorem itemsFuel_pos (l : List Json) : 1 ≤ itemsFuel l := by
  rcases l with _ | ⟨x, xs⟩ <;> rw [itemsFuel] <;> omega

theorem membersFuel_pos (l : List (Str × Json)) : 1 ≤ membersFuel l := by
  rcases l with _ | ⟨⟨k, v⟩, kvs⟩ <;> rw [membersFuel] <;> omega

theorem intercalate_nil (sep : Str) : List.intercalate sep ([] : List Str) = [] := by
  simp [List.intercalate, List.intersperse]

theorem skipWs_eq_of_head {s : Str} (c : Char) (cs : Str)
    (h : s = c :: cs) (hws : isWsChar c = false) : skipWs s = s := by
  rw [h]; exact skipWs_cons_of_not_ws c cs hws

theorem headNotDigit_cons (c : Char) (rest : Str) (h : c.isDigit = false) :
    (match c :: rest with | [] => True | d :: _ => d.isDigit = false) := h

mutual
theorem parseVal_dump (v : Json) (fuel : Nat) (rest : Str)
    (hwf : wfJson v = true) (hfuel : jsonFuel v ≤ fuel)
    (hrest : match rest with | [] => True | c :: _ => c.isDigit = false) :
    parseVal fuel (jsonDump v ++ rest) = some (v, rest) := by
  obtain ⟨f, rfl⟩ : ∃ f, fuel = f + 1 :=
    ⟨fuel - 1, by have := jsonFuel_pos v; omega⟩
  rcases v with _ | b | n | s | items | fields
  · rw [jsonDump]
    show parseVal (f + 1) ('n' :: 'u' :: 'l' :: 'l' :: rest) = some (Json.null, rest)
    unfold parseVal
    rw [skipWs_cons_of_not_ws 'n' _ (by decide)]
    simp
  · rcases b with _ | _
    · rw [jsonDump]
      show parseVal (f + 1) ('f' :: 'a' :: 'l' :: 's' :: 'e' :: rest) =
        some (Json.bool false, rest)
      unfold parseVal
      rw [skipWs_cons_of_not_ws 'f' _ (by decide)]
      simp
    · rw [jsonDump]
      show parseVal (f + 1) ('t' :: 'r' :: 'u' :: 'e' :: rest) =
        some (Json.bool true, rest)
      unfold parseVal
      rw [skipWs_cons_of_not_ws 't' _ (by decide)]
      simp
  · -- number
    rw [jsonDump]
    obtain ⟨c0, t0, h0, hd0⟩ :
        ∃ c0 t0, intToChars n = c0 :: t0 ∧ (c0.isDigit = true ∨ c0 = '-') := by
      unfold intToChars
      by_cases hn : n < 0
      · simp only [hn, if_true]
        exact ⟨'-', _, rfl, Or.inr rfl⟩
      · simp only [hn, if_false]
        obtain ⟨c, cs, hcs⟩ : ∃ c cs, natToChars n.toNat = c :: cs := by
          rcases hx : natToChars n.toNat with _ | ⟨c, cs⟩
          · exact absurd hx (natToChars_ne_nil _)
          · exact ⟨c, cs, rfl⟩
        refine ⟨c, cs, hcs, Or.inl ?_⟩
        have := natToChars_all_digits n.toNat
        rw [hcs] at this
        simp only [List.all_cons, Bool.and_eq_true] at this
        exact this.1
    have hfacts : isWsChar c0 = false ∧ ¬c0 = 'n' ∧ ¬c0 = 't' ∧ ¬c0 = 'f' ∧
        ¬c0 = '"' ∧ ¬c0 = '[' ∧ ¬c0 = '{' := by
      rcases hd0 with hd | hd
      · exact ⟨digit_not_ws c0 hd,
          digit_ne_of_not_digit c0 'n' hd (by decide),
          digit_ne_of_not_digit c0 't' hd (by decide),
          digit_ne_of_not_digit c0 'f' hd (by decide),
          digit_ne_of_not_digit c0 '"' hd (by decide),
          digit_ne_of_not_digit c0 '[' hd (by decide),
          digit_ne_of_not_digit c0 '{' hd (by decide)⟩
      · subst hd
        exact ⟨by decide, by decide, by decide, by decide, by decide, by decide, by decide⟩
    obtain ⟨hws0, hn0, ht0', hf0, hq0, hl0, hb0⟩ := hfacts
    rw [h0, List.cons_append]
    unfold parseVal
    rw [skipWs_cons_of_not_ws c0 _ hws0]
    simp only [hn0, ht0', hf0, hq0, hl0, hb0, if_false]
    rw [show (c0 :: (t0 ++ rest)) = (c0 :: t0) ++ rest from rfl, ← h0]
    exact parseNum_intToChars n rest hrest
  · -- string
    rw [wfJson] at hwf
    rw [jsonDump, jsonDumpStr_plain s hwf]
    have hshape : ('"' :: s ++ ['"']) ++ rest = '"' :: (s ++ '"' :: rest) := by
      simp [List.append_assoc]
    rw [hshape]
    unfold parseVal
    rw [skipWs_cons_of_not_ws '"' _ (by decide)]
    simp only [if_neg (by decide : ¬('"' : Char) = 'n'),
      if_neg (by decide : ¬('"' : Char) = 't'),
      if_neg (by decide : ¬('"' : Char) = 'f'), if_pos rfl]
    rw [parseStrBody_plain s rest hwf]
    simp
  · -- array
    rw [wfJson_arr] at hwf
    rw [jsonDump_arr]
    rcases items with _ | ⟨x, xs⟩
    · rw [List.map_nil, intercalate_nil]
      show parseVal (f + 1) ('[' :: ']' :: rest) = some (Json.arr [], rest)
      unfold parseVal
      rw [skipWs_cons_of_not_ws '[' _ (by decide)]
      simp only [if_neg (by decide : ¬('[' : Char) = 'n'),
        if_neg (by decide : ¬('[' : Char) = 't'),
        if_neg (by decide : ¬('[' : Char) = 'f'),
        if_neg (by decide : ¬('[' : Char) = '"'), if_pos rfl]
      rw [skipWs_cons_of_not_ws ']' _ (by decide)]
      simp
    · have hshape :
          ('[' :: List.intercalate [','] ((x :: xs).map jsonDump) ++ [']']) ++ rest =
          '[' :: (List.intercalate [','] ((x :: xs).map jsonDump) ++ ']' :: rest) := by
        simp [List.append_assoc]
      rw [hshape]
      obtain ⟨c1, t1, hd1, hws1, hbr1, _, _⟩ := jsonDump_head x
      obtain ⟨tt, hcons⟩ :
          ∃ tt, List.intercalate [','] ((x :: xs).map jsonDump) ++ ']' :: rest =
            c1 :: tt := by
        rcases xs with _ | ⟨y, ys⟩
        · rw [List.map_cons, List.map_nil, intercalate_singleton, hd1]
          exact ⟨t1 ++ ']' :: rest, by simp⟩
        · rw [List.map_cons, List.map_cons, intercalate_cons₂, hd1]
          exact ⟨(t1 ++ [','] ++
            List.intercalate [','] (jsonDump y :: ys.map jsonDump)) ++ ']' :: rest,
            by simp [List.append_assoc]⟩
      unfold parseVal
      rw [skipWs_cons_of_not_ws '[' _ (by decide)]
      simp only [if_neg (by decide : ¬('[' : Char) = 'n'),
        if_neg (by decide : ¬('[' : Char) = 't'),
        if_neg (by decide : ¬('[' : Char) = 'f'),
        if_neg (by decide : ¬('[' : Char) = '"'), if_pos rfl]
      rw [hcons, skipWs_cons_of_not_ws c1 _ hws1]
      dsimp only
      rw [if_neg hbr1, ← hcons]
      rw [parseItems_dump (x :: xs) f rest (List.cons_ne_nil _ _) hwf
        (by rw [jsonFuel] at hfuel; omega)]
      simp
  · -- object
    rw [wfJson_obj] at hwf
    rw [jsonDump_obj]
    rcases fields with _ | ⟨⟨k, w⟩, kvs⟩
    · rw [List.map_nil, intercalate_nil]
      show parseVal (f + 1) ('{' :: '}' :: rest) = some (Json.obj [], rest)
      unfold parseVal
      rw [skipWs_cons_of_not_ws '{' _ (by decide)]
      simp only [if_neg (by decide : ¬('{' : Char) = 'n'),
        if_neg (by decide : ¬('{' : Char) = 't'),
        if_neg (by decide : ¬('{' : Char) = 'f'),
        if_neg (by decide : ¬('{' : Char) = '"'),
        if_neg (by decide : ¬('{' : Char) = '['), if_pos rfl]
      rw [skipWs_cons_of_not_ws '}' _ (by decide)]
      simp
    · have hwfk : wfStr k = true := by
        simp only [List.all_cons, Bool.and_eq_true] at hwf
        exact hwf.1.1
      have hshape :
          ('{' :: List.intercalate [',']
            (((k, w) :: kvs).map (fun kv => jsonDumpStr kv.1 ++ [':'] ++ jsonDump kv.2)) ++
            ['}']) ++ rest =
          '{' :: (List.intercalate [',']
            (((k, w) :: kvs).map (fun kv => jsonDumpStr kv.1 ++ [':'] ++ jsonDump kv.2)) ++
            '}' :: rest) := by
        simp [List.append_assoc]
      rw [hshape]
      obtain ⟨tt, hcons⟩ :
          ∃ tt, List.intercalate [',']
              (((k, w) :: kvs).map (fun kv => jsonDumpStr kv.1 ++ [':'] ++ jsonDump kv.2)) ++
              '}' :: rest = '"' :: tt := by
        rcases kvs with _ | ⟨kv2, kvs2⟩
        · rw [List.map_cons, List.map_nil, intercalate_singleton]
          refine ⟨(k ++ ['"'] ++ [':'] ++ jsonDump w) ++ '}' :: rest, ?_⟩
          rw [jsonDumpStr_plain k hwfk]
          simp [List.append_assoc]
        · rw [List.map_cons, List.map_cons, intercalate_cons₂]
          refine ⟨((k ++ ['"'] ++ [':'] ++ jsonDump w) ++ [','] ++
            List.intercalate [',']
              ((jsonDumpStr kv2.1 ++ [':'] ++ jsonDump kv2.2) ::
                kvs2.map (fun kv => jsonDumpStr kv.1 ++ [':'] ++ jsonDump kv.2))) ++
            '}' :: rest, ?_⟩
          rw [jsonDumpStr_plain k hwfk]
          simp [List.append_assoc]
      unfold parseVal
      rw [skipWs_cons_of_not_ws '{' _ (by decide)]
      simp only [if_neg (by decide : ¬('{' : Char) = 'n'),
        if_neg (by decide : ¬('{' : Char) = 't'),
        if_neg (by decide : ¬('{' : Char) = 'f'),
        if_neg (by decide : ¬('{' : Char) = '"'),
        if_neg (by decide : ¬('{' : Char) = '['), if_pos rfl]
      rw [hcons, skipWs_cons_of_not_ws '"' _ (by decide)]
      dsimp only
      rw [if_neg (by decide : ¬('"' : Char) = '}'), ← hcons]
      rw [parseMembers_dump ((k, w) :: kvs) f rest (List.cons_ne_nil _ _) hwf
        (by rw [jsonFuel] at hfuel; omega)]
      simp
termination_by fuel
decreasing_by all_goals (simp_wf; omega)

theorem parseItems_dump (items : List Json) (fuel : Nat) (rest : Str)
    (hne : items ≠ []) (hwf : items.all wfJson = true)
    (hfuel : itemsFuel items ≤ fuel) :
    parseItems fuel
      (List.intercalate [','] (items.map jsonDump) ++ ']' :: rest) =
      some (items, rest) := by
  obtain ⟨f, rfl⟩ : ∃ f, fuel = f + 1 :=
    ⟨fuel - 1, by have := itemsFuel_pos items; omega⟩
  rcases items with _ | ⟨x, xs⟩
  · exact absurd rfl hne
  simp only [List.all_cons, Bool.and_eq_true] at hwf
  rcases xs with _ | ⟨y, ys⟩
  · rw [List.map_cons, List.map_nil, intercalate_singleton]
    unfold parseItems
    rw [parseVal_dump x f (']' :: rest) hwf.1
      (by rw [itemsFuel] at hfuel
          have hmx : Nat.max (jsonFuel x) (itemsFuel ([] : List Json)) ≤ f := by omega
          exact le_trans (Nat.le_max_left _ _) hmx)
      (headNotDigit_cons ']' rest (by decide))]
    dsimp only
    rw [skipWs_cons_of_not_ws ']' _ (by decide)]
    simp
  · rw [List.map_cons, List.map_cons, intercalate_cons₂]
    have h1 : (jsonDump x ++ [','] ++
        List.intercalate [','] (jsonDump y :: ys.map jsonDump)) ++ ']' :: rest =
        jsonDump x ++ ',' ::
          (List.intercalate [','] (jsonDump y :: ys.map jsonDump) ++ ']' :: rest) := by
      simp [List.append_assoc]
    rw [h1]
    unfold parseItems
    rw [parseVal_dump x f
      (',' :: (List.intercalate [','] (jsonDump y :: List.map jsonDump ys) ++ ']' :: rest))
      hwf.1
      (by rw [itemsFuel] at hfuel
          have hmx : Nat.max (jsonFuel x) (itemsFuel (y :: ys)) ≤ f := by omega
          exact le_trans (Nat.le_max_left _ _) hmx)
      (headNotDigit_cons ','
        (List.intercalate [','] (jsonDump y :: List.map jsonDump ys) ++ ']' :: rest)
        (by decide))]
    dsimp only
    rw [skipWs_cons_of_not_ws ',' _ (by decide)]
    dsimp only
    rw [if_pos rfl]
    have hrec := parseItems_dump (y :: ys) f rest (List.cons_ne_nil _ _)
      hwf.2
      (by rw [itemsFuel] at hfuel
          have hmx : Nat.max (jsonFuel x) (itemsFuel (y :: ys)) ≤ f := by omega
          exact le_trans (Nat.le_max_right _ _) hmx)
    rw [List.map_cons] at hrec
    rw [hrec]
termination_by fuel
decreasing_by all_goals (simp_wf; omega)

theorem parseMembers_dump (fields : List (Str × Json)) (fuel : Nat) (rest : Str)
    (hne : fields ≠ [])
    (hwf : fields.all (fun kv => wfStr kv.1 && wfJson kv.2) = true)
    (hfuel : membersFuel fields ≤ fuel) :
    parseMembers fuel
      (List.intercalate [','] (fields.map (fun kv =>
        jsonDumpStr kv.1 ++ [':'] ++ jsonDump kv.2)) ++ '}' :: rest) =
      some (fields, rest) := by
  obtain ⟨f, rfl⟩ : ∃ f, fuel = f + 1 :=
    ⟨fuel - 1, by have := membersFuel_pos fields; omega⟩
  rcases fields with _ | ⟨⟨k, w⟩, kvs⟩
  · exact absurd rfl hne
  simp only [List.all_cons, Bool.and_eq_true] at hwf
  have hwfk : wfStr k = true := hwf.1.1
  have hwfw : wfJson w = true := hwf.1.2
  rcases kvs with _ | ⟨⟨k2, w2⟩, kvs2⟩
  · rw [List.map_cons, List.map_nil, intercalate_singleton]
    have h1 : (jsonDumpStr k ++ [':'] ++ jsonDump w) ++ '}' :: rest =
        '"' :: (k ++ '"' :: (':' :: (jsonDump w ++ '}' :: rest))) := by
      rw [jsonDumpStr_plain k hwfk]
      simp [List.append_assoc]
    rw [h1]
    unfold parseMembers
    rw [skipWs_cons_of_not_ws '"' _ (by decide)]
    dsimp only
    rw [if_pos rfl, parseStrBody_plain k _ hwfk]
    dsimp only
    rw [skipWs_cons_of_not_ws ':' _ (by decide)]
    dsimp only
    rw [if_pos rfl]
    rw [parseVal_dump w f ('}' :: rest) hwfw
      (by rw [membersFuel] at hfuel
          have hmx : Nat.max (jsonFuel w) (membersFuel ([] : List (Str × Json))) ≤ f := by
            omega
          exact le_trans (Nat.le_max_left _ _) hmx)
      (headNotDigit_cons '}' rest (by decide))]
    dsimp only
    rw [skipWs_cons_of_not_ws '}' _ (by decide)]
    dsimp only
    rw [if_neg (by decide : ¬('}' : Char) = ','), if_pos rfl]
  · rw [List.map_cons, List.map_cons, intercalate_cons₂]
    have h1 : ((jsonDumpStr k ++ [':'] ++ jsonDump w) ++ [','] ++
        List.intercalate [','] ((jsonDumpStr k2 ++ [':'] ++ jsonDump w2) ::
          kvs2.map (fun kv => jsonDumpStr kv.1 ++ [':'] ++ jsonDump kv.2))) ++ '}' :: rest =
        '"' :: (k ++ '"' :: (':' :: (jsonDump w ++ ',' ::
          (List.intercalate [','] ((jsonDumpStr k2 ++ [':'] ++ jsonDump w2) ::
            kvs2.map (fun kv => jsonDumpStr kv.1 ++ [':'] ++ jsonDump kv.2)) ++
            '}' :: rest)))) := by
      rw [jsonDumpStr_plain k hwfk]
      simp [List.append_assoc]
    rw [h1]
    unfold parseMembers
    rw [skipWs_cons_of_not_ws '"' _ (by decide)]
    dsimp only
    rw [if_pos rfl, parseStrBody_plain k _ hwfk]
    dsimp only
    rw [skipWs_cons_of_not_ws ':' _ (by decide)]
    dsimp only
    rw [if_pos rfl]
    rw [parseVal_dump w f
      (',' :: (List.intercalate [','] ((jsonDumpStr k2 ++ [':'] ++ jsonDump w2) ::
        kvs2.map (fun kv => jsonDumpStr kv.1 ++ [':'] ++ jsonDump kv.2)) ++ '}' :: rest))
      hwfw
      (by rw [membersFuel] at hfuel
          have hmx : Nat.max (jsonFuel w) (membersFuel ((k2, w2) :: kvs2)) ≤ f := by omega
          exact le_trans (Nat.le_max_left _ _) hmx)
      (headNotDigit_cons ','
        (List.intercalate [','] ((jsonDumpStr k2 ++ [':'] ++ jsonDump w2) ::
          kvs2.map (fun kv => jsonDumpStr kv.1 ++ [':'] ++ jsonDump kv.2)) ++ '}' :: rest)
        (by decide))]
    dsimp only
    rw [skipWs_cons_of_not_ws ',' _ (by decide)]
    dsimp only
    rw [if_pos rfl]
    have hrec := parseMembers_dump ((k2, w2) :: kvs2) f rest (List.cons_ne_nil _ _)
      hwf.2
      (by rw [membersFuel] at hfuel
          have hmx : Nat.max (jsonFuel w) (membersFuel ((k2, w2) :: kvs2)) ≤ f := by omega
          exact le_trans (Nat.le_max_right _ _) hmx)
    rw [List.map_cons] at hrec
    rw [hrec]
termination_by fuel
decreasing_by all_goals (simp_wf; omega)
end

/-- Combined fuel bound: the fuel demanded by the reader is covered by the
length of the dumped text (proved for all three syntactic layers at once by
induction on a size bound). -/
theorem jsonFuel_le_dump_all (n : Nat) :
    (∀ v : Json, sizeOf v ≤ n → jsonFuel v ≤ (jsonDump v).length) ∧
    (∀ l : List Json, sizeOf l ≤ n →
      itemsFuel l ≤ (List.intercalate [','] (l.map jsonDump)).length + 1) ∧
    (∀ l : List (Str × Json), sizeOf l ≤ n →
      membersFuel l ≤ (List.intercalate [','] (l.map (fun kv =>
        jsonDumpStr kv.1 ++ [':'] ++ jsonDump kv.2))).length + 1) := by
  induction n with
  | zero =>
      refine ⟨fun v hv => ?_, fun l hl => ?_, fun l hl => ?_⟩
      · exact absurd hv (by rcases v with _ | _ | _ | _ | _ | _ <;> simp)
      · exact absurd hl (by rcases l with _ | _ <;> simp)
      · exact absurd hl (by rcases l with _ | _ <;> simp)
  | succ n ih =>
      obtain ⟨ihv, ihl, ihm⟩ := ih
      refine ⟨fun v hv => ?_, fun l hl => ?_, fun l hl => ?_⟩
      · rcases v with _ | b | m | s | items | fields
        · rw [jsonFuel]
          obtain ⟨c, cs, hd, -, -, -, -⟩ := jsonDump_head Json.null
          rw [hd]; simp
        · rw [jsonFuel]
          obtain ⟨c, cs, hd, -, -, -, -⟩ := jsonDump_head (Json.bool b)
          rw [hd]; simp
        · rw [jsonFuel]
          obtain ⟨c, cs, hd, -, -, -, -⟩ := jsonDump_head (Json.num m)
          rw [hd]; simp
        · rw [jsonFuel]
          obtain ⟨c, cs, hd, -, -, -, -⟩ := jsonDump_head (Json.str s)
          rw [hd]; simp
        · rw [jsonFuel, jsonDump_arr]
          have hs : sizeOf items ≤ n := by simp at hv; omega
          have h2 := ihl items hs
          simp only [List.length_cons, List.length_append, List.length_singleton]
          omega
        · rw [jsonFuel, jsonDump_obj]
          have hs : sizeOf fields ≤ n := by simp at hv; omega
          have h2 := ihm fields hs
          simp only [List.length_cons, List.length_append, List.length_singleton]
          omega
      · rcases l with _ | ⟨x, xs⟩
        · rw [itemsFuel, List.map_nil, intercalate_nil]; simp
        · rw [itemsFuel]
          have hx : sizeOf x ≤ n := by simp at hl; omega
          have hxs : sizeOf xs ≤ n := by simp at hl; omega
          have h1 := ihv x hx
          have h1p : 1 ≤ (jsonDump x).length := by
            obtain ⟨c, cs, hd, -, -, -, -⟩ := jsonDump_head x
            rw [hd]; simp
          rcases xs with _ | ⟨y, ys⟩
          · rw [List.map_cons, List.map_nil, intercalate_singleton]
            have hmx : Nat.max (jsonFuel x) (itemsFuel []) ≤ (jsonDump x).length :=
              Nat.max_le.mpr ⟨h1, by rw [itemsFuel]; omega⟩
            omega
          · rw [List.map_cons, List.map_cons, intercalate_cons₂]
            have h2 := ihl (y :: ys) hxs
            rw [List.map_cons] at h2
            have hmx : Nat.max (jsonFuel x) (itemsFuel (y :: ys)) ≤
                (jsonDump x).length +
                (List.intercalate [','] (jsonDump y :: List.map jsonDump ys)).length + 1 :=
              Nat.max_le.mpr ⟨by omega, by omega⟩
            simp only [List.length_append, List.length_singleton]
            omega
      · rcases l with _ | ⟨⟨k, w⟩, kvs⟩
        · rw [membersFuel, List.map_nil, intercalate_nil]; simp
        · rw [membersFuel]
          have hw : sizeOf w ≤ n := by simp at hl; omega
          have hkvs : sizeOf kvs ≤ n := by simp at hl; omega
          have h1 := ihv w hw
          rcases kvs with _ | ⟨kv2, kvs2⟩
          · rw [List.map_cons, List.map_nil, intercalate_singleton]
            have hmx : Nat.max (jsonFuel w) (membersFuel []) ≤
                (jsonDumpStr k ++ [':'] ++ jsonDump w).length := by
              refine Nat.max_le.mpr ⟨?_, ?_⟩ <;>
                simp only [List.length_append, List.length_singleton] <;>
                [omega; (rw [membersFuel]; omega)]
            simp only [List.length_append, List.length_singleton] at hmx ⊢
            omega
          · rw [List.map_cons, List.map_cons, intercalate_cons₂]
            have h2 := ihm (kv2 :: kvs2) hkvs
            rw [List.map_cons] at h2
            have hmx : Nat.max (jsonFuel w) (membersFuel (kv2 :: kvs2)) ≤
                (jsonDumpStr k ++ [':'] ++ jsonDump w).length +
                (List.intercalate [','] ((jsonDumpStr kv2.1 ++ [':'] ++ jsonDump kv2.2) ::
                  kvs2.map (fun kv => jsonDumpStr kv.1 ++ [':'] ++ jsonDump kv.2))).length +
                1 := by
              refine Nat.max_le.mpr ⟨?_, ?_⟩ <;>
                simp only [List.length_append, List.length_singleton] at h1 h2 ⊢ <;> omega
            simp only [List.length_append, List.length_singleton] at hmx ⊢
            omega

/-- `json.loads` inverts `json.dumps` on well-formed (escape-free) values. -/
theorem jsonLoads_dump (v : Json) (hwf : wfJson v = true) :
    jsonLoads (jsonDump v) = some v := by
  unfold jsonLoads
  have hf : jsonFuel v ≤ (jsonDump v).length + 1 :=
    le_trans ((jsonFuel_le_dump_all (sizeOf v)).1 v le_rfl) (by omega)
  have h := parseVal_dump v ((jsonDump v).length + 1) [] hwf hf trivial
  rw [List.append_nil] at h
  rw [h]
  rfl

/-- Validation inverts the dump for `ServerToolUsage`. -/
theorem validateSTU_dump (s : ServerToolUsage) : validateSTU (dumpSTU s) = some s := by
  obtain ⟨w⟩ := s
  rcases w with _ | w <;> rfl

/-- Validation inverts the dump for `Usage` when the cache counters are
present (canonical form). -/
theorem validateUsage_dump (u : Usage) (h : wfUsage u = true) :
    validateUsage (dumpUsage u) = some u := by
  obtain ⟨it, ot, cc, cr, stu⟩ := u
  rw [wfUsage, Bool.and_eq_true] at h
  rcases cc with _ | c1
  · exact absurd h.1 (by simp [Option.isSome])
  rcases cr with _ | c2
  · exact absurd h.2 (by simp [Option.isSome])
  rcases stu with _ | ⟨w⟩
  · rfl
  · rcases w with _ | w <;> rfl

/-- Validation inverts the dump for image sources. -/
theorem validateImageSource_dump (s : ImageSource) :
    validateImageSource (dumpImageSource s) = some s := by
  rcases s with ⟨mt, data⟩ | u | fu
  · rcases mt <;> rfl
  · rfl
  · rfl

/-- Validation inverts the dump for `WebSearchResult`. -/
theorem validateWSR_dump (w : WebSearchResult) :
    validateWSR (dumpWSR w) = some w := by
  obtain ⟨t, u, ec, pa⟩ := w
  rcases pa with _ | pa <;> rfl

/-- Validation inverts the dump for the inner tool-result blocks. -/
theorem validateTRBlock_dump (b : ToolResultBlock) :
    validateTRBlock (dumpTRBlock b) = some b := by
  rcases b with t | src
  · rfl
  · rcases src with ⟨mt, data⟩ | u | fu
    · rcases mt <;> rfl
    · rfl
    · rfl

/-- Elementwise validation of a dumped inner tool-result list. -/
theorem mapM_validateTRBlock (bs : List ToolResultBlock) :
    (bs.map dumpTRBlock).mapM validateTRBlock = some bs := by
  induction bs with
  | nil => rfl
  | cons b bs ih =>
      rw [List.map_cons, List.mapM_cons, validateTRBlock_dump, ih]
      rfl

/-- Elementwise validation of a dumped `WebSearchResult` list. -/
theorem mapM_validateWSR (ws : List WebSearchResult) :
    (ws.map dumpWSR).mapM validateWSR = some ws := by
  induction ws with
  | nil => rfl
  | cons w ws ih =>
      rw [List.map_cons, List.mapM_cons, validateWSR_dump, ih]
      rfl

/-- Validation inverts the dump for `Delta`. -/
theorem validateDelta_dump (d : Delta) : validateDelta (dumpDelta d) = some d := by
  rcases d <;> rfl

/-- Validation inverts the dump for `MessageDeltaData` when the
`stop_reason` is one of the four admitted literals. -/
theorem validateMDD_dump (d : MessageDeltaData) (h : wfMDD d = true) :
    validateMDD (dumpMDD d) = some d := by
  obtain ⟨sr, ss⟩ := d
  rw [wfMDD, Bool.and_eq_true] at h
  have h1 := h.1
  rcases sr with _ | r
  · rcases ss with _ | ss <;> rfl
  · rcases r <;> rcases ss with _ | ss <;> first | rfl | simp at h1

/-- Validation inverts the dump for `ErrorInfo` on the inline object the
event dump emits. -/
theorem validateErrorInfo_dump (e : ErrorInfo) :
    validateErrorInfo
      (Json.obj [("type".toList, Json.str e.type),
                 ("message".toList, Json.str e.message)]) = some e := by
  obtain ⟨t, m⟩ := e
  rfl

/-- Validation inverts the dump for `ContentBlock` when the block is in
canonical form (`is_error` present on tool results). -/
theorem validateContentBlock_dump (cb : ContentBlock) (h : wfContentBlock cb = true) :
    validateContentBlock (dumpContentBlock cb) = some cb := by
  rcases cb with t | src | th | ⟨id, name, input⟩ | ⟨tuid, content, ie⟩ |
    ⟨id, name, input⟩ | ⟨tuid, ws⟩
  · rfl
  · rcases src with ⟨mt, data⟩ | u | fu
    · rcases mt <;> rfl
    · rfl
    · rfl
  · rfl
  · rfl
  · rw [wfContentBlock.eq_def] at h
    dsimp only at h
    simp only [Bool.and_eq_true] at h
    rcases ie with _ | b
    · exact absurd h.1.2 (by simp [Option.isSome])
    rcases content with t | bs
    · rfl
    · show Option.bind
          (Option.map ToolResultContentV.blocks ((bs.map dumpTRBlock).mapM validateTRBlock))
          (fun c => some (ContentBlock.tool_result tuid c (some b))) =
        some (ContentBlock.tool_result tuid (ToolResultContentV.blocks bs) (some b))
      rw [mapM_validateTRBlock]
      rfl
  · rfl
  · show Option.bind ((ws.map dumpWSR).mapM validateWSR)
        (fun w => some (ContentBlock.web_search_tool_result tuid w)) =
      some (ContentBlock.web_search_tool_result tuid ws)
    rw [mapM_validateWSR]
    rfl

/-- Elementwise validation of a dumped content list. -/
theorem mapM_validateContentBlock (l : List ContentBlock)
    (h : l.all wfContentBlock = true) :
    (l.map dumpContentBlock).mapM validateContentBlock = some l := by
  induction l with
  | nil => rfl
  | cons x xs ih =>
      simp only [List.all_cons, Bool.and_eq_true] at h
      rw [List.map_cons, List.mapM_cons, validateContentBlock_dump x h.1, ih h.2]
      rfl

/-- Validation inverts the dump for `Message` in canonical form. -/
theorem validateMessage_dump (m : Message) (h : wfMessage m = true) :
    validateMessage (dumpMessage m) = some m := by
  obtain ⟨id, content, model, sr, ss, usage⟩ := m
  rw [wfMessage] at h
  simp only [Bool.and_eq_true] at h
  have hc := mapM_validateContentBlock content h.1.1.1.2
  rcases usage with _ | u
  · rcases sr with _ | r
    · rcases ss with _ | s
      · show Option.bind ((content.map dumpContentBlock).mapM validateContentBlock)
                    (fun c =>
                      some (Message.mk id c model (none) (none) none)) =
                  some (Message.mk id content model (none) (none) none)
        rw [hc]; rfl
      · show Option.bind ((content.map dumpContentBlock).mapM validateContentBlock)
                    (fun c =>
                      some (Message.mk id c model (none) (some s) none)) =
                  some (Message.mk id content model (none) (some s) none)
        rw [hc]; rfl
    · rcases r
      case end_turn =>
        rcases ss with _ | s
        · show Option.bind ((content.map dumpContentBlock).mapM validateContentBlock)
                        (fun c =>
                          some (Message.mk id c model (some StopReason.end_turn) (none) none)) =
                      some (Message.mk id content model (some StopReason.end_turn) (none) none)
          rw [hc]; rfl
        · show Option.bind ((content.map dumpContentBlock).mapM validateContentBlock)
                        (fun c =>
                          some (Message.mk id c model (some StopReason.end_turn) (some s) none)) =
                      some (Message.mk id content model (some StopReason.end_turn) (some s) none)
          rw [hc]; rfl
      case max_tokens =>
        rcases ss with _ | s
        · show Option.bind ((content.map dumpContentBlock).mapM validateContentBlock)
                        (fun c =>
                          some (Message.mk id c model (some StopReason.max_tokens) (none) none)) =
                      some (Message.mk id content model (some StopReason.max_tokens) (none) none)
          rw [hc]; rfl
        · show Option.bind ((content.map dumpContentBlock).mapM validateContentBlock)
                        (fun c =>
                          some (Message.mk id c model (some StopReason.max_tokens) (some s) none)) =
                      some (Message.mk id content model (some StopReason.max_tokens) (some s) none)
          rw [hc]; rfl
      case stop_sequence =>
        rcases ss with _ | s
        · show Option.bind ((content.map dumpContentBlock).mapM validateContentBlock)
                        (fun c =>
                          some (Message.mk id c model (some StopReason.stop_sequence) (none) none)) =
                      some (Message.mk id content model (some StopReason.stop_sequence) (none) none)
          rw [hc]; rfl
        · show Option.bind ((content.map dumpContentBlock).mapM validateContentBlock)
                        (fun c =>
                          some (Message.mk id c model (some StopReason.stop_sequence) (some s) none)) =
                      some (Message.mk id content model (some StopReason.stop_sequence) (some s) none)
          rw [hc]; rfl
      case tool_use =>
        rcases ss with _ | s
        · show Option.bind ((content.map dumpContentBlock).mapM validateContentBlock)
                        (fun c =>
                          some (Message.mk id c model (some StopReason.tool_use) (none) none)) =
                      some (Message.mk id content model (some StopReason.tool_use) (none) none)
          rw [hc]; rfl
        · show Option.bind ((content.map dumpContentBlock).mapM validateContentBlock)
                        (fun c =>
                          some (Message.mk id c model (some StopReason.tool_use) (some s) none)) =
                      some (Message.mk id content model (some StopReason.tool_use) (some s) none)
          rw [hc]; rfl
      case pause_turn =>
        rcases ss with _ | s
        · show Option.bind ((content.map dumpContentBlock).mapM validateContentBlock)
                        (fun c =>
                          some (Message.mk id c model (some StopReason.pause_turn) (none) none)) =
                      some (Message.mk id content model (some StopReason.pause_turn) (none) none)
          rw [hc]; rfl
        · show Option.bind ((content.map dumpContentBlock).mapM validateContentBlock)
                        (fun c =>
                          some (Message.mk id c model (some StopReason.pause_turn) (some s) none)) =
                      some (Message.mk id content model (some StopReason.pause_turn) (some s) none)
          rw [hc]; rfl
      case refusal =>
        rcases ss with _ | s
        · show Option.bind ((content.map dumpContentBlock).mapM validateContentBlock)
                        (fun c =>
                          some (Message.mk id c model (some StopReason.refusal) (none) none)) =
                      some (Message.mk id content model (some StopReason.refusal) (none) none)
          rw [hc]; rfl
        · show Option.bind ((content.map dumpContentBlock).mapM validateContentBlock)
                        (fun c =>
                          some (Message.mk id c model (some StopReason.refusal) (some s) none)) =
                      some (Message.mk id content model (some StopReason.refusal) (some s) none)
          rw [hc]; rfl
  · have huw : wfUsage u = true := h.2
    rcases sr with _ | r
    · rcases ss with _ | s
      · show Option.bind ((content.map dumpContentBlock).mapM validateContentBlock)
                    (fun c =>
                      Option.bind (Option.map some (validateUsage (dumpUsage u)))
              (fun us => some (Message.mk id c model (none) (none) us))) =
                  some (Message.mk id content model (none) (none) (some u))
        rw [hc, validateUsage_dump u huw]; rfl
      · show Option.bind ((content.map dumpContentBlock).mapM validateContentBlock)
                    (fun c =>
                      Option.bind (Option.map some (validateUsage (dumpUsage u)))
              (fun us => some (Message.mk id c model (none) (some s) us))) =
                  some (Message.mk id content model (none) (some s) (some u))
        rw [hc, validateUsage_dump u huw]; rfl
    · rcases r
      case end_turn =>
        rcases ss with _ | s
        · show Option.bind ((content.map dumpContentBlock).mapM validateContentBlock)
                        (fun c =>
                          Option.bind (Option.map some (validateUsage (dumpUsage u)))
                (fun us => some (Message.mk id c model (some StopReason.end_turn) (none) us))) =
                      some (Message.mk id content model (some StopReason.end_turn) (none) (some u))
          rw [hc, validateUsage_dump u huw]; rfl
        · show Option.bind ((content.map dumpContentBlock).mapM validateContentBlock)
                        (fun c =>
                          Option.bind (Option.map some (validateUsage (dumpUsage u)))
                (fun us => some (Message.mk id c model (some StopReason.end_turn) (some s) us))) =
                      some (Message.mk id content model (some StopReason.end_turn) (some s) (some u))
          rw [hc, validateUsage_dump u huw]; rfl
      case max_tokens =>
        rcases ss with _ | s
        · show Option.bind ((content.map dumpContentBlock).mapM validateContentBlock)
                        (fun c =>
                          Option.bind (Option.map some (validateUsage (dumpUsage u)))
                (fun us => some (Message.mk id c model (some StopReason.max_tokens) (none) us))) =
                      some (Message.mk id content model (some StopReason.max_tokens) (none) (some u))
          rw [hc, validateUsage_dump u huw]; rfl
        · show Option.bind ((content.map dumpContentBlock).mapM validateContentBlock)
                        (fun c =>
                          Option.bind (Option.map some (validateUsage (dumpUsage u)))
                (fun us => some (Message.mk id c model (some StopReason.max_tokens) (some s) us))) =
                      some (Message.mk id content model (some StopReason.max_tokens) (some s) (some u))
          rw [hc, validateUsage_dump u huw]; rfl
      case stop_sequence =>
        rcases ss with _ | s
        · show Option.bind ((content.map dumpContentBlock).mapM validateContentBlock)
                        (fun c =>
                          Option.bind (Option.map some (validateUsage (dumpUsage u)))
                (fun us => some (Message.mk id c model (some StopReason.stop_sequence) (none) us))) =
                      some (Message.mk id content model (some StopReason.stop_sequence) (none) (some u))
          rw [hc, validateUsage_dump u huw]; rfl
        · show Option.bind ((content.map dumpContentBlock).mapM validateContentBlock)
                        (fun c =>
                          Option.bind (Option.map some (validateUsage (dumpUsage u)))
                (fun us => some (Message.mk id c model (some StopReason.stop_sequence) (some s) us))) =
                      some (Message.mk id content model (some StopReason.stop_sequence) (some s) (some u))
          rw [hc, validateUsage_dump u huw]; rfl
      case tool_use =>
        rcases ss with _ | s
        · show Option.bind ((content.map dumpContentBlock).mapM validateContentBlock)
                        (fun c =>
                          Option.bind (Option.map some (validateUsage (dumpUsage u)))
                (fun us => some (Message.mk id c model (some StopReason.tool_use) (none) us))) =
                      some (Message.mk id content model (some StopReason.tool_use) (none) (some u))
          rw [hc, validateUsage_dump u huw]; rfl
        · show Option.bind ((content.map dumpContentBlock).mapM validateContentBlock)
                        (fun c =>
                          Option.bind (Option.map some (validateUsage (dumpUsage u)))
                (fun us => some (Message.mk id c model (some StopReason.tool_use) (some s) us))) =
                      some (Message.mk id content model (some StopReason.tool_use) (some s) (some u))
          rw [hc, validateUsage_dump u huw]; rfl
      case pause_turn =>
        rcases ss with _ | s
        · show Option.bind ((content.map dumpContentBlock).mapM validateContentBlock)
                        (fun c =>
                          Option.bind (Option.map some (validateUsage (dumpUsage u)))
                (fun us => some (Message.mk id c model (some StopReason.pause_turn) (none) us))) =
                      some (Message.mk id content model (some StopReason.pause_turn) (none) (some u))
          rw [hc, validateUsage_dump u huw]; rfl
        · show Option.bind ((content.map dumpContentBlock).mapM validateContentBlock)
                        (fun c =>
                          Option.bind (Option.map some (validateUsage (dumpUsage u)))
                (fun us => some (Message.mk id c model (some StopReason.pause_turn) (some s) us))) =
                      some (Message.mk id content model (some StopReason.pause_turn) (some s) (some u))
          rw [hc, validateUsage_dump u huw]; rfl
      case refusal =>
        rcases ss with _ | s
        · show Option.bind ((content.map dumpContentBlock).mapM validateContentBlock)
                        (fun c =>
                          Option.bind (Option.map some (validateUsage (dumpUsage u)))
                (fun us => some (Message.mk id c model (some StopReason.refusal) (none) us))) =
                      some (Message.mk id content model (some StopReason.refusal) (none) (some u))
          rw [hc, validateUsage_dump u huw]; rfl
        · show Option.bind ((content.map dumpContentBlock).mapM validateContentBlock)
                        (fun c =>
                          Option.bind (Option.map some (validateUsage (dumpUsage u)))
                (fun us => some (Message.mk id c model (some StopReason.refusal) (some s) us))) =
                      some (Message.mk id content model (some StopReason.refusal) (some s) (some u))
          rw [hc, validateUsage_dump u huw]; rfl

/-- Validation inverts the dump for every supported event in canonical
form (`StreamingEvent(root=json.loads(dump))` recovers the event). -/
theorem validateEvent_dump (e : StreamingEvent) (h : wfEvent e = true) :
    validateEvent (dumpEvent e) = some e := by
  rcases e with m | ⟨i, cb⟩ | ⟨i, d⟩ | i | ⟨d, u⟩ | _ | _ | er | ⟨ty, dat⟩
  · show Option.bind (validateMessage (dumpMessage m))
        (fun m2 => some (StreamingEvent.message_start m2)) =
      some (StreamingEvent.message_start m)
    rw [validateMessage_dump m h]
    rfl
  · show Option.bind (validateContentBlock (dumpContentBlock cb))
        (fun c => some (StreamingEvent.content_block_start i c)) =
      some (StreamingEvent.content_block_start i cb)
    rw [validateContentBlock_dump cb h]
    rfl
  · rcases d <;> rfl
  · rfl
  · rw [wfEvent.eq_def] at h
    dsimp only at h
    simp only [Bool.and_eq_true] at h
    rcases u with _ | u2
    · show Option.bind (validateMDD (dumpMDD d))
          (fun d2 => some (StreamingEvent.message_delta d2 none)) =
        some (StreamingEvent.message_delta d none)
      rw [validateMDD_dump d h.1]
      rfl
    · have huw : wfUsage u2 = true := h.2
      show Option.bind (validateMDD (dumpMDD d))
          (fun d2 =>
            Option.bind (Option.map some (validateUsage (dumpUsage u2)))
              (fun us => some (StreamingEvent.message_delta d2 us))) =
        some (StreamingEvent.message_delta d (some u2))
      rw [validateMDD_dump d h.1, validateUsage_dump u2 huw]
      rfl
  · rfl
  · rfl
  · obtain ⟨t, msg⟩ := er
    rfl
  · rw [wfEvent.eq_def] at h
    dsimp only at h
    cases h

/-- Plain (escape-free) characters are not newlines. -/
theorem plain_not_nl (c : Char) (h : plainChar c = true) :
    (!decide (c = '\n')) = true := by
  unfold plainChar at h
  simp only [Bool.not_eq_true', Bool.or_eq_false_iff, decide_eq_false_iff_not] at h
  obtain ⟨⟨h1, h2⟩, h3⟩ := h
  simp only [Bool.not_eq_true', decide_eq_false_iff_not]
  intro hc
  subst hc
  exact absurd (by decide : ('\n').toNat < 32) h3

/-- Digit strings contain no newline. -/
theorem digits_not_nl (s : Str) (h : s.all Char.isDigit = true) :
    s.all (fun c => !(c = '\n')) = true := by
  simp only [List.all_eq_true] at h ⊢
  intro c hc
  simp only [Bool.not_eq_true', decide_eq_false_iff_not]
  exact digit_ne_of_not_digit c '\n' (h c hc) (by decide)

/-- Escape-free strings contain no newline. -/
theorem wfStr_not_nl (s : Str) (h : wfStr s = true) :
    s.all (fun c => !(c = '\n')) = true := by
  unfold wfStr at h
  simp only [List.all_eq_true] at h ⊢
  intro c hc
  exact plain_not_nl c (h c hc)

/-- The dump of a well-formed JSON value contains no newline (combined
induction over the three syntactic layers). -/
theorem jsonDump_no_nl_all (n : Nat) :
    (∀ v : Json, sizeOf v ≤ n → wfJson v = true →
      (jsonDump v).all (fun c => !(c = '\n')) = true) ∧
    (∀ l : List Json, sizeOf l ≤ n → l.all wfJson = true →
      (List.intercalate [','] (l.map jsonDump)).all (fun c => !(c = '\n')) = true) ∧
    (∀ l : List (Str × Json), sizeOf l ≤ n →
      l.all (fun kv => wfStr kv.1 && wfJson kv.2) = true →
      (List.intercalate [','] (l.map (fun kv =>
        jsonDumpStr kv.1 ++ [':'] ++ jsonDump kv.2))).all (fun c => !(c = '\n')) = true) := by
  induction n with
  | zero =>
      refine ⟨fun v hv => ?_, fun l hl => ?_, fun l hl => ?_⟩
      · exact absurd hv (by rcases v with _ | _ | _ | _ | _ | _ <;> simp)
      · exact absurd hl (by rcases l with _ | _ <;> simp)
      · exact absurd hl (by rcases l with _ | _ <;> simp)
  | succ n ih =>
      obtain ⟨ihv, ihl, ihm⟩ := ih
      refine ⟨fun v hv hwf => ?_, fun l hl hwf => ?_, fun l hl hwf => ?_⟩
      · rcases v with _ | b | m | s | items | fields
        · rw [jsonDump]; decide
        · rcases b with _ | _ <;> rw [jsonDump] <;> decide
        · rw [jsonDump]
          unfold intToChars
          by_cases hm : m < 0
          · simp only [hm, if_true, List.all_cons]
            rw [digits_not_nl _ (natToChars_all_digits (-m).toNat)]
            decide
          · simp only [hm, if_false]
            exact digits_not_nl _ (natToChars_all_digits m.toNat)
        · rw [jsonDump]
          rw [wfJson] at hwf
          rw [jsonDumpStr_plain s hwf]
          simp only [List.all_cons, List.all_append, wfStr_not_nl s hwf]
          decide
        · rw [jsonDump_arr]
          rw [wfJson_arr] at hwf
          have hs : sizeOf items ≤ n := by simp at hv; omega
          have h2 := ihl items hs hwf
          simp only [List.all_cons, List.all_append, List.all_nil, Bool.and_eq_true, h2]
          decide
        · rw [jsonDump_obj]
          rw [wfJson_obj] at hwf
          have hs : sizeOf fields ≤ n := by simp at hv; omega
          have h2 := ihm fields hs hwf
          simp only [List.all_cons, List.all_append, List.all_nil, Bool.and_eq_true, h2]
          decide
      · rcases l with _ | ⟨x, xs⟩
        · rw [List.map_nil, intercalate_nil]; rfl
        · simp only [List.all_cons, Bool.and_eq_true] at hwf
          have hx : sizeOf x ≤ n := by simp at hl; omega
          have hxs : sizeOf xs ≤ n := by simp at hl; omega
          have h1 := ihv x hx hwf.1
          rcases xs with _ | ⟨y, ys⟩
          · rw [List.map_cons, List.map_nil, intercalate_singleton]
            exact h1
          · rw [List.map_cons, List.map_cons, intercalate_cons₂]
            have h2 := ihl (y :: ys) hxs hwf.2
            rw [List.map_cons] at h2
            simp only [List.all_cons, List.all_append, List.all_nil, Bool.and_eq_true,
              h1, h2]
            decide
      · rcases l with _ | ⟨⟨k, w⟩, kvs⟩
        · rw [List.map_nil, intercalate_nil]; rfl
        · simp only [List.all_cons, Bool.and_eq_true] at hwf
          have hw : sizeOf w ≤ n := by simp at hl; omega
          have hkvs : sizeOf kvs ≤ n := by simp at hl; omega
          have h1 := ihv w hw hwf.1.2
          have hk : (jsonDumpStr k).all (fun c => !(c = '\n')) = true := by
            rw [jsonDumpStr_plain k hwf.1.1]
            simp only [List.all_cons, List.all_append, wfStr_not_nl k hwf.1.1]
            decide
          rcases kvs with _ | ⟨kv2, kvs2⟩
          · rw [List.map_cons, List.map_nil, intercalate_singleton]
            simp only [List.all_cons, List.all_append, List.all_nil, Bool.and_eq_true,
              hk, h1]
            decide
          · rw [List.map_cons, List.map_cons, intercalate_cons₂]
            have h2 := ihm (kv2 :: kvs2) hkvs hwf.2
            rw [List.map_cons] at h2
            simp only [List.all_cons, List.all_append, List.all_nil, Bool.and_eq_true,
              hk, h1, h2]
            decide

/-- Stop-reason literals are escape-free. -/
theorem wfStr_toStr (r : StopReason) : wfStr r.toStr = true := by
  rcases r <;> decide

/-- MIME literals are escape-free. -/
theorem wfStr_mime (mt : ImageType) : wfStr mt.toStr = true := by
  rcases mt <;> decide

theorem wfJson_num (n : Int) : wfJson (Json.num n) = true := by rw [wfJson]

theorem wfJson_str (s : Str) : wfJson (Json.str s) = wfStr s := by rw [wfJson]

theorem wfJson_null : wfJson Json.null = true := by rw [wfJson]

theorem wfJson_boolc (b : Bool) : wfJson (Json.bool b) = true := by rw [wfJson]

/-- The dump of a `ServerToolUsage` is well-formed JSON. -/
theorem wfJson_dumpSTU (s : ServerToolUsage) : wfJson (dumpSTU s) = true := by
  obtain ⟨w⟩ := s
  rw [dumpSTU, wfJson_obj]
  rcases w with _ | w <;>
    simp [optField, wfJson_num] <;> decide

/-- The dump of a `Usage` is well-formed JSON. -/
theorem wfJson_dumpUsage (u : Usage) : wfJson (dumpUsage u) = true := by
  obtain ⟨it, ot, cc, cr, stu⟩ := u
  rw [dumpUsage, wfJson_obj]
  rcases cc with _ | c1 <;> rcases cr with _ | c2 <;> rcases stu with _ | s <;>
    simp [optField, wfJson_num, wfJson_dumpSTU] <;> decide

/-- The dump of a well-formed image source is well-formed JSON. -/
theorem wfJson_dumpImageSource (s : ImageSource) (h : wfImageSource s = true) :
    wfJson (dumpImageSource s) = true := by
  rcases s with ⟨mt, data⟩ | u | fu <;>
    rw [wfImageSource] at h <;>
    rw [dumpImageSource, wfJson_obj] <;>
    simp [wfJson_str, wfStr_mime, h] <;> decide

/-- The dump of a well-formed `WebSearchResult` is well-formed JSON. -/
theorem wfJson_dumpWSR (w : WebSearchResult) (h : wfWSR w = true) :
    wfJson (dumpWSR w) = true := by
  obtain ⟨t, u, ec, pa⟩ := w
  rw [wfWSR] at h
  simp only [Bool.and_eq_true] at h
  rw [dumpWSR, wfJson_obj]
  rcases pa with _ | pa
  · simp [optField, wfJson_str, h.1.1.1, h.1.1.2, h.1.2]
    decide
  · have hpa : wfStr pa = true := h.2
    simp [optField, wfJson_str, h.1.1.1, h.1.1.2, h.1.2, hpa]
    decide

/-- The dump of a well-formed inner tool-result block is well-formed JSON. -/
theorem wfJson_dumpTRBlock (b : ToolResultBlock) (h : wfTRBlock b = true) :
    wfJson (dumpTRBlock b) = true := by
  rcases b with t | s <;> rw [wfTRBlock] at h <;> rw [dumpTRBlock, wfJson_obj]
  · simp [wfJson_str, h] <;> decide
  · simp [wfJson_str, wfJson_dumpImageSource s h] <;> decide

/-- The dump of a well-formed content block is well-formed JSON. -/
theorem wfJson_dumpContentBlock (cb : ContentBlock) (h : wfContentBlock cb = true) :
    wfJson (dumpContentBlock cb) = true := by
  rcases cb with t | s | th | ⟨id, name, input⟩ | ⟨tuid, content, ie⟩ |
    ⟨id, name, input⟩ | ⟨tuid, ws⟩ <;>
    rw [wfContentBlock.eq_def] at h <;> dsimp only at h <;>
    (try simp only [Bool.and_eq_true] at h) <;>
    rw [dumpContentBlock, wfJson_obj]
  · simp [wfJson_str, h]
    decide
  · simp [wfJson_str, wfJson_dumpImageSource s h]
    decide
  · simp [wfJson_str, h]
    decide
  · simp [wfJson_str, h.1.1, h.1.2, h.2]
    decide
  · rcases ie with _ | b
    · exact absurd h.1.2 (by simp [Option.isSome])
    have hc : wfJson (dumpTRContent content) = true := by
      rcases content with t2 | bs
      · rw [dumpTRContent, wfJson_str]
        exact h.2
      · rw [dumpTRContent, wfJson_arr]
        rw [List.all_eq_true]
        intro x hx
        obtain ⟨b2, hb2, rfl⟩ := List.mem_map.mp hx
        have := h.2
        rw [List.all_eq_true] at this
        exact wfJson_dumpTRBlock b2 (this b2 hb2)
    simp [optField, wfJson_str, wfJson_boolc, h.1.1, hc]
    decide
  · simp [wfJson_str, h.1.1, h.1.2, h.2]
    decide
  · have hws : wfJson (Json.arr (ws.map dumpWSR)) = true := by
      rw [wfJson_arr, List.all_eq_true]
      intro x hx
      obtain ⟨w2, hw2, rfl⟩ := List.mem_map.mp hx
      have := h.2
      rw [List.all_eq_true] at this
      exact wfJson_dumpWSR w2 (this w2 hw2)
    simp [wfJson_str, h.1, hws]
    decide

/-- The dump of a well-formed `Message` is well-formed JSON. -/
theorem wfJson_dumpMessage (m : Message) (h : wfMessage m = true) :
    wfJson (dumpMessage m) = true := by
  obtain ⟨id, content, model, sr, ss, usage⟩ := m
  rw [wfMessage] at h
  simp only [Bool.and_eq_true] at h
  have hcontent : wfJson (Json.arr (content.map dumpContentBlock)) = true := by
    rw [wfJson_arr, List.all_eq_true]
    intro x hx
    obtain ⟨cb, hcb, rfl⟩ := List.mem_map.mp hx
    have := h.1.1.1.2
    rw [List.all_eq_true] at this
    exact wfJson_dumpContentBlock cb (this cb hcb)
  rw [dumpMessage, wfJson_obj]
  rcases ss with _ | s
  · rcases sr with _ | r <;> rcases usage with _ | u <;>
      simp [optField, wfJson_str, wfStr_toStr, h.1.1.1.1, h.1.1.2, hcontent,
        wfJson_dumpUsage] <;> decide
  · have hs : wfStr s = true := h.1.2
    rcases sr with _ | r <;> rcases usage with _ | u <;>
      simp [optField, wfJson_str, wfStr_toStr, h.1.1.1.1, h.1.1.2, hcontent,
        wfJson_dumpUsage, hs] <;> decide

/-- The dump of a well-formed `Delta` is well-formed JSON. -/
theorem wfJson_dumpDelta (d : Delta) (h : wfDelta d = true) :
    wfJson (dumpDelta d) = true := by
  rcases d with t | p | th | sg <;> rw [wfDelta] at h <;>
    rw [dumpDelta, wfJson_obj] <;> simp [wfJson_str, h] <;> decide

/-- The dump of a well-formed `MessageDeltaData` is well-formed JSON. -/
theorem wfJson_dumpMDD (d : MessageDeltaData) (h : wfMDD d = true) :
    wfJson (dumpMDD d) = true := by
  obtain ⟨sr, ss⟩ := d
  rw [wfMDD, Bool.and_eq_true] at h
  rw [dumpMDD, wfJson_obj]
  rcases ss with _ | s
  · rcases sr with _ | r <;>
      simp [optField, wfJson_str, wfStr_toStr] <;> decide
  · have hs : wfStr s = true := h.2
    rcases sr with _ | r <;>
      simp [optField, wfJson_str, wfStr_toStr, hs] <;> decide

/-- The dump of a supported event in canonical form is well-formed JSON. -/
theorem wfJson_dumpEvent (e : StreamingEvent) (h : wfEvent e = true) :
    wfJson (dumpEvent e) = true := by
  rcases e with m | ⟨i, cb⟩ | ⟨i, d⟩ | i | ⟨d, u⟩ | _ | _ | er | ⟨ty, dat⟩ <;>
    rw [wfEvent.eq_def] at h <;> dsimp only at h <;>
    (try simp only [Bool.and_eq_true] at h) <;>
    rw [dumpEvent] <;> (try rw [wfJson_obj])
  · simp [wfJson_str, wfJson_dumpMessage m h]
    decide
  · simp [wfJson_str, wfJson_num, wfJson_dumpContentBlock cb h]
    decide
  · simp [wfJson_str, wfJson_num, wfJson_dumpDelta d h]
    decide
  · simp [wfJson_str, wfJson_num]
    decide
  · have hd := wfJson_dumpMDD d h.1
    rcases u with _ | u2
    · simp [optField, wfJson_str, hd]
      decide
    · have hu : wfUsage u2 = true := h.2
      simp [optField, wfJson_str, hd, wfJson_dumpUsage]
      decide
  · simp [wfJson_str]
    decide
  · simp [wfJson_str]
    decide
  · obtain ⟨t2, msg⟩ := er
    have h1 : wfStr t2 = true := h.1
    have h2 : wfStr msg = true := h.2
    simp [wfJson_str, wfJson_obj, h1, h2]
    decide
  · cases h

/-- Parsing one dumped event payload recovers the event
(`_create_streaming_event ∘ json.dumps ∘ model_dump`). -/
theorem createStreamingEvent_dump (e : StreamingEvent) (h : wfEvent e = true) :
    createStreamingEvent (jsonDump (dumpEvent e)) = some e := by
  unfold createStreamingEvent
  rw [jsonLoads_dump _ (wfJson_dumpEvent e h)]
  exact validateEvent_dump e h

/-- `splitOnce` finds the first separator. -/
theorem splitOnce_first (sep : Char) (u v : Str)
    (h : u.all (fun c => !(c = sep)) = true) :
    splitOnce sep (u ++ sep :: v) = some (u, v) := by
  induction u with
  | nil =>
      unfold splitOnce
      simp
  | cons c u ih =>
      simp only [List.all_cons, Bool.and_eq_true, Bool.not_eq_true',
        decide_eq_false_iff_not] at h
      rw [List.cons_append]
      unfold splitOnce
      rw [if_neg h.1, ih h.2]

/-- `split("\n")` peels a newline-free prefix. -/
theorem splitOnNl_append (u v : Str) (h : u.all (fun c => !(c = '\n')) = true) :
    splitOnNl (u ++ '\n' :: v) = u :: splitOnNl v := by
  induction u with
  | nil =>
      rw [List.nil_append, splitOnNl, if_pos rfl]
  | cons c u ih =>
      simp only [List.all_cons, Bool.and_eq_true, Bool.not_eq_true',
        decide_eq_false_iff_not] at h
      rw [List.cons_append, splitOnNl, if_neg h.1, ih h.2]

/-- The buffer splitter ignores single newlines inside a message: a
newline-free nonempty chunk before `"\n\n"` is peeled whole. -/
theorem breakDoubleNl_chunk (v w : Str) (hv : v.all (fun c => !(c = '\n')) = true)
    (hne : v ≠ []) :
    breakDoubleNl (v ++ '\n' :: '\n' :: w) = some (v, w) := by
  induction v with
  | nil => exact absurd rfl hne
  | cons c v ih =>
      simp only [List.all_cons, Bool.and_eq_true, Bool.not_eq_true',
        decide_eq_false_iff_not] at hv
      rw [List.cons_append]
      unfold breakDoubleNl
      rw [if_neg hv.1]
      rcases v with _ | ⟨c2, v2⟩
      · rw [List.nil_append]
        show (match breakDoubleNl ('\n' :: '\n' :: w) with
              | some (a, b) => some (c :: a, b)
              | none => none) = some ([c], w)
        unfold breakDoubleNl
        rw [if_pos rfl]
        rfl
      · rw [ih hv.2 (List.cons_ne_nil _ _)]

/-- A full SSE message (event line, then a newline-free data line): the
two header fields are recovered. -/
theorem parseSseLine_event (acc : Option Str × Option Str) (ty : Str) :
    parseSseLine acc ("event: ".toList ++ ty) = (some ty, acc.2) := by
  unfold parseSseLine
  rw [show ("event: ".toList ++ ty) = "event".toList ++ ':' :: (' ' :: ty) from rfl,
    splitOnce_first ':' "event".toList (' ' :: ty) (by decide)]
  dsimp only
  rw [if_neg (by simp : ¬("event".toList ++ ':' :: ' ' :: ty).isEmpty = true)]
  rw [if_pos rfl, if_pos rfl]

/-- The `data:` line accumulates the payload. -/
theorem parseSseLine_data (acc : Option Str × Option Str) (json : Str) :
    parseSseLine acc ("data: ".toList ++ json) =
      (acc.1,
       match acc.2 with
       | none => some json
       | some d => some (d ++ '\n' :: json)) := by
  unfold parseSseLine
  rw [show ("data: ".toList ++ json) = "data".toList ++ ':' :: (' ' :: json) from rfl,
    splitOnce_first ':' "data".toList (' ' :: json) (by decide)]
  dsimp only
  rw [if_neg (by simp : ¬("data".toList ++ ':' :: ' ' :: json).isEmpty = true)]
  rw [if_pos rfl, if_neg (by decide : ¬("data".toList = "event".toList)), if_pos rfl]

/-- Supported events have a nonempty `type` literal. -/
theorem evType_ne_empty (e : StreamingEvent) (h : wfEvent e = true) :
    (evType e).isEmpty = false := by
  rcases e <;> first | rfl | (rw [wfEvent.eq_def] at h; cases h)

/-- Supported event `type` literals contain no newline. -/
theorem evType_no_nl (e : StreamingEvent) (h : wfEvent e = true) :
    (evType e).all (fun c => !(c = '\n')) = true := by
  rcases e <;> first | rfl | (rw [wfEvent.eq_def] at h; dsimp only at h; cases h)

/-- The serializer frame: one `event:` line, one `data:` line, blank
line terminator (for newline-free payloads). -/
theorem mkSse_eq (ty json : Str) (hty : ty.isEmpty = false)
    (hj : json.all (fun c => !(c = '\n')) = true) :
    mkSse ty json =
      ("event: ".toList ++ ty) ++
        '\n' :: (("data: ".toList ++ json) ++ '\n' :: '\n' :: []) := by
  unfold mkSse
  rw [if_neg (by rw [hty]; exact Bool.false_ne_true), splitOnNl_of_no_nl json hj]
  rw [List.map_cons, List.map_nil, List.cons_append, List.nil_append,
    intercalate_cons₂, intercalate_singleton]
  simp [List.append_assoc]

/-- `serialize_batch` on a supported head event. -/
theorem serialize_batch_cons (e : StreamingEvent) (es : List StreamingEvent)
    (h : wfEvent e = true) :
    serialize_batch (e :: es) =
      mkSse (evType e) (jsonDump (dumpEvent e)) ++ serialize_batch es := by
  rcases e <;>
    first
      | (rw [serialize_batch, serialize_batch, List.map_cons, List.foldr_cons,
           serialize_event]
         all_goals (intro a b hx; exact StreamingEvent.noConfusion hx))
      | (rw [wfEvent.eq_def] at h
         dsimp only at h
         cases h)

/-- The buffer splitter peels a whole two-line message (single interior
newline) at the terminating blank line. -/
theorem breakDoubleNl_msg (u v w : Str)
    (hu : u.all (fun c => !(c = '\n')) = true)
    (hv : v.all (fun c => !(c = '\n')) = true) (hvne : v ≠ []) :
    breakDoubleNl (u ++ '\n' :: (v ++ '\n' :: '\n' :: w)) = some (u ++ '\n' :: v, w) := by
  induction u with
  | nil =>
      simp only [List.nil_append]
      rcases v with _ | ⟨d, v2⟩
      · exact absurd rfl hvne
      have hd : ¬ d = '\n' := by
        simp only [List.all_cons, Bool.and_eq_true, Bool.not_eq_true',
          decide_eq_false_iff_not] at hv
        exact hv.1
      rw [breakDoubleNl.eq_def]
      dsimp only
      rw [if_pos rfl, List.cons_append]
      dsimp only
      rw [if_neg hd]
      have hch := breakDoubleNl_chunk (d :: v2) w hv (List.cons_ne_nil _ _)
      rw [List.cons_append] at hch
      rw [hch]
  | cons c u ih =>
      simp only [List.all_cons, Bool.and_eq_true, Bool.not_eq_true',
        decide_eq_false_iff_not] at hu
      rw [List.cons_append, breakDoubleNl.eq_def]
      dsimp only
      rw [if_neg hu.1, ih hu.2]
      rfl

/-- Parsing one framed SSE message recovers the `event` and `data`
fields. -/
theorem parse_sse_message_msg (ty json : Str)
    (hty : ty.all (fun c => !(c = '\n')) = true)
    (hj : json.all (fun c => !(c = '\n')) = true) :
    parse_sse_message (("event: ".toList ++ ty) ++ '\n' :: ("data: ".toList ++ json)) =
      (some ty, some json) := by
  unfold parse_sse_message
  rw [splitOnNl_append _ _
      (by rw [List.all_append, Bool.and_eq_true]; exact ⟨by decide, hty⟩),
    splitOnNl_of_no_nl _
      (by rw [List.all_append, Bool.and_eq_true]; exact ⟨by decide, hj⟩)]
  rw [List.foldl_cons, List.foldl_cons, List.foldl_nil]
  rw [parseSseLine_event (none, none) ty]
  rw [parseSseLine_data]

/-- `_process_buffer` replays a serialized batch of canonical events. -/
theorem processBuffer_batch (es : List StreamingEvent) (fuel : Nat)
    (hwf : es.all wfEvent = true) (hfuel : es.length ≤ fuel) :
    processBuffer fuel (serialize_batch es) = (es, []) := by
  induction es generalizing fuel with
  | nil =>
      rcases fuel with _ | f
      · rfl
      · rfl
  | cons e es ih =>
      simp only [List.all_cons, Bool.and_eq_true] at hwf
      obtain ⟨f, rfl⟩ : ∃ f, fuel = f + 1 :=
        ⟨fuel - 1, by simp only [List.length_cons] at hfuel; omega⟩
      have hnl : (jsonDump (dumpEvent e)).all (fun c => !(c = '\n')) = true :=
        (jsonDump_no_nl_all (sizeOf (dumpEvent e))).1 _ le_rfl
          (wfJson_dumpEvent e hwf.1)
      have hty := evType_no_nl e hwf.1
      rw [serialize_batch_cons e es hwf.1]
      rw [mkSse_eq _ _ (evType_ne_empty e hwf.1) hnl]
      have hshape :
          ((("event: ".toList ++ evType e) ++
            '\n' :: (("data: ".toList ++ jsonDump (dumpEvent e)) ++
              '\n' :: '\n' :: [])) ++ serialize_batch es) =
          (("event: ".toList ++ evType e) ++
            '\n' :: ((("data: ".toList ++ jsonDump (dumpEvent e))) ++
              '\n' :: '\n' :: serialize_batch es)) := by
        simp [List.append_assoc]
      rw [hshape]
      rw [processBuffer]
      rw [breakDoubleNl_msg _ _ _
        (by rw [List.all_append, Bool.and_eq_true]; exact ⟨by decide, hty⟩)
        (by rw [List.all_append, Bool.and_eq_true]; exact ⟨by decide, hnl⟩)
        (by rw [show ("data: ".toList ++ jsonDump (dumpEvent e)) =
              'd' :: ("ata: ".toList ++ jsonDump (dumpEvent e)) from rfl]
            exact List.cons_ne_nil _ _)]
      dsimp only
      rw [parse_sse_message_msg _ _ hty hnl]
      dsimp only
      have hie : (jsonDump (dumpEvent e)).isEmpty = false := by
        obtain ⟨c, cs, hd, -, -, -, -⟩ := jsonDump_head (dumpEvent e)
        rw [hd]
        rfl
      rw [if_neg (by rw [hie]; exact Bool.false_ne_true)]
      rw [createStreamingEvent_dump e hwf.1]
      dsimp only
      rw [ih f hwf.2 (by simp only [List.length_cons] at hfuel; omega)]
      rfl

/-- Each serialized event occupies at least one character, so the
buffer length bounds the event count. -/
theorem batch_length_ge (es : List StreamingEvent) (hwf : es.all wfEvent = true) :
    es.length ≤ (serialize_batch es).length := by
  induction es with
  | nil => simp [serialize_batch]
  | cons e es ih =>
      simp only [List.all_cons, Bool.and_eq_true] at hwf
      rw [serialize_batch_cons e es hwf.1,
        mkSse_eq _ _ (evType_ne_empty e hwf.1)
          ((jsonDump_no_nl_all (sizeOf (dumpEvent e))).1 _ le_rfl
            (wfJson_dumpEvent e hwf.1))]
      have := ih hwf.2
      simp only [List.length_append, List.length_cons, List.length_nil]
      omega

/-- `parse_stream` inverts `serialize_batch` on canonical event lists. -/
theorem parse_serialize_batch (es : List StreamingEvent)
    (h : es.all wfEvent = true) :
    parse_stream (serialize_batch es) = es := by
  unfold parse_stream
  rw [processBuffer_batch es _ h
    (by have := batch_length_ge es h; omega)]
  rfl

/-- A drained buffer yields no further events. -/
theorem processBuffer_nil (f : Nat) : processBuffer f [] = ([], []) := by
  cases f <;> rfl

/-- Parsing a data-only SSE message (no `event:` header line). -/
theorem parse_sse_message_data (json : Str)
    (hj : json.all (fun c => !(c = '\n')) = true) :
    parse_sse_message ("data: ".toList ++ json) = (none, some json) := by
  unfold parse_sse_message
  rw [splitOnNl_of_no_nl _
    (by rw [List.all_append, Bool.and_eq_true]; exact ⟨by decide, hj⟩)]
  rw [List.foldl_cons, List.foldl_nil]
  rw [parseSseLine_data]

/-- C6 (counterexample): `serialize(parse(x)) = x` fails even for a
stream of supported events with valid text: the bare message
`data: \x7b"type":"ping"\x7d` parses to the `ping` event, but the
serializer always emits an `event: ping` header line first, so the
round trip yields `event: ping\ndata: \x7b"type":"ping"\x7d\n\n ≠ x`. -/
theorem C6_sse_roundtrip_counterexample :
    parse_stream "data: \x7b\"type\":\"ping\"\x7d\n\n".toList =
      [StreamingEvent.ping] ∧
    serialize_batch
        (parse_stream "data: \x7b\"type\":\"ping\"\x7d\n\n".toList) ≠
      "data: \x7b\"type\":\"ping\"\x7d\n\n".toList := by
  have hjson : createStreamingEvent "\x7b\"type\":\"ping\"\x7d".toList =
      some StreamingEvent.ping := by rfl
  have hp : parse_stream "data: \x7b\"type\":\"ping\"\x7d\n\n".toList =
      [StreamingEvent.ping] := by
    rw [show "data: \x7b\"type\":\"ping\"\x7d\n\n".toList =
        "data: \x7b\"type\":\"ping\"\x7d".toList ++ '\n' :: '\n' :: [] from rfl]
    unfold parse_stream
    dsimp only
    rw [processBuffer]
    rw [breakDoubleNl_chunk _ _ (by decide) (by decide)]
    dsimp only
    rw [show "data: \x7b\"type\":\"ping\"\x7d".toList =
        "data: ".toList ++ "\x7b\"type\":\"ping\"\x7d".toList from rfl]
    rw [parse_sse_message_data _ (by decide)]
    dsimp only
    rw [if_neg (by decide :
      ¬("\x7b\"type\":\"ping\"\x7d".toList.isEmpty = true))]
    rw [hjson]
    dsimp only
    rw [processBuffer_nil]
    rfl
  refine ⟨hp, ?_⟩
  rw [hp]
  have hdump : jsonDump (dumpEvent StreamingEvent.ping) =
      "\x7b\"type\":\"ping\"\x7d".toList := by
    rw [show dumpEvent StreamingEvent.ping =
        Json.obj [("type".toList, Json.str "ping".toList)] from rfl]
    rw [jsonDump_obj, List.map_cons, List.map_nil, intercalate_singleton,
      jsonDumpStr_plain _ (by decide), jsonDump, jsonDumpStr_plain _ (by decide)]
    decide
  rw [serialize_batch_cons StreamingEvent.ping [] (by decide), hdump]
  decide

/-- C6 (amended): for SSE streams produced by the serializer itself from
supported events in canonical form — no `unknown` events, escape-free
strings, the `Usage` cache counters and `is_error` present, and
`message_delta.stop_reason` among its four admitted literals — parsing
inverts serialization: `parse(serialize(es)) = es`.  The claim's stated
direction `serialize(parse(x)) = x` is refuted by
`C6_sse_roundtrip_counterexample`: the parser accepts messages without
an `event:` header line, which the serializer always emits. -/
theorem C6_sse_roundtrip_amended (es : List StreamingEvent)
    (h : es.all wfEvent = true) :
    parse_stream (serialize_batch es) = es :=
  parse_serialize_batch es h

theorem C6_sse_roundtrip_amended_witness :
    [StreamingEvent.ping].all wfEvent = true ∧
    parse_stream (serialize_batch [StreamingEvent.ping]) = [StreamingEvent.ping] :=
  ⟨by decide, C6_sse_roundtrip_amended [StreamingEvent.ping] (by decide)⟩
